import Mathlib

/-!
# Heracles: job splitting, phase scheduling, task state and payload codec

A shallow embedding of the Go sources of `CPSSD/heracles`:

* `manager-fallback/splitting` (`IntermediateFiles`, `Map`, `textMap`,
  `splitTextFile`, `Reduce`),
* `manager-fallback/scheduler` (`processJob`, `processTask`),
* `manager-fallback/state` (`FileStore.CreateTasks`, `createTask`,
  `WaitUntilTasksComplete`, `SaveJob`, `SaveTask`, `removeJob`,
  `prepareJobDirectory`),
* `hrctl/app/app.go` (`loadJob`),
* `worker-fallback/worker/state` (`FileStore.SaveProgress`),
* `worker/broker/amqp.go` (`Listen`, `Done`, `Failed`, `Tasks`),
* `worker-fallback/worker/runner/runner.go` (`handleTask`, `prepareCmd`,
  `succeedTask`, `failTask`, the goroutine of `Run`),
* `worker/runner/util.go` (`sanityCheck`, `mapReader`, `reduceReader`,
  `saveResults`, `saveMapResults`, `saveReduceResults`).

Conventions of the embedding

* A Go `error` is `Option GoError` (`none` is `nil`).
* A file system is a finite list of bindings from path to content.  The
  outcome of an operation the program cannot determine from that list (a
  write that is refused, a directory listing, a clock, a UUID, the order in
  which `range` visits a map) is an explicit argument.
* A Go map is an association list with `mapGet` and `mapSet`; a `range` over it
  visits the keys in an order supplied by the caller.
* Calls on collaborators (state store, broker, commands) are recorded in a
  trace, oldest first; goroutines that are joined before the next step are
  run one after the other.  A panic ends the run.
* Library functions that are not part of the repository (`proto.Marshal`,
  `json.Marshal`, `json.Unmarshal`) are arguments.
* Paths are joined as `path.Join` joins them, cleaning included
  (`pathJoinClean`); only the planned paths of `IntermediateFiles`, made of
  generated elements, are plain concatenations (`pathJoin`).  Whether the
  variable of a `range` loop is one per loop or one per iteration is an
  argument (`LoopVar`).
-/

namespace Heracles

/-! ## Go run-time helpers -/

/-- The Go error values the code distinguishes: a message, and whether
`os.IsNotExist` answers true for it. -/
structure GoError where
  msg : String
  notExist : Bool
  deriving DecidableEq, Repr

/-- Result of a Go function returning `(T, error)` that may also panic. -/
inductive Res (α : Type) where
  | ok (val : α)
  | err (e : GoError)
  | panic (msg : String)
  deriving DecidableEq, Repr

/-- `errors.New(msg)`. -/
def errorsNew (msg : String) : Option GoError :=
  some ⟨msg, false⟩

/-- The error that `errors.Wrap` builds around a non-nil error: its text is
`msg: <err>`. -/
def wrapError (e : GoError) (msg : String) : GoError :=
  ⟨msg ++ ": " ++ e.msg, false⟩

/-- `errors.Wrap(err, msg)` of github.com/pkg/errors: nil when `err` is nil,
otherwise the wrapping error. -/
def errorsWrap (err : Option GoError) (msg : String) : Option GoError :=
  match err with
  | none => none
  | some e => some (wrapError e msg)

/-- `os.IsNotExist(err)`. -/
def osIsNotExist (err : Option GoError) : Bool :=
  match err with
  | none => false
  | some e => e.notExist

/-- `path.Join(elems...)` as `IntermediateFiles` applies it, to elements
taken as clean and non-empty (the configured intermediate directory, the job
id, a decimal partition number, a generated UUID): the elements separated by
a slash.  Every other join of the sources is `pathJoinClean`. -/
def pathJoin : List String → String
  | [] => ""
  | [a] => a
  | a :: b :: rest => a ++ "/" ++ pathJoin (b :: rest)

/-- `strings.Join(elems, sep)`. -/
def stringsJoin : List String → String → String
  | [], _ => ""
  | [a], _ => a
  | a :: b :: rest, sep => a ++ sep ++ stringsJoin (b :: rest) sep

/-- The elements of a path: the runs of characters between its slashes, `cur`
holding the characters of the current element, latest first. -/
def pathElements : List Char → List Char → List (List Char)
  | [], cur => [cur.reverse]
  | c :: cs, cur =>
    if c = '/' then cur.reverse :: pathElements cs [] else pathElements cs (c :: cur)

/-- The pass of `path.Clean` over the elements, `kept` holding the elements
written so far, latest first: an empty element and `.` are dropped; `..`
removes the element before it when that is not itself a `..`, is dropped at
the root of a rooted path and is kept otherwise; any other element is kept. -/
def cleanElements (rooted : Bool) : List (List Char) → List (List Char) → List (List Char)
  | [], kept => kept.reverse
  | e :: es, kept =>
    if e = [] ∨ e = ['.'] then cleanElements rooted es kept
    else if e = ['.', '.'] then
      match kept with
      | [] => if rooted then cleanElements rooted es [] else cleanElements rooted es [e]
      | top :: below =>
        if top = ['.', '.'] then cleanElements rooted es (e :: kept)
        else cleanElements rooted es below
    else cleanElements rooted es (e :: kept)

/-- Elements separated by slashes. -/
def joinElements : List (List Char) → List Char
  | [] => []
  | [e] => e
  | e :: f :: rest => e ++ '/' :: joinElements (f :: rest)

/-- `path.Clean(p)` of the Go library: the shortest path equivalent to `p` by
purely lexical processing; `.` for the empty result. -/
def pathClean (p : String) : String :=
  if p = "" then "."
  else
    let rooted : Bool := decide (p.data.head? = some '/')
    let body := joinElements (cleanElements rooted (pathElements p.data []) [])
    if rooted then String.mk ('/' :: body)
    else if body = [] then "."
    else String.mk body

/-- `path.Join(elems...)` of the Go library: empty elements are ignored, the
others are joined by slashes and the result is cleaned; the empty string when
every element is empty. -/
def pathJoinClean (elems : List String) : String :=
  if elems.all (fun e => decide (e = "")) then ""
  else pathClean (stringsJoin (elems.filter (fun e => decide (e ≠ ""))) "/")

/-- `uint64(x)` of a signed 64-bit value. -/
def toUint64 (x : Int) : Nat :=
  (x % (2 ^ 64 : Int)).toNat

/-- Value of a run of decimal digits, `none` if a character is not a digit. -/
def digitsValue : List Char → Nat → Option Nat
  | [], acc => some acc
  | c :: cs, acc =>
    if c.isDigit then digitsValue cs (acc * 10 + (c.toNat - 48)) else none

/-- `strconv.Atoi(s)`: an optional sign, then one or more decimal digits, the
value within the 64-bit `int` range; `none` stands for the returned error. -/
def atoi (s : String) : Option Int :=
  let body : Bool × List Char :=
    match s.data with
    | '+' :: r => (false, r)
    | '-' :: r => (true, r)
    | cs => (false, cs)
  if body.2 = [] then none
  else
    match digitsValue body.2 0 with
    | none => none
    | some n =>
      let v : Int := if body.1 then -(n : Int) else (n : Int)
      if -(2 ^ 63 : Int) ≤ v ∧ v < (2 ^ 63 : Int) then some v else none

/-! ## Go maps -/

/-- A Go map as an association list; the first binding of a key is the one
that counts. -/
abbrev GoMap (K V : Type) := List (K × V)

/-- The value of `m[k]`, or `none` when the key is absent. -/
def mapGet {K V : Type} [DecidableEq K] : GoMap K V → K → Option V
  | [], _ => none
  | (k0, v) :: rest, k => if k0 = k then some v else mapGet rest k

/-- The assignment `m[k] = v`. -/
def mapSet {K V : Type} [DecidableEq K] : GoMap K V → K → V → GoMap K V
  | [], k, v => [(k, v)]
  | (k0, v0) :: rest, k, v =>
    if k0 = k then (k, v) :: rest else (k0, v0) :: mapSet rest k v

/-- The keys of a map, in the order of the association list. -/
def mapKeys {K V : Type} (m : GoMap K V) : List K :=
  m.map Prod.fst

/-- The expression `m[k]` for a map of slices: the nil slice for an absent key. -/
def mapGetSlice {K V : Type} [DecidableEq K] (m : GoMap K (List V)) (k : K) : List V :=
  (mapGet m k).getD []

/-! ## Data model -/

/-- Modelled from the spec: the enum `datatypes.TaskKind` of the protobuf
package `proto/datatypes`, whose declaration is not among the sources.
`OTHER` stands for every value of the underlying integer that is neither
`MAP` nor `REDUCE`. -/
inductive TaskKind where
  | MAP
  | REDUCE
  | OTHER
  deriving DecidableEq, Repr

/-- Modelled from the spec: the enum `datatypes.TaskStatus`. -/
inductive TaskStatus where
  | TASK_PENDING
  | TASK_IN_PROGRESS
  | TASK_DONE
  | TASK_FAILED
  deriving DecidableEq, Repr

/-- Modelled from the spec: the enum `datatypes.JobStatus`. -/
inductive JobStatus where
  | JOB_PENDING
  | JOB_IN_PROGRESS
  | JOB_FAILED
  | JOB_DONE
  deriving DecidableEq, Repr

/-- Modelled from the spec: the enum `datatypes.InputDataKind`; `OTHER` stands
for every value that is neither `UNDEFINED` nor `DATA_TEXT_NEWLINES`. -/
inductive InputDataKind where
  | UNDEFINED
  | DATA_TEXT_NEWLINES
  | OTHER
  deriving DecidableEq, Repr

/-- Modelled from the spec: the message `datatypes.InputChunk`. -/
structure InputChunk where
  path : String
  startByte : Nat
  endByte : Nat
  deriving DecidableEq, Repr

/-- Modelled from the spec: the message `datatypes.Task`.  `inputChunk` is a
pointer in Go and may be nil. -/
structure Task where
  id : String
  jobId : String
  status : TaskStatus
  kind : TaskKind
  timeCreated : Nat
  timeStarted : Nat
  timeDone : Nat
  inputChunk : Option InputChunk
  payloadPath : String
  partitionCount : Nat
  outputFiles : List String
  failureDetails : String
  deriving DecidableEq, Repr

/-- Modelled from the spec: the message `datatypes.Job`. -/
structure Job where
  id : String
  inputDirectory : String
  payloadPath : String
  inputKind : InputDataKind
  outputFiles : List String
  status : JobStatus
  timeScheduled : Nat
  timeDone : Nat
  failureDetails : String
  deriving DecidableEq, Repr

/-- `in.GetPath()`: the empty string on a nil chunk. -/
def InputChunk.getPath (c : Option InputChunk) : String :=
  match c with
  | none => ""
  | some x => x.path

/-! ## File system -/

/-- Regular files: path and content; the first binding of a path counts. -/
abbrev FS := List (String × String)

/-- Content of the file at `p`, if there is one.  The empty path names no
file. -/
def FS.read : FS → String → Option String
  | [], _ => none
  | (q, c) :: rest, p => if q = p ∧ p ≠ "" then some c else FS.read rest p

/-- The file system without any file at `p`. -/
def FS.remove (fs : FS) (p : String) : FS :=
  fs.filter (fun e => decide (e.1 ≠ p))

/-- The file system with `p` holding `c`. -/
def FS.write (fs : FS) (p c : String) : FS :=
  (p, c) :: FS.remove fs p

/-- How a call of `ioutil.WriteFile` ends: the data is written; the file
cannot be opened (nothing changes); or the file is created or truncated and
only the first `kept` characters arrive before the error. -/
inductive WriteOutcome where
  | done
  | refused
  | torn (kept : Nat)
  deriving DecidableEq, Repr

/-- Outcomes of file operations that the file list does not determine. -/
structure Faults where
  readAll : String → Bool
  writeFile : String → WriteOutcome
  remove : String → Bool

/-- The environment in which every operation succeeds when it can. -/
def noFaults : Faults :=
  ⟨fun _ => false, fun _ => WriteOutcome.done, fun _ => false⟩

/-- `os.Stat(p)`, error part: nil when the file exists, otherwise the
not-exist error.  Errors of `os.Stat` of any other kind are not modelled. -/
def osStat (fs : FS) (p : String) : Option GoError :=
  match FS.read fs p with
  | some _ => none
  | none => some ⟨"stat " ++ p ++ ": no such file or directory", true⟩

/-- `ioutil.WriteFile(p, data, perm)`. -/
def ioutilWriteFile (flt : Faults) (fs : FS) (p data : String) : Option GoError × FS :=
  if p = "" then (some ⟨"open : no such file or directory", true⟩, fs)
  else
    match flt.writeFile p with
    | WriteOutcome.done => (none, FS.write fs p data)
    | WriteOutcome.refused => (some ⟨"open " ++ p ++ ": permission denied", false⟩, fs)
    | WriteOutcome.torn kept =>
      (some ⟨"write " ++ p ++ ": input/output error", false⟩, FS.write fs p (data.take kept))

/-- `os.Remove(p)`. -/
def osRemove (flt : Faults) (fs : FS) (p : String) : Option GoError × FS :=
  match FS.read fs p with
  | none => (some ⟨"remove " ++ p ++ ": no such file or directory", true⟩, fs)
  | some _ =>
    if flt.remove p then (some ⟨"remove " ++ p ++ ": operation not permitted", false⟩, fs)
    else (none, FS.remove fs p)

/-! ## Worker state store: `worker-fallback/worker/state/file.go` -/

def jobsDir : String := "jobs"

def tasksDir : String := "tasks"

def pendingMapDir : String := "pending_map_tasks"

def pendingReduceDir : String := "pending_reduce_tasks"

/-- The path `jobDirPath` of `SaveProgress`. -/
def jobDirPath (root : String) (task : Task) : String :=
  pathJoinClean [root, jobsDir, task.jobId]

/-- The path `taskFilePath` of `SaveProgress`. -/
def taskFilePath (root : String) (task : Task) : String :=
  pathJoinClean [jobDirPath root task, tasksDir, task.id]

/-- The path `pendingFilePath` of `SaveProgress`: the switch on the kind has
no default, so any other kind leaves the empty string. -/
def pendingFilePath (root : String) (task : Task) : String :=
  match task.kind with
  | TaskKind.MAP => pathJoinClean [jobDirPath root task, pendingMapDir, task.id]
  | TaskKind.REDUCE => pathJoinClean [jobDirPath root task, pendingReduceDir, task.id]
  | TaskKind.OTHER => ""

/-- `FileStore.SaveProgress(task)`, with `root` the store's `path`,
`marshal` for `proto.Marshal`: the returned error and the file system left
behind. -/
def SaveProgress (marshal : Task → Except GoError String) (flt : Faults) (root : String)
    (fs : FS) (task : Task) : Option GoError × FS :=
  let statTask := osStat fs (taskFilePath root task)
  if osIsNotExist statTask then (errorsWrap statTask "missing task", fs)
  else
    let statPending := osStat fs (pendingFilePath root task)
    if osIsNotExist statPending then (errorsWrap statPending "missing pending file", fs)
    else
      match marshal task with
      | Except.error e => (errorsWrap (some e) "unable to serialize task", fs)
      | Except.ok serializedTask =>
        match ioutilWriteFile flt fs (taskFilePath root task) serializedTask with
        | (some e, fs1) => (errorsWrap (some e) ("unable to write task " ++ task.id), fs1)
        | (none, fs1) =>
          if task.status = TaskStatus.TASK_DONE then
            match osRemove flt fs1 (pendingFilePath root task) with
            | (some e, fs2) =>
              (errorsWrap (some e) ("unable to remove pending task " ++ task.id), fs2)
            | (none, fs2) => (none, fs2)
          else (none, fs1)

/-! ## Splitter: `manager-fallback/splitting` -/

/-- What the splitter reads from its surroundings: two settings, the directory
listing of `ioutil.ReadDir` (entry names), the size reported by `os.Stat`
(`none` when `os.Stat` fails) and the error of `os.MkdirAll`. -/
structure SplitEnv where
  intermediateDataLocation : String
  inputChunkSize : Int
  readDir : String → Except GoError (List String)
  statSize : String → Option Int
  mkdirAll : String → Option GoError

/-- The inner loop of `IntermediateFiles` for partition `i`: one append to
`ret[i]` per input file, `j` counting the files. -/
def intermediateInner (uuid : Nat → String) (jobDir : String) (i nFiles : Nat) :
    List Nat → GoMap Int (List String) → GoMap Int (List String)
  | [], ret => ret
  | j :: js, ret =>
    intermediateInner uuid jobDir i nFiles js
      (mapSet ret (i : Int)
        (mapGetSlice ret (i : Int) ++ [pathJoin [jobDir, toString i, uuid (i * nFiles + j)]]))

/-- The outer loop of `IntermediateFiles` over the partitions; `none` is the
early `return nil`. -/
def intermediateOuter (env : SplitEnv) (uuid : Nat → String) (jobDir : String) (nFiles : Nat) :
    List Nat → GoMap Int (List String) → Option (GoMap Int (List String))
  | [], ret => some ret
  | i :: is, ret =>
    match env.mkdirAll (pathJoin [jobDir, toString i]) with
    | some _ => none
    | none =>
      intermediateOuter env uuid jobDir nFiles is
        (intermediateInner uuid jobDir i nFiles (List.range nFiles) ret)

/-- `IntermediateFiles(job)`; `uuid n` is the n-th UUID drawn.  The nil map
returned on an error is the empty map. -/
def IntermediateFiles (env : SplitEnv) (uuid : Nat → String) (job : Job) :
    GoMap Int (List String) :=
  let out := job.outputFiles.length
  let jobDir := pathJoin [env.intermediateDataLocation, job.id]
  match env.mkdirAll jobDir with
  | some _ => []
  | none =>
    match env.readDir job.inputDirectory with
    | Except.error _ => []
    | Except.ok inFiles =>
      (intermediateOuter env uuid jobDir inFiles.length (List.range out) []).getD []

/-- `splitTextFile(f)`.  When `os.Stat` fails the error is only logged and the
call `fi.Name()` on the nil `FileInfo` panics. -/
def splitTextFile (env : SplitEnv) (f : String) : Res (List InputChunk) :=
  match env.statSize f with
  | none => Res.panic "invalid memory address or nil pointer dereference"
  | some size =>
    if size < env.inputChunkSize then Res.ok [⟨f, 0, toUint64 size⟩]
    else Res.ok []

/-- The first loop of `textMap`: the chunks of all entries, appended in the
order of the listing. -/
def textMapChunks (env : SplitEnv) (dir : String) : List String → Res (List InputChunk)
  | [] => Res.ok []
  | name :: rest =>
    match splitTextFile env (pathJoinClean [dir, name]) with
    | Res.ok cs =>
      match textMapChunks env dir rest with
      | Res.ok more => Res.ok (cs ++ more)
      | other => other
    | other => other

/-- The loop `for p := range interm` of `textMap` for chunk `i`, the keys
visited in the order `ps`: appends `interm[p][i]`, and panics when the index is
out of range. -/
def textMapOutputFiles (interm : GoMap Int (List String)) (i : Nat) :
    List Int → Res (List String)
  | [] => Res.ok []
  | p :: ps =>
    match (mapGetSlice interm p)[i]? with
    | none => Res.panic "index out of range"
    | some file =>
      match textMapOutputFiles interm i ps with
      | Res.ok files => Res.ok (file :: files)
      | other => other

/-- The second loop of `textMap`, from chunk index `i` on.  `order i keys` is
the order in which the `range` of iteration `i` visits the keys of the plan. -/
def textMapTasks (uuid : Nat → String) (now : Nat → Int) (order : Nat → List Int → List Int)
    (job : Job) (interm : GoMap Int (List String)) : List InputChunk → Nat → Res (List Task)
  | [], _ => Res.ok []
  | chunk :: rest, i =>
    match textMapOutputFiles interm i (order i (mapKeys interm)) with
    | Res.ok outputFiles =>
      match textMapTasks uuid now order job interm rest (i + 1) with
      | Res.ok tasks =>
        Res.ok
          ({ id := uuid i
             jobId := job.id
             status := TaskStatus.TASK_PENDING
             kind := TaskKind.MAP
             timeCreated := toUint64 (now i)
             timeStarted := 0
             timeDone := 0
             inputChunk := some chunk
             payloadPath := job.payloadPath
             partitionCount := job.outputFiles.length
             outputFiles := outputFiles
             failureDetails := "" } :: tasks)
      | other => other
    | Res.err e => Res.err e
    | Res.panic m => Res.panic m

/-- `textMap(job, interm)`. -/
def textMap (env : SplitEnv) (uuid : Nat → String) (now : Nat → Int)
    (order : Nat → List Int → List Int) (job : Job) (interm : GoMap Int (List String)) :
    Res (List Task) :=
  match env.readDir job.inputDirectory with
  | Except.error e => Res.err (wrapError e "can\x27t read dir")
  | Except.ok entries =>
    match textMapChunks env job.inputDirectory entries with
    | Res.ok chunks => textMapTasks uuid now order job interm chunks 0
    | Res.err e => Res.err e
    | Res.panic m => Res.panic m

/-- `Map(job, interm)`: dispatch on the input kind. -/
def Map (env : SplitEnv) (uuid : Nat → String) (now : Nat → Int)
    (order : Nat → List Int → List Int) (job : Job) (interm : GoMap Int (List String)) :
    Res (List Task) :=
  match job.inputKind with
  | InputDataKind.UNDEFINED => Res.err ⟨"type cannot be undefined", false⟩
  | InputDataKind.DATA_TEXT_NEWLINES => textMap env uuid now order job interm
  | InputDataKind.OTHER => Res.ok []

/-- The loop of `Reduce` from output index `i` on. -/
def reduceTasks (uuid : Nat → String) (now : Nat → Int) (job : Job)
    (interm : GoMap Int (List String)) : List String → Nat → List Task
  | [], _ => []
  | output :: rest, i =>
    { id := uuid i
      jobId := job.id
      status := TaskStatus.TASK_PENDING
      kind := TaskKind.REDUCE
      timeCreated := toUint64 (now i)
      timeStarted := 0
      timeDone := 0
      inputChunk := some ⟨stringsJoin (mapGetSlice interm (i : Int)) ",", 0, 0⟩
      payloadPath := job.payloadPath
      partitionCount := 0
      outputFiles := [output]
      failureDetails := "" } :: reduceTasks uuid now job interm rest (i + 1)

/-- `Reduce(job, interm)`. -/
def Reduce (uuid : Nat → String) (now : Nat → Int) (job : Job)
    (interm : GoMap Int (List String)) : List Task :=
  reduceTasks uuid now job interm job.outputFiles 0

/-! ## Scheduler: `manager-fallback/scheduler/scheduler.go` -/

/-- The calls `processJob` makes on its collaborators, with what they
returned. -/
inductive Event where
  | createTasks (tasks : List Task) (result : Option GoError)
  | send (task : Task) (result : Option GoError)
  | waitUntilTasksComplete (jobId : String) (kind : TaskKind) (result : Option GoError)
  | saveJob (job : Job) (result : Option GoError)
  deriving DecidableEq, Repr

/-- The collaborators of the scheduler: what the state store (`st`) and the
broker (`br`) answer, the order in which the goroutines of one phase reach
the broker, and the sources of UUIDs and clock readings of each call site. -/
structure SchedEnv where
  split : SplitEnv
  createTasks : List Task → Option GoError
  waitUntilTasksComplete : String → TaskKind → Option GoError
  saveJob : Job → Option GoError
  send : Task → Option GoError
  goOrder : List Task → List Task
  rangeOrder : Nat → List Int → List Int
  uuidPlan : Nat → String
  uuidMap : Nat → String
  uuidReduce : Nat → String
  nowMap : Nat → Int
  nowReduce : Nat → Int
  nowDone : Int

/-- `processTask(task)`: the error returned. -/
def processTask (env : SchedEnv) (task : Task) : Option GoError :=
  match env.send task with
  | some e => some (wrapError e "can\x27t send task to broker")
  | none => none

/-- One phase of `processJob`: a goroutine per task calls `processTask` and, on
an error, records it in the job; `wg.Wait()` returns when all have run.  The
goroutines are taken in the given order. -/
def runPhase (env : SchedEnv) : List Task → Job → List Event → Job × List Event
  | [], job, trace => (job, trace)
  | task :: rest, job, trace =>
    match processTask env task with
    | some e =>
      runPhase env rest
        { job with failureDetails := e.msg, status := JobStatus.JOB_FAILED }
        (trace ++ [Event.send task (env.send task)])
    | none => runPhase env rest job (trace ++ [Event.send task (env.send task)])

/-- What a run of `processJob` leaves: the returned error (or panic), the job
descriptor, and the calls made, oldest first. -/
structure JobRun where
  result : Res Unit
  job : Job
  trace : List Event
  deriving DecidableEq, Repr

/-- The result of a function returning `error`. -/
def Res.ofError (e : Option GoError) : Res Unit :=
  match e with
  | none => Res.ok ()
  | some x => Res.err x

/-- `processJob(job)`. -/
def processJob (env : SchedEnv) (job : Job) : JobRun :=
  let intermediateFiles := IntermediateFiles env.split env.uuidPlan job
  match Map env.split env.uuidMap env.nowMap env.rangeOrder job intermediateFiles with
  | Res.panic m => ⟨Res.panic m, job, []⟩
  | Res.err e => ⟨Res.err e, { job with failureDetails := e.msg }, []⟩
  | Res.ok mapTasks =>
    let reduceTasks := Reduce env.uuidReduce env.nowReduce job intermediateFiles
    match env.createTasks (mapTasks ++ reduceTasks) with
    | some e =>
      ⟨Res.err e, { job with failureDetails := e.msg },
        [Event.createTasks (mapTasks ++ reduceTasks) (some e)]⟩
    | none =>
      let afterMap :=
        runPhase env (env.goOrder mapTasks) job
          [Event.createTasks (mapTasks ++ reduceTasks) none]
      let waitedMap :=
        afterMap.2 ++ [Event.waitUntilTasksComplete job.id TaskKind.MAP
          (env.waitUntilTasksComplete job.id TaskKind.MAP)]
      let afterReduce := runPhase env (env.goOrder reduceTasks) afterMap.1 waitedMap
      let waitedReduce :=
        afterReduce.2 ++ [Event.waitUntilTasksComplete job.id TaskKind.REDUCE
          (env.waitUntilTasksComplete job.id TaskKind.REDUCE)]
      let done : Job :=
        { afterReduce.1 with status := JobStatus.JOB_DONE, timeDone := toUint64 env.nowDone }
      ⟨Res.ofError (env.saveJob done), done,
        waitedReduce ++ [Event.saveJob done (env.saveJob done)]⟩

/-! ## Runner codec: `worker/runner/util.go` -/

/-- The struct `kv`; `V` is the type of the decoded JSON values
(`interface{}`). -/
structure KV (V : Type) where
  key : String
  value : V
  deriving DecidableEq, Repr

/-- The struct `reducerKVs`. -/
structure ReducerKVs (V : Type) where
  key : String
  values : List V
  deriving DecidableEq, Repr

/-- The struct `mapOutputFormat`. -/
structure MapOutputFormat (V : Type) where
  partitions : GoMap String (List (KV V))

/-- `sanityCheck(payloadPath)`.  `exec name args` is what
`exec.Command(name, args...).CombinedOutput()` returns. -/
def sanityCheck (exec : String → List String → String × Option GoError)
    (payloadPath : String) : Option GoError :=
  let r := exec payloadPath ["sanity-check"]
  if r.2.isSome ∨ r.1 ≠ "sanity located" then errorsWrap r.2 "sanity check failed"
  else none

/-- The loop of `reduceReader` that fills `tmp`. -/
def reduceGroup {V : Type} : List (KV V) → GoMap String (List V) → GoMap String (List V)
  | [], tmp => tmp
  | kv :: rest, tmp =>
    reduceGroup rest (mapSet tmp kv.key (mapGetSlice tmp kv.key ++ [kv.value]))

/-- The value `data` of `reduceReader`: one entry per key of `tmp`, the keys
visited in the order `order` gives for them. -/
def reduceData {V : Type} (order : List String → List String) (kvs : List (KV V)) :
    List (ReducerKVs V) :=
  (order (mapKeys (reduceGroup kvs []))).map
    (fun key => ⟨key, mapGetSlice (reduceGroup kvs []) key⟩)

/-- `reduceReader(in)`: the bytes behind the returned reader, or the error.
`unmarshal` is `json.Unmarshal` into `[]kv`, `marshal` is `json.Marshal` of
`reducerInput`. -/
def reduceReader {V : Type} (unmarshal : String → Except GoError (List (KV V)))
    (marshal : List (ReducerKVs V) → Except GoError String)
    (order : List String → List String) (flt : Faults) (fs : FS)
    (inp : Option InputChunk) : Except GoError String :=
  match FS.read fs (InputChunk.getPath inp) with
  | none =>
    Except.error
      (wrapError ⟨"open " ++ InputChunk.getPath inp ++ ": no such file or directory", true⟩
        "unable to open input file")
  | some buf =>
    if flt.readAll (InputChunk.getPath inp) then
      Except.error
        (wrapError ⟨"read " ++ InputChunk.getPath inp ++ ": input/output error", false⟩
          "unable to read input data")
    else
      match unmarshal buf with
      | Except.error e => Except.error (wrapError e "unable to parse JSON")
      | Except.ok kvs =>
        match marshal (reduceData order kvs) with
        | Except.error e => Except.error (wrapError e "unable to parse reduce input")
        | Except.ok out => Except.ok out

/-- The loop of `saveMapResults` over the partitions, in the order they are
visited: the result and the file system left behind. -/
def saveMapLoop {V : Type} (marshal : List (KV V) → Except GoError String) (flt : Faults)
    (output : List String) : List (String × List (KV V)) → FS → Res Unit × FS
  | [], fs => (Res.ok (), fs)
  | (partitionName, kvPairs) :: rest, fs =>
    match atoi partitionName with
    | none =>
      (Res.err (wrapError ⟨"strconv.Atoi: parsing " ++ partitionName ++ ": invalid syntax", false⟩
        "unable to convert partition name"), fs)
    | some partition =>
      if partition < 0 then (Res.panic "index out of range", fs)
      else
        match output[partition.toNat]? with
        | none => (Res.panic "index out of range", fs)
        | some filePath =>
          match marshal kvPairs with
          | Except.error e => (Res.err (wrapError e "unable to reserialize pairs"), fs)
          | Except.ok pairsBytes =>
            match ioutilWriteFile flt fs filePath pairsBytes with
            | (some e, fs1) => (Res.err (wrapError e "unable to write the file"), fs1)
            | (none, fs1) => saveMapLoop marshal flt output rest fs1

/-- `saveMapResults(in, output)`.  `unmarshal` is `json.Unmarshal` into the
pointer `data` (`none` when the input leaves the pointer nil), `marshal` is
`json.Marshal` of a `[]kv`, and `order` gives the order in which `range`
visits the partition names. -/
def saveMapResults {V : Type}
    (unmarshal : String → Except GoError (Option (MapOutputFormat V)))
    (marshal : List (KV V) → Except GoError String)
    (order : List String → List String) (flt : Faults) (fs : FS)
    (inp : String) (output : List String) : Res Unit × FS :=
  match unmarshal inp with
  | Except.error e => (Res.err (wrapError e "unable to parse JSON"), fs)
  | Except.ok none => (Res.panic "invalid memory address or nil pointer dereference", fs)
  | Except.ok (some data) =>
    saveMapLoop marshal flt output
      ((order (mapKeys data.partitions)).map
        (fun partitionName => (partitionName, mapGetSlice data.partitions partitionName)))
      fs

/-! ## Manager state store: `manager-fallback/state/file.go` -/

/-- `os.Create(p)`, error part and file system: the file is created, or
truncated when it exists; the outcome of opening it for writing is the one
the environment gives for a write of `p`. -/
def osCreate (flt : Faults) (fs : FS) (p : String) : Option GoError × FS :=
  if p = "" then (some ⟨"open : no such file or directory", true⟩, fs)
  else
    match flt.writeFile p with
    | WriteOutcome.done => (none, FS.write fs p "")
    | _ => (some ⟨"open " ++ p ++ ": permission denied", false⟩, fs)

/-- `FileStore.createTask(task)`, with `root` the store's `location`.  The
paths are those of `SaveProgress`: the same joins of the same constants. -/
def createTask (flt : Faults) (root : String) (fs : FS) (task : Task) : Option GoError × FS :=
  match osCreate flt fs (taskFilePath root task) with
  | (some e, fs1) => (some e, fs1)
  | (none, fs1) =>
    match osCreate flt fs1 (pendingFilePath root task) with
    | (some e, fs2) => (some e, fs2)
    | (none, fs2) => (none, fs2)

/-- `FileStore.CreateTasks(tasks)`. -/
def CreateTasks (flt : Faults) (root : String) : FS → List Task → Option GoError × FS
  | fs, [] => (none, fs)
  | fs, task :: rest =>
    match createTask flt root fs task with
    | (some e, fs1) => (some e, fs1)
    | (none, fs1) => CreateTasks flt root fs1 rest

/-- What the goroutine of `WaitUntilTasksComplete` can be woken by: a value on
`watcher.Events`, a value on `watcher.Errors`, or the passing of the two
seconds of the timer. -/
inductive Stimulus where
  | fsEvent
  | watcherError
  | twoSeconds
  deriving DecidableEq, Repr

/-- What `WaitUntilTasksComplete` meets: the error of `fsnotify.NewWatcher`,
the error of `watcher.Add`, and the result of the `ioutil.ReadDir` made on
the n-th stimulus. -/
structure WaitEnv where
  newWatcher : Option GoError
  watcherAdd : String → Option GoError
  readDir : Nat → String → Except GoError (List String)

/-- The value `len(files)` after `files, err := ioutil.ReadDir(dir)`: the
error is logged only, and `files` is nil then. -/
def listedCount (r : Except GoError (List String)) : Nat :=
  match r with
  | Except.ok files => files.length
  | Except.error _ => 0

/-- The `for`/`select` loop of the goroutine of `WaitUntilTasksComplete`, on
the stimuli from the n-th on: whether `done` gets closed.  `armed` says
whether the one value of `time.NewTimer(2 * time.Second)` is still to come;
the timer is created once, before the loop, and never reset. -/
def waitLoop (env : WaitEnv) (dir : String) : List Stimulus → Nat → Bool → Bool
  | [], _, _ => false
  | Stimulus.fsEvent :: rest, n, armed =>
    if listedCount (env.readDir n dir) = 0 then true
    else waitLoop env dir rest (n + 1) armed
  | Stimulus.twoSeconds :: rest, n, armed =>
    if armed then
      if listedCount (env.readDir n dir) = 0 then true
      else waitLoop env dir rest (n + 1) false
    else waitLoop env dir rest (n + 1) false
  | Stimulus.watcherError :: rest, n, armed => waitLoop env dir rest (n + 1) armed

/-- The directory `pendingDirPath` of `WaitUntilTasksComplete`: the switch has
no default, so any other kind leaves the job directory. -/
def pendingDirPath (root id : String) (kind : TaskKind) : String :=
  match kind with
  | TaskKind.MAP => pathJoinClean [pathJoinClean [root, jobsDir, id], pendingMapDir]
  | TaskKind.REDUCE => pathJoinClean [pathJoinClean [root, jobsDir, id], pendingReduceDir]
  | TaskKind.OTHER => pathJoinClean [root, jobsDir, id]

/-- `FileStore.WaitUntilTasksComplete(id, kind)` under the given stimuli:
`some err` is the returned error, `none` means that the call is still blocked
on `done` after them. -/
def WaitUntilTasksComplete (env : WaitEnv) (root id : String) (kind : TaskKind)
    (stimuli : List Stimulus) : Option (Option GoError) :=
  match env.newWatcher with
  | some e => some (some e)
  | none =>
    match env.watcherAdd (pendingDirPath root id kind) with
    | some e => some (some e)
    | none =>
      if waitLoop env (pendingDirPath root id kind) stimuli 0 true then some none else none

/-! ## Worker broker: `worker/broker/amqp.go` -/

/-- The fields of `amqp.Delivery` the code uses. -/
structure Delivery where
  deliveryTag : Nat
  body : String
  deriving DecidableEq, Repr

/-- The struct `AMQPConnection`.  `tags` maps a task id to a pointer, here the
address of a `Delivery` variable in `heap`; `tasks` is nil, or the tasks put
on the channel so far. -/
structure AMQPConnection where
  tags : GoMap String Nat
  heap : GoMap Nat Delivery
  tasks : Option (List Task)
  deriving DecidableEq, Repr

/-- A call on the channel of the connection. -/
inductive AckCall where
  | ack (tag : Nat) (multiple : Bool)
  | nack (tag : Nat) (multiple requeue : Bool)
  deriving DecidableEq, Repr

/-- `ErrUnknownTag`. -/
def ErrUnknownTag : GoError := ⟨"unknown tag", false⟩

/-- `ErrAckFailure`. -/
def ErrAckFailure : GoError := ⟨"failed to ack message", false⟩

/-- How the variable of a `for ... range` loop is scoped.  The sources name
no toolchain and no language version: under the language versions before
Go 1.22 the variable is one for the whole loop, from Go 1.22 on every
iteration has a variable of its own. -/
inductive LoopVar where
  | shared
  | perIteration
  deriving DecidableEq, Repr

/-- The loop `for msg := range msgs` of `Listen`.  `addr` is the address of
the variable `msg` in this iteration, so `&msg` is `addr`; the next iteration
uses the same variable or a new one, as `loopVar` says. -/
def listenLoop (loopVar : LoopVar) (unmarshal : String → Except GoError Task) (addr : Nat) :
    List Delivery → AMQPConnection → Option GoError × AMQPConnection
  | [], c => (none, c)
  | msg :: rest, c =>
    match unmarshal msg.body with
    | Except.error e =>
      (some (wrapError e "unable to parse task"), { c with heap := mapSet c.heap addr msg })
    | Except.ok task =>
      listenLoop loopVar unmarshal
        (match loopVar with
          | LoopVar.shared => addr
          | LoopVar.perIteration => addr + 1)
        rest
        { tags := mapSet c.tags task.id addr
          heap := mapSet c.heap addr msg
          tasks := some (c.tasks.getD [] ++ [task]) }

/-- `AMQPConnection.Listen()`, with `consume` the result of `c.ch.Consume` (the
deliveries the channel yields) and `unmarshal` for `proto.Unmarshal`. -/
def Listen (loopVar : LoopVar) (unmarshal : String → Except GoError Task)
    (consume : Except GoError (List Delivery)) (c : AMQPConnection) :
    Option GoError × AMQPConnection :=
  match consume with
  | Except.error e => (some (wrapError e "unable to consume"), { c with tasks := some [] })
  | Except.ok msgs =>
    listenLoop loopVar unmarshal c.heap.length msgs { c with tasks := some [] }

/-- `AMQPConnection.Done(task)`: the returned error and the calls made on the
channel.  `ack tag` is what `Ack(tag, false)` returns.  A pointer stored by
`Listen` always has its variable in `heap`; the branch for a missing variable
is there for totality only. -/
def Done (ack : Nat → Option GoError) (c : AMQPConnection) (task : Task) :
    Option GoError × List AckCall :=
  match mapGet c.tags task.id with
  | some addr =>
    match mapGet c.heap addr with
    | some d =>
      match ack d.deliveryTag with
      | some _ => (some ErrAckFailure, [AckCall.ack d.deliveryTag false])
      | none => (none, [AckCall.ack d.deliveryTag false])
    | none => (some ErrAckFailure, [])
  | none => (some ErrUnknownTag, [])

/-- `AMQPConnection.Failed(task)`; `nack tag` is what `Nack(tag, false, true)`
returns. -/
def Failed (nack : Nat → Option GoError) (c : AMQPConnection) (task : Task) :
    Option GoError × List AckCall :=
  match mapGet c.tags task.id with
  | some addr =>
    match mapGet c.heap addr with
    | some d =>
      match nack d.deliveryTag with
      | some _ => (some ErrAckFailure, [AckCall.nack d.deliveryTag false true])
      | none => (none, [AckCall.nack d.deliveryTag false true])
    | none => (some ErrAckFailure, [])
  | none => (some ErrUnknownTag, [])

/-- `AMQPConnection.Tasks()`: the error returned. -/
def Tasks (c : AMQPConnection) : Option GoError :=
  match c.tasks with
  | none => some ⟨"the broker is not listening", false⟩
  | some _ => none

/-! ## Runner: `worker-fallback/worker/runner/runner.go` and the rest of `util.go` -/

/-- The largest length `make([]byte, n)` accepts on a 64-bit platform; a
larger one panics. -/
def maxAlloc : Nat := 2 ^ 48

/-- `mapReader(in)`: the bytes behind the returned reader.  File contents are
taken character by character as bytes.  `marshal key value` is `json.Marshal`
of the `kv` with that key and that string value.  `f.Stat()` on the open file
is taken to succeed. -/
def mapReader (marshal : String → String → Except GoError String) (flt : Faults) (fs : FS)
    (inp : Option InputChunk) : Res String :=
  let path := InputChunk.getPath inp
  let start : Nat := match inp with
    | none => 0
    | some c => c.startByte
  let end0 : Nat := match inp with
    | none => 0
    | some c => c.endByte
  match FS.read fs path with
  | none =>
    Res.err (wrapError ⟨"open " ++ path ++ ": no such file or directory", true⟩
      "unable to open input file")
  | some content =>
    let endB : Nat := if end0 = 0 then content.length else end0
    let size : Nat := (endB + 2 ^ 64 - start) % 2 ^ 64
    if maxAlloc < size then Res.panic "makeslice: len out of range"
    else if 2 ^ 63 ≤ start then
      Res.err (wrapError ⟨"read " ++ path ++ ": negative offset", false⟩
        "unable to read input data")
    else if flt.readAll path then
      Res.err (wrapError ⟨"read " ++ path ++ ": input/output error", false⟩
        "unable to read input data")
    else
      let got : List Char := (content.data.drop start).take size
      let buf : List Char := got ++ List.replicate (size - got.length) (Char.ofNat 0)
      match marshal path (String.mk buf) with
      | Except.error e => Res.err (wrapError e "unable to parse map input")
      | Except.ok out => Res.ok out

/-- `saveReduceResults(in, outputFiles)`. -/
def saveReduceResults (flt : Faults) (fs : FS) (inp : String) (outputFiles : List String) :
    Res Unit × FS :=
  match outputFiles with
  | [] => (Res.err ⟨"output files cannot be empty", false⟩, fs)
  | first :: _ =>
    match ioutilWriteFile flt fs first inp with
    | (some e, fs1) => (Res.err e, fs1)
    | (none, fs1) => (Res.ok (), fs1)

/-- What the runner works with: the state store (`st.SaveProgress`, as a
function on the file system), the broker (`br.Done`, `br.Failed`), the
outcome of running a command with given arguments and standard input, the
JSON codecs, the order of a `range` over a map, the faults of file
operations, and the clock readings of `handleTask`, `succeedTask` and
`failTask` (0, 1 and 2). -/
structure RunnerEnv (V : Type) where
  saveProgress : FS → Task → Option GoError × FS
  done : Task → Option GoError
  failed : Task → Option GoError
  exec : String → List String → String → String × Option GoError
  marshalInput : String → String → Except GoError String
  unmarshalKVs : String → Except GoError (List (KV V))
  marshalReducerInput : List (ReducerKVs V) → Except GoError String
  unmarshalMapOutput : String → Except GoError (Option (MapOutputFormat V))
  marshalPairs : List (KV V) → Except GoError String
  rangeOrder : List String → List String
  flt : Faults
  now : Nat → Int

/-- `saveResults(in, task)`. -/
def saveResults {V : Type} (env : RunnerEnv V) (fs : FS) (inp : String) (task : Task) :
    Res Unit × FS :=
  match task.kind with
  | TaskKind.MAP =>
    saveMapResults env.unmarshalMapOutput env.marshalPairs env.rangeOrder env.flt fs inp
      task.outputFiles
  | TaskKind.REDUCE => saveReduceResults env.flt fs inp task.outputFiles
  | TaskKind.OTHER => (Res.err ⟨"task type not valid", false⟩, fs)

/-- The calls the runner makes for one task, with what they returned. -/
inductive RunnerEvent where
  | saveProgress (task : Task) (result : Option GoError)
  | command (path : String) (args : List String)
  | brDone (task : Task) (result : Option GoError)
  | brFailed (task : Task) (result : Option GoError)
  deriving DecidableEq, Repr

/-- `Runner.prepareCmd(task)`: the command to run, as path, arguments and
standard input. -/
def prepareCmd {V : Type} (env : RunnerEnv V) (fs : FS) (task : Task) :
    Res (String × List String × String) :=
  match sanityCheck (fun path args => env.exec path args "") task.payloadPath with
  | some e => Res.err (wrapError e "payload is not a valid libheracles binary")
  | none =>
    if task.kind = TaskKind.MAP then
      match mapReader env.marshalInput env.flt fs task.inputChunk with
      | Res.ok stdin =>
        Res.ok (task.payloadPath,
          ["map", "--partition_count=" ++ toString task.partitionCount], stdin)
      | Res.err e => Res.err e
      | Res.panic m => Res.panic m
    else
      match reduceReader env.unmarshalKVs env.marshalReducerInput env.rangeOrder env.flt fs
          task.inputChunk with
      | Except.ok stdin => Res.ok (task.payloadPath, ["reduce"], stdin)
      | Except.error e => Res.err e

/-- The state of one task being handled: the task as the runner has updated
it, the file system, and the calls made, oldest first. -/
structure TaskRun where
  result : Res Unit
  task : Task
  fs : FS
  trace : List RunnerEvent
  deriving DecidableEq, Repr

/-- `Runner.handleTask(task)`. -/
def handleTask {V : Type} (env : RunnerEnv V) (fs : FS) (task : Task) : TaskRun :=
  let started : Task :=
    { task with timeStarted := toUint64 (env.now 0), status := TaskStatus.TASK_IN_PROGRESS }
  match env.saveProgress fs started with
  | (some e, fs1) => ⟨Res.err e, started, fs1, [RunnerEvent.saveProgress started (some e)]⟩
  | (none, fs1) =>
    match prepareCmd env fs1 started with
    | Res.err e =>
      ⟨Res.err e, started, fs1,
        [RunnerEvent.saveProgress started none,
         RunnerEvent.command started.payloadPath ["sanity-check"]]⟩
    | Res.panic m =>
      ⟨Res.panic m, started, fs1,
        [RunnerEvent.saveProgress started none,
         RunnerEvent.command started.payloadPath ["sanity-check"]]⟩
    | Res.ok cmd =>
      match env.exec cmd.1 cmd.2.1 cmd.2.2 with
      | (_, some e) =>
        ⟨Res.err e, started, fs1,
          [RunnerEvent.saveProgress started none,
           RunnerEvent.command started.payloadPath ["sanity-check"],
           RunnerEvent.command cmd.1 cmd.2.1]⟩
      | (out, none) =>
        ⟨(saveResults env fs1 out started).1, started, (saveResults env fs1 out started).2,
          [RunnerEvent.saveProgress started none,
           RunnerEvent.command started.payloadPath ["sanity-check"],
           RunnerEvent.command cmd.1 cmd.2.1]⟩

/-- `Runner.failTask(task)`, continuing a run: the task is marked failed, saved
(an error is logged only) and reported to the broker as failed (an error is
logged only). -/
def failTask {V : Type} (env : RunnerEnv V) (run : TaskRun) : TaskRun :=
  let failedTask : Task :=
    { run.task with timeDone := toUint64 (env.now 2), status := TaskStatus.TASK_FAILED }
  ⟨Res.ok (), failedTask, (env.saveProgress run.fs failedTask).2,
    run.trace ++
      [RunnerEvent.saveProgress failedTask (env.saveProgress run.fs failedTask).1,
       RunnerEvent.brFailed failedTask (env.failed failedTask)]⟩

/-- `Runner.succeedTask(task)`, continuing a run; the result is the returned
error. -/
def succeedTask {V : Type} (env : RunnerEnv V) (run : TaskRun) : TaskRun :=
  let doneTask : Task :=
    { run.task with timeDone := toUint64 (env.now 1), status := TaskStatus.TASK_DONE }
  match env.saveProgress run.fs doneTask with
  | (some e, fs1) =>
    ⟨Res.err e, doneTask, fs1, run.trace ++ [RunnerEvent.saveProgress doneTask (some e)]⟩
  | (none, fs1) =>
    ⟨Res.ofError (errorsWrap (env.done doneTask) "can\x27t mark task as done"), doneTask, fs1,
      run.trace ++
        [RunnerEvent.saveProgress doneTask none, RunnerEvent.brDone doneTask (env.done doneTask)]⟩

/-- The goroutine that `Runner.Run` starts for one task.  A panic ends the
process: nothing is called after it. -/
def runTask {V : Type} (env : RunnerEnv V) (fs : FS) (task : Task) : TaskRun :=
  match (handleTask env fs task).result with
  | Res.panic m => { handleTask env fs task with result := Res.panic m }
  | Res.err _ => failTask env (handleTask env fs task)
  | Res.ok _ =>
    match (succeedTask env (handleTask env fs task)).result with
    | Res.ok _ => succeedTask env (handleTask env fs task)
    | _ => failTask env (succeedTask env (handleTask env fs task))

/-! ## Derived notions used in the statements -/

/-- Whether the event is a successful return of the wait for the map phase. -/
def Event.isMapWaitDone : Event → Bool
  | Event.waitUntilTasksComplete _ TaskKind.MAP none => true
  | _ => false

/-- Whether the event is a reduce task handed to `Broker.Send`. -/
def Event.isReduceSend : Event → Bool
  | Event.send task _ => decide (task.kind = TaskKind.REDUCE)
  | _ => false

/-- Phase order of a trace: no reduce task is sent before a successful return
of the wait for the map phase. -/
def phaseOrdered : List Event → Bool
  | [] => true
  | e :: rest =>
    if e.isMapWaitDone then true
    else if e.isReduceSend then false
    else phaseOrdered rest

/-- The shape of an event: which call, for which kind of task, and whether it
returned nil. -/
def Event.shape : Event → String × Option TaskKind × Bool
  | Event.createTasks _ r => ("CreateTasks", none, r.isNone)
  | Event.send task r => ("Send", some task.kind, r.isNone)
  | Event.waitUntilTasksComplete _ kind r => ("WaitUntilTasksComplete", some kind, r.isNone)
  | Event.saveJob _ r => ("SaveJob", none, r.isNone)

/-- The total number of values held by a map of slices. -/
def valueCount {K W : Type} (m : GoMap K (List W)) : Nat :=
  (m.map (fun e => e.2.length)).sum

/-- The file `output[partition]` that `saveMapResults` writes for a partition
name: defined when `strconv.Atoi` accepts the name and the index is in
range. -/
def partitionFile (output : List String) (partitionName : String) : Option String :=
  match atoi partitionName with
  | none => none
  | some partition => if partition < 0 then none else output[partition.toNat]?

/-- The entries the loop of `saveMapResults` visits, in order. -/
def partitionsInOrder {V : Type} (order : List String → List String)
    (data : MapOutputFormat V) : List (String × List (KV V)) :=
  (order (mapKeys data.partitions)).map
    (fun partitionName => (partitionName, mapGetSlice data.partitions partitionName))

/-! ## Concrete inputs -/

/-- A job with two output partitions. -/
def exampleJob : Job :=
  ⟨"j", "/in", "/bin/payload", InputDataKind.DATA_TEXT_NEWLINES, ["/out/p0", "/out/p1"],
    JobStatus.JOB_PENDING, 0, 0, ""⟩

/-- A plan for `exampleJob` over two input files. -/
def examplePlan : GoMap Int (List String) :=
  [(0, ["/i/j/0/a", "/i/j/0/b"]), (1, ["/i/j/1/a", "/i/j/1/b"])]

/-- An input directory with the 40-byte files `a.txt` and `b.txt`, below the
chunk size. -/
def exampleSplitEnv : SplitEnv :=
  ⟨"/i", 1000, fun _ => Except.ok ["a.txt", "b.txt"], fun _ => some 40, fun _ => none⟩

/-- A source of identifiers. -/
def exampleUuid (n : Nat) : String := "id" ++ toString n

/-- A scheduler whose state store cannot watch the pending directory of the
map phase, everything else succeeding. -/
def failingWaitEnv : SchedEnv :=
  { split := exampleSplitEnv
    createTasks := fun _ => none
    waitUntilTasksComplete := fun _ kind =>
      if kind = TaskKind.MAP then some ⟨"no such file or directory", true⟩ else none
    saveJob := fun _ => none
    send := fun _ => none
    goOrder := fun tasks => tasks
    rangeOrder := fun _ keys => keys
    uuidPlan := fun n => "u" ++ toString n
    uuidMap := fun n => "m" ++ toString n
    uuidReduce := fun n => "r" ++ toString n
    nowMap := fun _ => 5
    nowReduce := fun _ => 5
    nowDone := 9 }

/-- A serializer that records the id and whether the task is done. -/
def exampleMarshal (task : Task) : Except GoError String :=
  Except.ok (task.id ++ (if task.status = TaskStatus.TASK_DONE then ":done" else ":open"))

/-- The map task `t` of job `j` with the given status. -/
def exampleTask (status : TaskStatus) : Task :=
  { id := "t", jobId := "j", status := status, kind := TaskKind.MAP, timeCreated := 0,
    timeStarted := 0, timeDone := 0, inputChunk := none, payloadPath := "/bin/payload",
    partitionCount := 1, outputFiles := ["/i/0"], failureDetails := "" }

/-- The store under `/s` right after `exampleTask` was created. -/
def exampleStore : FS :=
  [("/s/jobs/j/tasks/t", ""), ("/s/jobs/j/pending_map_tasks/t", "")]

/-- A task of the job `j` whose id leaves the `tasks` directory: cleaned,
its task-file path is the path of its pending marker. -/
def steeredTask (kind : TaskKind) : Task :=
  { exampleTask TaskStatus.TASK_DONE with
    id := match kind with
      | TaskKind.REDUCE => "../pending_reduce_tasks/x"
      | _ => "../pending_map_tasks/x"
    kind := kind }

/-- A store under `/s` holding the markers `x` of the job `j`. -/
def steeredStore : FS :=
  [("/s/jobs/j/pending_map_tasks/x", ""), ("/s/jobs/j/pending_reduce_tasks/x", "")]

/-- A decoder for the file contents used in the examples: `[w=1]` stands for
the JSON array holding the pair of key `w` and value 1, and so on. -/
def exampleUnmarshal (buf : String) : Except GoError (List (KV Nat)) :=
  if buf = "[w=1]" then Except.ok [⟨"w", 1⟩]
  else if buf = "[w=2,x=9]" then Except.ok [⟨"w", 2⟩, ⟨"x", 9⟩]
  else if buf = "[wood=20,wood=22]" then Except.ok [⟨"wood", 20⟩, ⟨"wood", 22⟩]
  else Except.error ⟨"invalid character", false⟩

/-- An encoder of reducer input. -/
def exampleEncode (data : List (ReducerKVs Nat)) : String :=
  stringsJoin (data.map (fun e => e.key ++ "=" ++ toString e.values)) ";"

/-- An encoder of pair lists, in the notation of `exampleUnmarshal`. -/
def examplePairs (pairs : List (KV Nat)) : String :=
  "[" ++ stringsJoin (pairs.map (fun kv => kv.key ++ "=" ++ toString kv.value)) "," ++ "]"

/-- Payload output of the routing scenario: partition `0` holds the pair of
`k` and 1, partition `1` the pair of `k` and 2. -/
def routedOutput : MapOutputFormat Nat :=
  ⟨[("0", [⟨"k", 1⟩]), ("1", [⟨"k", 2⟩])]⟩

/-- Payload output whose partition names `0` and `00` are both the integer 0. -/
def aliasedOutput : MapOutputFormat Nat :=
  ⟨[("0", [⟨"k", 1⟩]), ("00", [⟨"k", 2⟩])]⟩

/-- An environment in which the file `/i/1` cannot be opened for writing. -/
def refusingFaults : Faults :=
  ⟨fun _ => false, fun p => if p = "/i/1" then WriteOutcome.refused else WriteOutcome.done,
    fun _ => false⟩

/-! ## Derived notions and concrete inputs for the runner, the broker and the wait -/

/-- The number of calls of `Broker.Done` in a trace. -/
def doneCalls : List RunnerEvent → Nat
  | [] => 0
  | RunnerEvent.brDone _ _ :: rest => doneCalls rest + 1
  | _ :: rest => doneCalls rest

/-- The number of calls of `Broker.Failed` in a trace. -/
def failedCalls : List RunnerEvent → Nat
  | [] => 0
  | RunnerEvent.brFailed _ _ :: rest => failedCalls rest + 1
  | _ :: rest => failedCalls rest

/-- The number of commands run in a trace. -/
def commandCalls : List RunnerEvent → Nat
  | [] => 0
  | RunnerEvent.command _ _ :: rest => commandCalls rest + 1
  | _ :: rest => commandCalls rest

/-- The number of calls of `Broker.Done` in a trace that returned an error. -/
def doneErrors : List RunnerEvent → Nat
  | [] => 0
  | RunnerEvent.brDone _ (some _) :: rest => doneErrors rest + 1
  | _ :: rest => doneErrors rest

/-- The shape of a runner event: which call, the status of the task passed,
and whether the call returned nil. -/
def RunnerEvent.shape : RunnerEvent → String × Option TaskStatus × Bool
  | RunnerEvent.saveProgress task r => ("SaveProgress", some task.status, r.isNone)
  | RunnerEvent.command _ _ => ("Command", none, true)
  | RunnerEvent.brDone task r => ("Done", some task.status, r.isNone)
  | RunnerEvent.brFailed task r => ("Failed", some task.status, r.isNone)

/-- The task as `succeedTask` marks it. -/
def markedDone {V : Type} (env : RunnerEnv V) (task : Task) : Task :=
  { task with timeDone := toUint64 (env.now 1), status := TaskStatus.TASK_DONE }

/-- The task as `failTask` marks it. -/
def markedFailed {V : Type} (env : RunnerEnv V) (task : Task) : Task :=
  { task with timeDone := toUint64 (env.now 2), status := TaskStatus.TASK_FAILED }

/-- The map task `t` of job `j` over the input file `/in/a.txt`, with two
output files. -/
def exampleMapTask : Task :=
  { id := "t", jobId := "j", status := TaskStatus.TASK_PENDING, kind := TaskKind.MAP,
    timeCreated := 0, timeStarted := 0, timeDone := 0,
    inputChunk := some ⟨"/in/a.txt", 0, 0⟩, payloadPath := "/bin/payload",
    partitionCount := 2, outputFiles := ["/i/0", "/i/1"], failureDetails := "" }

/-- The store of `exampleStore` together with the input file of
`exampleMapTask`. -/
def exampleWorld : FS :=
  [("/s/jobs/j/tasks/t", ""), ("/s/jobs/j/pending_map_tasks/t", ""),
    ("/in/a.txt", "how much wood")]

/-- The world of `exampleWorld` after the task `t` was done: the marker is
gone. -/
def exampleWorldDone : FS :=
  [("/s/jobs/j/tasks/t", "t:done"), ("/in/a.txt", "how much wood")]

/-- A runner on the file store under `/s` whose payload passes the sanity
check and prints `payloadOutput`, with a broker whose `Done` returns
`doneResult`. -/
def exampleRunnerEnv (payloadOutput : MapOutputFormat Nat) (doneResult : Option GoError) :
    RunnerEnv Nat :=
  { saveProgress := SaveProgress exampleMarshal noFaults "/s"
    done := fun _ => doneResult
    failed := fun _ => none
    exec := fun _ args _ =>
      if args = ["sanity-check"] then ("sanity located", none) else ("out", none)
    marshalInput := fun key value => Except.ok (key ++ "=" ++ value)
    unmarshalKVs := exampleUnmarshal
    marshalReducerInput := fun d => Except.ok (exampleEncode d)
    unmarshalMapOutput := fun _ => Except.ok (some payloadOutput)
    marshalPairs := fun d => Except.ok (examplePairs d)
    rangeOrder := fun keys => keys
    flt := noFaults
    now := fun n => 10 + n }

/-- A runner as `exampleRunnerEnv` whose payload exits with a non-zero status
on `sanity-check`. -/
def rejectingRunnerEnv : RunnerEnv Nat :=
  { exampleRunnerEnv routedOutput none with
    exec := fun _ _ _ => ("No such file", some ⟨"exit status 2", false⟩) }

/-- Payload output naming the partition 5. -/
def strayOutput : MapOutputFormat Nat :=
  ⟨[("5", [⟨"k", 1⟩])]⟩

/-- The task carried by the message whose body is `id`. -/
def deliveredTask (id : String) : Task :=
  { id := id, jobId := "j", status := TaskStatus.TASK_PENDING, kind := TaskKind.MAP,
    timeCreated := 0, timeStarted := 0, timeDone := 0, inputChunk := none,
    payloadPath := "/bin/payload", partitionCount := 1, outputFiles := ["/i/0"],
    failureDetails := "" }

/-- A decoder of message bodies: the body is the task id. -/
def exampleUnmarshalTask (body : String) : Except GoError Task :=
  Except.ok (deliveredTask body)

/-- A fresh connection, as `NewAMQP` returns it. -/
def newConnection : AMQPConnection :=
  ⟨[], [], none⟩

/-- The connection after `Listen`, built with one loop variable for the whole
loop, has received the delivery with tag 1 of task `t1` and then the delivery
with tag 2 of task `t2`. -/
def listenedConnection : AMQPConnection :=
  (Listen LoopVar.shared exampleUnmarshalTask (Except.ok [⟨1, "t1"⟩, ⟨2, "t2"⟩])
    newConnection).2

/-- A job as `exampleJob` whose input kind was left undefined. -/
def undefinedKindJob : Job :=
  { exampleJob with inputKind := InputDataKind.UNDEFINED }

/-- A scheduler whose broker refuses every task, everything else
succeeding. -/
def failingSendEnv : SchedEnv :=
  { failingWaitEnv with
    waitUntilTasksComplete := fun _ _ => none
    send := fun _ => some ⟨"connection closed", false⟩ }

/-- A scheduler whose state store fails to create the tasks. -/
def failingCreateEnv : SchedEnv :=
  { failingWaitEnv with createTasks := fun _ => some ⟨"no space left on device", false⟩ }

/-- A watcher on a pending directory that cannot be listed. -/
def unreadableDirEnv : WaitEnv :=
  ⟨none, fun _ => none, fun _ _ => Except.error ⟨"no such file or directory", true⟩⟩

/-- A watcher on a pending directory that holds the marker `t` at the first
stimulus and is empty at every later one. -/
def drainingDirEnv : WaitEnv :=
  ⟨none, fun _ => none, fun n _ => if n = 0 then Except.ok ["t"] else Except.ok []⟩

/-! ## Manager state store, continued: `SaveJob` and `SaveTask` -/

/-- The constant `jobsDir` of the manager package. -/
def Manager.jobsDir : String := "jobs"

/-- The constant `jobSaveFile` of the manager package. -/
def Manager.jobSaveFile : String := "request"

/-- The constant `tasksDir` of the manager package. -/
def Manager.tasksDir : String := "tasks"

/-- The constant `pendingMapDir` of the manager package. -/
def Manager.pendingMapDir : String := "pending_map_tasks"

/-- The constant `pendingReduceDir` of the manager package. -/
def Manager.pendingReduceDir : String := "pending_reduce_tasks"

/-- The path `taskFilePath` of `SaveTask`. -/
def Manager.taskFilePath (location : String) (task : Task) : String :=
  pathJoinClean [pathJoinClean [location, Manager.jobsDir, task.jobId], Manager.tasksDir,
    task.id]

/-- The path `pendingFilePath` of `SaveTask`: empty for a kind that is neither
`MAP` nor `REDUCE`. -/
def Manager.pendingFilePath (location : String) (task : Task) : String :=
  match task.kind with
  | TaskKind.MAP =>
    pathJoinClean [pathJoinClean [location, Manager.jobsDir, task.jobId],
      Manager.pendingMapDir, task.id]
  | TaskKind.REDUCE =>
    pathJoinClean [pathJoinClean [location, Manager.jobsDir, task.jobId],
      Manager.pendingReduceDir, task.id]
  | TaskKind.OTHER => ""

/-- `FileStore.SaveTask(task)` of the manager, with `location` the store's
`location`: the returned error and the file system left behind.  The error
of a missing file is returned as `os.Stat` gave it. -/
def SaveTask (marshal : Task → Except GoError String) (flt : Faults) (location : String)
    (fs : FS) (task : Task) : Option GoError × FS :=
  let statTask := osStat fs (Manager.taskFilePath location task)
  if osIsNotExist statTask then (statTask, fs)
  else
    let statPending := osStat fs (Manager.pendingFilePath location task)
    if osIsNotExist statPending then (statPending, fs)
    else
      match marshal task with
      | Except.error e => (errorsWrap (some e) "unable to serialize task", fs)
      | Except.ok serializedTask =>
        match ioutilWriteFile flt fs (Manager.taskFilePath location task) serializedTask with
        | (some e, fs1) => (errorsWrap (some e) ("unable to write task " ++ task.id), fs1)
        | (none, fs1) =>
          if task.status = TaskStatus.TASK_DONE then
            match osRemove flt fs1 (Manager.pendingFilePath location task) with
            | (some e, fs2) =>
              (errorsWrap (some e) ("unable to remove pending task " ++ task.id), fs2)
            | (none, fs2) => (none, fs2)
          else (none, fs1)

/-- Files and directories: the regular files, and the paths of the
directories that were made. -/
structure Disk where
  files : FS
  dirs : List String
  deriving DecidableEq, Repr

/-- Whether the characters `a` are the beginning of the characters `b`. -/
def beginsWith : List Char → List Char → Bool
  | [], _ => true
  | _ :: _, [] => false
  | c :: cs, d :: ds => c = d && beginsWith cs ds

/-- Whether the path `p` is the directory `dir` or lies below it. -/
def isUnder (dir p : String) : Bool :=
  p = dir || beginsWith (dir ++ "/").data p.data

/-- What the manager store meets beyond `Faults`: the error of `os.MkdirAll`
for a path, whether `os.RemoveAll` of a path fails, and, when it fails, which
of the paths at or below it were removed before the failure. -/
structure DirFaults where
  mkdirAll : String → Option GoError
  removeAll : String → Bool
  removedFirst : String → String → Bool

/-- `os.MkdirAll(p, perm)`: nothing to do for a directory that is there, an
error when a regular file has that path. -/
def osMkdirAll (dflt : DirFaults) (d : Disk) (p : String) : Option GoError × Disk :=
  match dflt.mkdirAll p with
  | some e => (some e, d)
  | none =>
    if (FS.read d.files p).isSome then
      (some ⟨"mkdir " ++ p ++ ": not a directory", false⟩, d)
    else if p ∈ d.dirs then (none, d)
    else (none, { d with dirs := p :: d.dirs })

/-- `os.RemoveAll(p)`: the path and everything below it is removed; when the
removal fails, what it removed before the failure is gone. -/
def osRemoveAll (dflt : DirFaults) (d : Disk) (p : String) : Option GoError × Disk :=
  if dflt.removeAll p then
    (some ⟨"unlinkat " ++ p ++ ": permission denied", false⟩,
      { files := d.files.filter (fun e => !(isUnder p e.1 && dflt.removedFirst p e.1))
        dirs := d.dirs.filter (fun q => !(isUnder p q && dflt.removedFirst p q)) })
  else
    (none,
      { files := d.files.filter (fun e => !isUnder p e.1)
        dirs := d.dirs.filter (fun q => !isUnder p q) })

/-- `FileStore.removeJob(id)`: the error of `os.RemoveAll` is dropped. -/
def removeJob (dflt : DirFaults) (location : String) (d : Disk) (id : String) : Disk :=
  (osRemoveAll dflt d (pathJoinClean [location, Manager.jobsDir, id])).2

/-- `FileStore.prepareJobDirectory(loc)`. -/
def prepareJobDirectory (dflt : DirFaults) (d : Disk) (loc : String) : Option GoError × Disk :=
  match osMkdirAll dflt d (pathJoinClean [loc, Manager.tasksDir]) with
  | (some e, d1) => (some e, d1)
  | (none, d1) =>
    match osMkdirAll dflt d1 (pathJoinClean [loc, Manager.pendingMapDir]) with
    | (some e, d2) => (some e, d2)
    | (none, d2) =>
      match osMkdirAll dflt d2 (pathJoinClean [loc, Manager.pendingReduceDir]) with
      | (some e, d3) => (some e, d3)
      | (none, d3) => (none, d3)

/-- `FileStore.SaveJob(job)`, with `marshal` for `proto.Marshal`. -/
def SaveJob (marshal : Job → Except GoError String) (flt : Faults) (dflt : DirFaults)
    (location : String) (d : Disk) (job : Job) : Option GoError × Disk :=
  match prepareJobDirectory dflt d (pathJoinClean [location, Manager.jobsDir, job.id]) with
  | (some e, d1) => (some e, removeJob dflt location d1 job.id)
  | (none, d1) =>
    match marshal job with
    | Except.error e => (some e, removeJob dflt location d1 job.id)
    | Except.ok serialized =>
      match ioutilWriteFile flt d1.files
          (pathJoinClean [pathJoinClean [location, Manager.jobsDir, job.id], Manager.jobSaveFile])
          serialized with
      | (some e, files1) => (some e, removeJob dflt location { d1 with files := files1 } job.id)
      | (none, files1) => (none, { d1 with files := files1 })

/-! ## Command line front end: `hrctl/app/app.go` -/

def errEmptyJobPath : String := "job path is empty"

def errUnmarshaling : String := "unable to unmarshal job from file"

def errEmptyInputDir : String := "input directory cannot be empty"

def errEmptyPayload : String := "payload path cannot be empty"

def errInvalidSepator : String := "cannot use undefined input separator"

/-- `loadJob(jobPath)`, with `readFile` for `ioutil.ReadFile`, `clean` for
`path.Clean` and `unmarshalText` for `proto.UnmarshalText` into a fresh
job. -/
def loadJob (readFile : String → Except GoError String) (clean : String → String)
    (unmarshalText : String → Except GoError Job) (jobPath : String) : Except GoError Job :=
  if jobPath = "" then Except.error ⟨errEmptyJobPath, false⟩
  else
    match readFile (clean jobPath) with
    | Except.error e => Except.error e
    | Except.ok data =>
      match unmarshalText data with
      | Except.error e => Except.error (wrapError e errUnmarshaling)
      | Except.ok job =>
        if job.inputDirectory = "" then Except.error ⟨errEmptyInputDir, false⟩
        else if job.payloadPath = "" then Except.error ⟨errEmptyPayload, false⟩
        else if job.inputKind = InputDataKind.UNDEFINED then
          Except.error ⟨errInvalidSepator, false⟩
        else Except.ok job

/-! ## Derived notions and concrete inputs for the last claims -/

/-- The path that `IntermediateFiles` reserves for partition `p` and input
file `j` out of `nFiles`. -/
def plannedPath (env : SplitEnv) (uuid : Nat → String) (job : Job) (nFiles p j : Nat) :
    String :=
  pathJoin [pathJoin [env.intermediateDataLocation, job.id], toString p, uuid (p * nFiles + j)]

/-- The row that `IntermediateFiles` builds for partition `p`. -/
def plannedRow (env : SplitEnv) (uuid : Nat → String) (job : Job) (nFiles p : Nat) :
    List String :=
  (List.range nFiles).map (plannedPath env uuid job nFiles p)

/-- A job description that names no output file. -/
def noOutputJob : Job :=
  { exampleJob with outputFiles := [] }

/-- A splitter environment whose input directory has no entries. -/
def emptyDirEnv : SplitEnv :=
  { exampleSplitEnv with readDir := fun _ => Except.ok [] }

/-- A splitter environment in which no directory can be made. -/
def noMkdirEnv : SplitEnv :=
  { exampleSplitEnv with mkdirAll := fun _ => some ⟨"permission denied", false⟩ }

/-- A store on which nothing can be written or removed. -/
def readOnlyFaults : Faults :=
  ⟨fun _ => false, fun _ => WriteOutcome.refused, fun _ => true⟩

/-- Directory operations on a store where directories can be made but not
removed. -/
def stuckDirFaults : DirFaults :=
  ⟨fun _ => none, fun _ => true, fun _ _ => false⟩

/-- Directory operations that all succeed. -/
def noDirFaults : DirFaults :=
  ⟨fun _ => none, fun _ => false, fun _ _ => false⟩

/-- A serializer of jobs that records the id. -/
def exampleMarshalJob (job : Job) : Except GoError String :=
  Except.ok ("job:" ++ job.id)

/-- A decoder of payload output that leaves the pointer nil, as for the JSON
text `null`. -/
def nullOutput : String → Except GoError (Option (MapOutputFormat Nat)) :=
  fun _ => Except.ok none

/-- Payload output with the single partition `0`. -/
def singleOutput : MapOutputFormat Nat :=
  ⟨[("0", [⟨"k", 1⟩])]⟩

/-! ## File system and path lemmas -/

theorem FS.read_empty (fs : FS) : FS.read fs "" = none := by
  induction fs with
  | nil => rfl
  | cons e rest ih =>
    obtain ⟨q, c⟩ := e
    simp [FS.read, ih]

theorem FS.read_remove_same (fs : FS) (p : String) : FS.read (FS.remove fs p) p = none := by
  induction fs with
  | nil => rfl
  | cons e rest ih =>
    obtain ⟨q, c⟩ := e
    by_cases h : q = p
    · simpa [FS.remove, List.filter_cons, h] using ih
    · simp only [FS.remove, List.filter_cons, h, ne_eq, not_false_eq_true, decide_True,
        if_true, FS.read, false_and, if_false]
      exact ih

theorem FS.read_remove_other (fs : FS) (p q : String) (h : q ≠ p) :
    FS.read (FS.remove fs p) q = FS.read fs q := by
  induction fs with
  | nil => rfl
  | cons e rest ih =>
    obtain ⟨r, c⟩ := e
    by_cases hr : r = p
    · have hrq : ¬ r = q := fun e => h (e ▸ hr)
      simp only [FS.remove, List.filter_cons, hr, ne_eq, not_true_eq_false, decide_False,
        Bool.false_eq_true, if_false, FS.read]
      rw [← hr]
      simp only [hrq, false_and, if_false]
      rw [hr]
      exact ih
    · simp only [FS.remove, List.filter_cons, hr, ne_eq, not_false_eq_true, decide_True,
        if_true, FS.read]
      by_cases hq : r = q ∧ q ≠ ""
      · simp [hq]
      · simp only [hq, if_false]
        exact ih

theorem FS.read_write_same (fs : FS) (p c : String) (h : p ≠ "") :
    FS.read (FS.write fs p c) p = some c := by
  simp [FS.write, FS.read, h]

theorem FS.read_write_other (fs : FS) (p q c : String) (h : q ≠ p) :
    FS.read (FS.write fs p c) q = FS.read fs q := by
  have hpq : ¬ p = q := fun e => h e.symm
  simp only [FS.write, FS.read, hpq, false_and, if_false]
  exact FS.read_remove_other fs p q h

theorem FS.read_isSome_ne_empty (fs : FS) (p : String) (h : (FS.read fs p).isSome) : p ≠ "" := by
  intro e
  rw [e, FS.read_empty] at h
  exact absurd h (by simp)

theorem FS.read_write_present (fs : FS) (p c q : String) (h : (FS.read fs q).isSome) :
    (FS.read (FS.write fs p c) q).isSome := by
  by_cases hq : q = p
  · subst hq
    rw [FS.read_write_same fs q c (FS.read_isSome_ne_empty fs q h)]
    rfl
  · rw [FS.read_write_other fs p q c hq]
    exact h

theorem osIsNotExist_osStat (fs : FS) (p : String) :
    osIsNotExist (osStat fs p) = (FS.read fs p).isNone := by
  unfold osStat
  cases FS.read fs p <;> simp [osIsNotExist]

theorem errorsWrap_osStat_ne_none (fs : FS) (p msg : String) (h : FS.read fs p = none) :
    errorsWrap (osStat fs p) msg ≠ none := by
  simp [osStat, h, errorsWrap]

theorem SaveProgress_missing (marshal : Task → Except GoError String) (flt : Faults)
    (root : String) (fs : FS) (task : Task)
    (h : FS.read fs (taskFilePath root task) = none ∨
      FS.read fs (pendingFilePath root task) = none) :
    (SaveProgress marshal flt root fs task).1 ≠ none ∧
    (SaveProgress marshal flt root fs task).2 = fs := by
  by_cases hT : FS.read fs (taskFilePath root task) = none
  · simp only [SaveProgress, osIsNotExist_osStat, hT, Option.isNone_none, if_true, and_true]
    exact errorsWrap_osStat_ne_none fs _ _ hT
  · have hP : FS.read fs (pendingFilePath root task) = none := h.resolve_left hT
    have hT2 : (FS.read fs (taskFilePath root task)).isNone = false := by
      cases hr : FS.read fs (taskFilePath root task) with
      | none => exact absurd hr hT
      | some _ => rfl
    simp only [SaveProgress, osIsNotExist_osStat, hT2, hP, Option.isNone_none, if_true,
      Bool.false_eq_true, if_false, and_true]
    exact errorsWrap_osStat_ne_none fs _ _ hP

/-- Every way a call of `SaveProgress` can end, given that both files are
there. -/
theorem SaveProgress_cases (marshal : Task → Except GoError String) (flt : Faults)
    (root : String) (fs : FS) (task : Task) (old marker : String)
    (hTask : FS.read fs (taskFilePath root task) = some old)
    (hPending : FS.read fs (pendingFilePath root task) = some marker) :
    ((∃ e, marshal task = Except.error e) ∧
      (SaveProgress marshal flt root fs task).1 ≠ none ∧
      (SaveProgress marshal flt root fs task).2 = fs) ∨
    (∃ s, marshal task = Except.ok s ∧
      ((flt.writeFile (taskFilePath root task) = WriteOutcome.refused ∧
        (SaveProgress marshal flt root fs task).1 ≠ none ∧
        (SaveProgress marshal flt root fs task).2 = fs) ∨
      (∃ kept, flt.writeFile (taskFilePath root task) = WriteOutcome.torn kept ∧
        (SaveProgress marshal flt root fs task).1 ≠ none ∧
        (SaveProgress marshal flt root fs task).2
          = FS.write fs (taskFilePath root task) (s.take kept)) ∨
      (flt.writeFile (taskFilePath root task) = WriteOutcome.done ∧
        task.status ≠ TaskStatus.TASK_DONE ∧
        (SaveProgress marshal flt root fs task).1 = none ∧
        (SaveProgress marshal flt root fs task).2 = FS.write fs (taskFilePath root task) s) ∨
      (flt.writeFile (taskFilePath root task) = WriteOutcome.done ∧
        task.status = TaskStatus.TASK_DONE ∧ flt.remove (pendingFilePath root task) = true ∧
        (SaveProgress marshal flt root fs task).1 ≠ none ∧
        (SaveProgress marshal flt root fs task).2 = FS.write fs (taskFilePath root task) s) ∨
      (flt.writeFile (taskFilePath root task) = WriteOutcome.done ∧
        task.status = TaskStatus.TASK_DONE ∧ flt.remove (pendingFilePath root task) = false ∧
        (SaveProgress marshal flt root fs task).1 = none ∧
        (SaveProgress marshal flt root fs task).2
          = FS.remove (FS.write fs (taskFilePath root task) s) (pendingFilePath root task)))) := by
  have hT : taskFilePath root task ≠ "" :=
    FS.read_isSome_ne_empty fs _ (by simp [hTask])
  cases hm : marshal task with
  | error e =>
    left
    refine ⟨⟨e, rfl⟩, ?_⟩
    simp [SaveProgress, osIsNotExist_osStat, hTask, hPending, hm, errorsWrap]
  | ok s =>
    right
    refine ⟨s, rfl, ?_⟩
    obtain ⟨kept, hPW⟩ : ∃ kept, FS.read (FS.write fs (taskFilePath root task) s)
        (pendingFilePath root task) = some kept :=
      Option.isSome_iff_exists.mp
        (FS.read_write_present fs _ s _ (by rw [hPending]; rfl))
    cases hw : flt.writeFile (taskFilePath root task) with
    | refused =>
      simp [SaveProgress, osIsNotExist_osStat, hTask, hPending, hm, ioutilWriteFile, hT, hw,
        errorsWrap]
    | torn kept =>
      simp [SaveProgress, osIsNotExist_osStat, hTask, hPending, hm, ioutilWriteFile, hT, hw,
        errorsWrap]
    | done =>
      by_cases hd : task.status = TaskStatus.TASK_DONE
      · cases hr : flt.remove (pendingFilePath root task) with
        | true =>
          simp [SaveProgress, osIsNotExist_osStat, hTask, hPending, hm, ioutilWriteFile, hT, hw,
            hd, osRemove, hPW, hr, errorsWrap]
        | false =>
          simp [SaveProgress, osIsNotExist_osStat, hTask, hPending, hm, ioutilWriteFile, hT, hw,
            hd, osRemove, hPW, hr]
      · simp [SaveProgress, osIsNotExist_osStat, hTask, hPending, hm, ioutilWriteFile, hT, hw,
          hd]

/-- A call of `SaveProgress` that finds both files, serializes, writes and
(for a done task) removes without a fault. -/
theorem SaveProgress_success
    (marshal : Task → Except GoError String) (flt : Faults) (root : String) (fs : FS)
    (task : Task) (old marker serialized : String)
    (hTask : FS.read fs (taskFilePath root task) = some old)
    (hPending : FS.read fs (pendingFilePath root task) = some marker)
    (hMarshal : marshal task = Except.ok serialized)
    (hWrite : flt.writeFile (taskFilePath root task) = WriteOutcome.done)
    (hRemove : flt.remove (pendingFilePath root task) = false)
    (hne : taskFilePath root task ≠ pendingFilePath root task) :
    (SaveProgress marshal flt root fs task).1 = none ∧
    FS.read (SaveProgress marshal flt root fs task).2 (taskFilePath root task)
      = some serialized ∧
    (task.status ≠ TaskStatus.TASK_DONE →
      FS.read (SaveProgress marshal flt root fs task).2 (pendingFilePath root task)
        = some marker) ∧
    (task.status = TaskStatus.TASK_DONE →
      FS.read (SaveProgress marshal flt root fs task).2 (pendingFilePath root task)
        = none) := by
  have hT : taskFilePath root task ≠ "" :=
    FS.read_isSome_ne_empty fs _ (by simp [hTask])
  have hPW : FS.read (FS.write fs (taskFilePath root task) serialized)
      (pendingFilePath root task) = some marker := by
    rw [FS.read_write_other fs _ _ _ (Ne.symm hne), hPending]
  by_cases hd : task.status = TaskStatus.TASK_DONE
  · simp only [SaveProgress, osIsNotExist_osStat, hTask, hPending, hMarshal, ioutilWriteFile,
      hT, hWrite, hd, osRemove, hPW, hRemove, Option.isNone_some, if_false, if_true,
      Bool.false_eq_true, ne_eq, not_true_eq_false, false_implies, true_implies, true_and]
    refine ⟨?_, FS.read_remove_same _ _⟩
    rw [FS.read_remove_other _ _ _ hne]
    exact FS.read_write_same fs _ _ hT
  · simp only [SaveProgress, osIsNotExist_osStat, hTask, hPending, hMarshal, ioutilWriteFile,
      hT, hWrite, hd, Option.isNone_some, if_false, Bool.false_eq_true, ne_eq,
      not_false_eq_true, false_implies, true_implies, true_and, and_true]
    exact ⟨FS.read_write_same fs _ _ hT, hPW⟩

/-! ## Go map lemmas -/

theorem mapGet_mapSet {K V : Type} [DecidableEq K] (m : GoMap K V) (k k2 : K) (v : V) :
    mapGet (mapSet m k v) k2 = if k = k2 then some v else mapGet m k2 := by
  induction m with
  | nil => simp [mapSet, mapGet]
  | cons e rest ih =>
    obtain ⟨k0, v0⟩ := e
    by_cases h0 : k0 = k
    · subst h0
      by_cases h2 : k0 = k2 <;> simp [mapSet, mapGet, h2]
    · by_cases h2 : k0 = k2
      · subst h2
        have : ¬ k = k0 := fun e => h0 e.symm
        simp [mapSet, mapGet, h0, this]
      · simp [mapSet, mapGet, h0, h2, ih]

theorem mapKeys_mapSet_of_mem {K V : Type} [DecidableEq K] (m : GoMap K V) (k : K) (v : V) (h : k ∈ mapKeys m) :
    mapKeys (mapSet m k v) = mapKeys m := by
  induction m with
  | nil => simp [mapKeys] at h
  | cons e rest ih =>
    obtain ⟨k0, v0⟩ := e
    by_cases h0 : k0 = k
    · simp [mapSet, mapKeys, h0]
    · have hk : k ∈ mapKeys rest := by
        simp only [mapKeys, List.map_cons, List.mem_cons] at h
        rcases h with h | h
        · exact absurd h.symm h0
        · exact h
      have := ih hk
      simp only [mapKeys] at this
      simp [mapSet, mapKeys, h0, this]

theorem mapKeys_mapSet_of_not_mem {K V : Type} [DecidableEq K] (m : GoMap K V) (k : K) (v : V) (h : k ∉ mapKeys m) :
    mapKeys (mapSet m k v) = mapKeys m ++ [k] := by
  induction m with
  | nil => simp [mapSet, mapKeys]
  | cons e rest ih =>
    obtain ⟨k0, v0⟩ := e
    simp only [mapKeys, List.map_cons, List.mem_cons, not_or] at h
    have h0 : ¬ k0 = k := fun e => h.1 e.symm
    have := ih h.2
    simp only [mapKeys] at this
    simp [mapSet, mapKeys, h0, this]

theorem mapGetSlice_mapSet {K W : Type} [DecidableEq K] (m : GoMap K (List W)) (k k2 : K) (v : List W) :
    mapGetSlice (mapSet m k v) k2 = if k = k2 then v else mapGetSlice m k2 := by
  unfold mapGetSlice
  rw [mapGet_mapSet]
  by_cases h : k = k2 <;> simp [h]


theorem valueCount_mapSet_append {K W : Type} [DecidableEq K] (m : GoMap K (List W)) (k : K)
    (v : W) : valueCount (mapSet m k (mapGetSlice m k ++ [v])) = valueCount m + 1 := by
  induction m with
  | nil => simp [mapSet, valueCount, mapGetSlice, mapGet]
  | cons e rest ih =>
    obtain ⟨k0, v0⟩ := e
    by_cases h0 : k0 = k
    · simp [mapSet, valueCount, mapGetSlice, mapGet, h0]
      omega
    · have : mapGetSlice ((k0, v0) :: rest) k = mapGetSlice rest k := by
        simp [mapGetSlice, mapGet, h0]
      rw [this]
      simp only [mapSet, h0, if_false, valueCount, List.map_cons, List.sum_cons] at ih ⊢
      rw [ih]
      omega

theorem reduceGroup_get {V : Type} (kvs : List (KV V)) (tmp : GoMap String (List V)) (k : String) :
    mapGetSlice (reduceGroup kvs tmp) k =
      mapGetSlice tmp k ++ (kvs.filter (fun kv => decide (kv.key = k))).map (fun kv => kv.value) := by
  induction kvs generalizing tmp with
  | nil => simp [reduceGroup]
  | cons kv rest ih =>
    rw [reduceGroup, ih, mapGetSlice_mapSet]
    by_cases h : kv.key = k
    · subst h
      simp [List.filter_cons]
    · simp [List.filter_cons, h]

theorem reduceGroup_keys_nodup {V : Type} (kvs : List (KV V)) (tmp : GoMap String (List V))
    (h : (mapKeys tmp).Nodup) : (mapKeys (reduceGroup kvs tmp)).Nodup := by
  induction kvs generalizing tmp with
  | nil => simpa [reduceGroup] using h
  | cons kv rest ih =>
    rw [reduceGroup]
    apply ih
    by_cases hm : kv.key ∈ mapKeys tmp
    · rw [mapKeys_mapSet_of_mem _ _ _ hm]
      exact h
    · rw [mapKeys_mapSet_of_not_mem _ _ _ hm]
      exact List.Nodup.append h (List.nodup_singleton _) (by simpa using hm)

theorem reduceGroup_mem_keys {V : Type} (kvs : List (KV V)) (tmp : GoMap String (List V)) (k : String) :
    k ∈ mapKeys (reduceGroup kvs tmp) ↔ k ∈ mapKeys tmp ∨ k ∈ kvs.map (fun kv => kv.key) := by
  induction kvs generalizing tmp with
  | nil => simp [reduceGroup]
  | cons kv rest ih =>
    rw [reduceGroup, ih]
    by_cases hm : kv.key ∈ mapKeys tmp
    · rw [mapKeys_mapSet_of_mem _ _ _ hm]
      constructor
      · rintro (h | h)
        · exact Or.inl h
        · exact Or.inr (by simp [h])
      · rintro (h | h)
        · exact Or.inl h
        · simp only [List.map_cons, List.mem_cons] at h
          rcases h with h | h
          · exact Or.inl (h ▸ hm)
          · exact Or.inr h
    · rw [mapKeys_mapSet_of_not_mem _ _ _ hm]
      simp only [List.mem_append, List.mem_singleton, List.map_cons, List.mem_cons]
      tauto

theorem reduceGroup_valueCount {V : Type} (kvs : List (KV V)) (tmp : GoMap String (List V)) :
    valueCount (reduceGroup kvs tmp) = valueCount tmp + kvs.length := by
  induction kvs generalizing tmp with
  | nil => simp [reduceGroup]
  | cons kv rest ih =>
    rw [reduceGroup, ih, valueCount_mapSet_append]
    simp only [List.length_cons]
    omega

theorem map_get_of_nodup {K W : Type} [DecidableEq K] (m : GoMap K (List W))
    (h : (mapKeys m).Nodup) :
    (mapKeys m).map (fun k => (mapGetSlice m k).length) = m.map (fun e => e.2.length) := by
  induction m with
  | nil => rfl
  | cons e rest ih =>
    obtain ⟨k0, v0⟩ := e
    simp only [mapKeys, List.map_cons, List.nodup_cons] at h
    have ih2 := ih h.2
    simp only [mapKeys, List.map_cons, List.map_map] at ih2 ⊢
    refine congrArg₂ _ (by simp [mapGetSlice, mapGet]) ?_
    rw [← ih2]
    apply List.map_congr_left
    intro a ha
    have : ¬ k0 = a.1 := by
      intro e
      apply h.1
      rw [e]
      exact List.mem_map_of_mem _ ha
    simp [mapGetSlice, mapGet, this]

/-! ## The loop of `saveMapResults` -/

/-- One step of the loop when the partition has a file and the write
succeeds. -/
theorem saveMapLoop_cons_ok {V : Type} (enc : List (KV V) → String) (flt : Faults) (output : List String)
    (k : String) (pairs : List (KV V)) (rest : List (String × List (KV V))) (fs : FS)
    (f : String) (hf : partitionFile output k = some f) (hne : f ≠ "")
    (hw : flt.writeFile f = WriteOutcome.done) :
    saveMapLoop (fun d => Except.ok (enc d)) flt output ((k, pairs) :: rest) fs =
      saveMapLoop (fun d => Except.ok (enc d)) flt output rest (FS.write fs f (enc pairs)) := by
  unfold partitionFile at hf
  cases ha : atoi k with
  | none => simp [ha] at hf
  | some n =>
    rw [ha] at hf
    by_cases hn : n < 0
    · simp [hn] at hf
    · simp only [hn, if_false] at hf
      simp [saveMapLoop, ha, hn, hf, ioutilWriteFile, hne, hw]

theorem saveMapLoop_ok {V : Type} (enc : List (KV V) → String) (flt : Faults) (output : List String)
    (l : List (String × List (KV V))) (fs : FS)
    (h : ∀ e ∈ l, ∃ f, partitionFile output e.1 = some f ∧ f ≠ "" ∧
      flt.writeFile f = WriteOutcome.done) :
    (saveMapLoop (fun d => Except.ok (enc d)) flt output l fs).1 = Res.ok () := by
  induction l generalizing fs with
  | nil => rfl
  | cons e rest ih =>
    obtain ⟨k, pairs⟩ := e
    obtain ⟨f, hf, hne, hw⟩ := h (k, pairs) (List.mem_cons_self _ _)
    rw [saveMapLoop_cons_ok enc flt output k pairs rest fs f hf hne hw]
    exact ih _ (fun e he => h e (List.mem_cons_of_mem _ he))

theorem saveMapLoop_frame {V : Type} (enc : List (KV V) → String) (flt : Faults) (output : List String)
    (l : List (String × List (KV V))) (fs : FS) (g : String)
    (h : ∀ e ∈ l, ∃ f, partitionFile output e.1 = some f ∧ f ≠ "" ∧
      flt.writeFile f = WriteOutcome.done)
    (hg : ∀ e ∈ l, partitionFile output e.1 ≠ some g) :
    FS.read (saveMapLoop (fun d => Except.ok (enc d)) flt output l fs).2 g = FS.read fs g := by
  induction l generalizing fs with
  | nil => rfl
  | cons e rest ih =>
    obtain ⟨k, pairs⟩ := e
    obtain ⟨f, hf, hne, hw⟩ := h (k, pairs) (List.mem_cons_self _ _)
    rw [saveMapLoop_cons_ok enc flt output k pairs rest fs f hf hne hw]
    rw [ih _ (fun e he => h e (List.mem_cons_of_mem _ he))
      (fun e he => hg e (List.mem_cons_of_mem _ he))]
    apply FS.read_write_other
    intro e
    apply hg (k, pairs) (List.mem_cons_self _ _)
    rw [hf, e]

theorem saveMapLoop_read {V : Type} (enc : List (KV V) → String) (flt : Faults) (output : List String)
    (l : List (String × List (KV V))) (fs : FS)
    (h : ∀ e ∈ l, ∃ f, partitionFile output e.1 = some f ∧ f ≠ "" ∧
      flt.writeFile f = WriteOutcome.done)
    (hsame : ∀ e1 ∈ l, ∀ e2 ∈ l, partitionFile output e1.1 = partitionFile output e2.1 →
      e1.2 = e2.2) :
    ∀ e ∈ l, ∀ f, partitionFile output e.1 = some f →
      FS.read (saveMapLoop (fun d => Except.ok (enc d)) flt output l fs).2 f
        = some (enc e.2) := by
  induction l generalizing fs with
  | nil => intro e he; simp at he
  | cons e0 rest ih =>
    obtain ⟨k, pairs⟩ := e0
    obtain ⟨f0, hf0, hne, hw⟩ := h (k, pairs) (List.mem_cons_self _ _)
    have hrest : ∀ e ∈ rest, ∃ f, partitionFile output e.1 = some f ∧ f ≠ "" ∧
        flt.writeFile f = WriteOutcome.done := fun e he => h e (List.mem_cons_of_mem _ he)
    have hsameRest : ∀ e1 ∈ rest, ∀ e2 ∈ rest,
        partitionFile output e1.1 = partitionFile output e2.1 → e1.2 = e2.2 :=
      fun e1 h1 e2 h2 => hsame e1 (List.mem_cons_of_mem _ h1) e2 (List.mem_cons_of_mem _ h2)
    intro e he f hf
    rw [saveMapLoop_cons_ok enc flt output k pairs rest fs f0 hf0 hne hw]
    by_cases hex : ∃ e2 ∈ rest, partitionFile output e2.1 = some f
    · obtain ⟨e2, he2, hf2⟩ := hex
      have := ih (FS.write fs f0 (enc pairs)) hrest hsameRest e2 he2 f hf2
      rw [this]
      have heq : e.2 = e2.2 := hsame e he e2 (List.mem_cons_of_mem _ he2) (by rw [hf, hf2])
      rw [heq]
    · have hnot : ∀ e2 ∈ rest, partitionFile output e2.1 ≠ some f :=
        fun e2 he2 hc => hex ⟨e2, he2, hc⟩
      rw [saveMapLoop_frame enc flt output rest _ f hrest hnot]
      rcases List.mem_cons.mp he with h0 | hr
      · subst h0
        have hff : f = f0 := by
          have := hf0.symm.trans hf
          exact (Option.some.inj this).symm
        rw [hff]
        exact FS.read_write_same fs f0 _ hne
      · exact absurd hf (hnot e hr)

/-! ## Splitter and scheduler -/

theorem reduceTasks_getElem_opt (uuid : Nat → String) (now : Nat → Int) (job : Job)
    (interm : GoMap Int (List String)) (outs : List String) (i p : Nat) :
    (reduceTasks uuid now job interm outs i)[p]? =
      (outs[p]?).map (fun output =>
        { id := uuid (i + p)
          jobId := job.id
          status := TaskStatus.TASK_PENDING
          kind := TaskKind.REDUCE
          timeCreated := toUint64 (now (i + p))
          timeStarted := 0
          timeDone := 0
          inputChunk := some ⟨stringsJoin (mapGetSlice interm ((i + p : Nat) : Int)) ",", 0, 0⟩
          payloadPath := job.payloadPath
          partitionCount := 0
          outputFiles := [output]
          failureDetails := "" }) := by
  induction outs generalizing i p with
  | nil => simp [reduceTasks]
  | cons o rest ih =>
    cases p with
    | zero => simp [reduceTasks]
    | succ q =>
      have h := ih (i + 1) q
      have e : i + 1 + q = i + (q + 1) := by omega
      rw [e] at h
      simpa [reduceTasks] using h

theorem reduceTasks_length (uuid : Nat → String) (now : Nat → Int) (job : Job)
    (interm : GoMap Int (List String)) (outs : List String) (i : Nat) :
    (reduceTasks uuid now job interm outs i).length = outs.length := by
  induction outs generalizing i with
  | nil => simp [reduceTasks]
  | cons o rest ih => simp [reduceTasks, ih]

/-! ## Claims -/

/-- Claim C1, the code at a failing input.  For the two-partition job
`exampleJob`, the plan `examplePlan` and a `range` that visits the plan keys
in the order 1, 0, `textMap` returns two map tasks with partition count 2
whose output files are `[plan[1][i], plan[0][i]]`: position 0 of the output
files of chunk `i` holds the file of partition 1, not `plan[0][i]`. -/
theorem textMap_output_files_follow_range_order :
    (textMap exampleSplitEnv exampleUuid (fun _ => 5) (fun _ keys => keys.reverse)
        exampleJob examplePlan) =
      Res.ok
        [ { id := "id0", jobId := "j", status := TaskStatus.TASK_PENDING, kind := TaskKind.MAP,
            timeCreated := 5, timeStarted := 0, timeDone := 0,
            inputChunk := some ⟨"/in/a.txt", 0, 40⟩, payloadPath := "/bin/payload",
            partitionCount := 2, outputFiles := ["/i/j/1/a", "/i/j/0/a"],
            failureDetails := "" },
          { id := "id1", jobId := "j", status := TaskStatus.TASK_PENDING, kind := TaskKind.MAP,
            timeCreated := 5, timeStarted := 0, timeDone := 0,
            inputChunk := some ⟨"/in/b.txt", 0, 40⟩, payloadPath := "/bin/payload",
            partitionCount := 2, outputFiles := ["/i/j/1/b", "/i/j/0/b"],
            failureDetails := "" } ] ∧
    mapGetSlice examplePlan 0 = ["/i/j/0/a", "/i/j/0/b"] ∧
    mapGetSlice examplePlan 1 = ["/i/j/1/a", "/i/j/1/b"] := by
  decide

/-- Claim C2, the code at a failing input.  With the intermediate files
`/i/a` and `/i/b` present and a reduce input chunk whose path is their
comma-joined list `/i/a,/i/b`, `reduceReader` does not read the two files: it
opens the whole path as one file name and returns the error `unable to open
input file`. -/
theorem reduceReader_opens_joined_path_as_one_file :
    reduceReader exampleUnmarshal (fun d => Except.ok (exampleEncode d)) (fun keys => keys)
        noFaults [("/i/a", "[w=1]"), ("/i/b", "[w=2,x=9]")] (some ⟨"/i/a,/i/b", 0, 0⟩) =
      Except.error
        ⟨"unable to open input file: open /i/a,/i/b: no such file or directory", false⟩ := by
  rfl

/-- Claim C3, the code at a failing input.  For a payload whose `sanity-check`
invocation exits with status 0 and prints `not sane`, `sanityCheck` returns
nil: it wraps the nil error of the invocation, and wrapping nil gives nil. -/
theorem sanityCheck_accepts_wrong_output :
    sanityCheck (fun _ _ => ("not sane", none)) "/bin/payload" = none := by
  decide

/-- Claim C4, the code at a failing input.  When
`WaitUntilTasksComplete(job, MAP)` returns an error and every other call
succeeds, `processJob` still hands both reduce tasks to `Broker.Send`: the
returned error is dropped, so reduce tasks are sent although no wait for the
map phase has returned successfully. -/
theorem processJob_sends_reduce_after_failed_wait :
    (processJob failingWaitEnv exampleJob).trace.map Event.shape =
      [("CreateTasks", none, true),
       ("Send", some TaskKind.MAP, true), ("Send", some TaskKind.MAP, true),
       ("WaitUntilTasksComplete", some TaskKind.MAP, false),
       ("Send", some TaskKind.REDUCE, true), ("Send", some TaskKind.REDUCE, true),
       ("WaitUntilTasksComplete", some TaskKind.REDUCE, true),
       ("SaveJob", none, true)] ∧
    phaseOrdered (processJob failingWaitEnv exampleJob).trace = false := by
  constructor <;> decide

/-- Claim C5.  For every job and every plan, `Reduce` emits exactly one task
per output file, in partition order, and the task of partition `p` is a
pending reduce task of the job with the job payload path, whose input chunk
path is the elements of `plan[p]` joined with a comma, in order, and whose
output files are `[job.output_files[p]]`. -/
theorem Reduce_emits_one_task_per_partition (uuid : Nat → String) (now : Nat → Int)
    (job : Job) (interm : GoMap Int (List String)) :
    (Reduce uuid now job interm).length = job.outputFiles.length ∧
    ∀ (p : Nat) (output : String), job.outputFiles[p]? = some output →
      (Reduce uuid now job interm)[p]? =
        some
          { id := uuid p
            jobId := job.id
            status := TaskStatus.TASK_PENDING
            kind := TaskKind.REDUCE
            timeCreated := toUint64 (now p)
            timeStarted := 0
            timeDone := 0
            inputChunk := some ⟨stringsJoin (mapGetSlice interm (p : Int)) ",", 0, 0⟩
            payloadPath := job.payloadPath
            partitionCount := 0
            outputFiles := [output]
            failureDetails := "" } := by
  refine ⟨reduceTasks_length uuid now job interm job.outputFiles 0, ?_⟩
  intro p output h
  have := reduceTasks_getElem_opt uuid now job interm job.outputFiles 0 p
  simp only [Nat.zero_add] at this
  rw [Reduce, this, h]
  rfl

/-- Witness of claim C5: partition 1 of the two-partition job `exampleJob`
with the plan `examplePlan`. -/
theorem Reduce_emits_one_task_per_partition_witness :
    exampleJob.outputFiles[1]? = some "/out/p1" ∧
    (Reduce exampleUuid (fun _ => 5) exampleJob examplePlan)[1]? =
      some
        { id := "id1"
          jobId := "j"
          status := TaskStatus.TASK_PENDING
          kind := TaskKind.REDUCE
          timeCreated := 5
          timeStarted := 0
          timeDone := 0
          inputChunk := some ⟨"/i/j/1/a,/i/j/1/b", 0, 0⟩
          payloadPath := "/bin/payload"
          partitionCount := 0
          outputFiles := ["/out/p1"]
          failureDetails := "" } :=
  ⟨by decide,
    (Reduce_emits_one_task_per_partition exampleUuid (fun _ => 5) exampleJob examplePlan).2 1
      "/out/p1" (by decide)⟩

/-- Claim C6 as stated fails.  `path.Join` cleans the joined path, so for the
map task with id `../pending_map_tasks/x` the task file and the pending
marker are one file, `/s/jobs/j/pending_map_tasks/x`.  That file exists and
no operation meets a fault, and `SaveProgress` of the task with status done
returns nil; yet it has removed the file it had just written, so the task
file does not hold the serialization. -/
theorem SaveProgress_removes_written_task_file :
    taskFilePath "/s" (steeredTask TaskKind.MAP) = "/s/jobs/j/pending_map_tasks/x" ∧
    pendingFilePath "/s" (steeredTask TaskKind.MAP) = "/s/jobs/j/pending_map_tasks/x" ∧
    FS.read steeredStore (taskFilePath "/s" (steeredTask TaskKind.MAP)) = some "" ∧
    exampleMarshal (steeredTask TaskKind.MAP) = Except.ok "../pending_map_tasks/x:done" ∧
    (SaveProgress exampleMarshal noFaults "/s" steeredStore (steeredTask TaskKind.MAP)).1
      = none ∧
    FS.read (SaveProgress exampleMarshal noFaults "/s" steeredStore
        (steeredTask TaskKind.MAP)).2 (taskFilePath "/s" (steeredTask TaskKind.MAP)) = none := by
  refine ⟨by decide, by decide, by decide, rfl, by decide, by decide⟩

/-- Claim C6, amended.  When the task file and the pending marker matching
the task exist and are different files, the task serializes, and the write of
the task file and the removal of the marker meet no fault,
`SaveProgress(task)` returns nil, leaves the task file holding the
serialization of the task, leaves the marker in place if the status is not
done and removes it if the status is done. -/
theorem SaveProgress_writes_task_and_clears_done_marker
    (marshal : Task → Except GoError String) (flt : Faults) (root : String) (fs : FS)
    (task : Task) (old marker serialized : String)
    (hTask : FS.read fs (taskFilePath root task) = some old)
    (hPending : FS.read fs (pendingFilePath root task) = some marker)
    (hMarshal : marshal task = Except.ok serialized)
    (hWrite : flt.writeFile (taskFilePath root task) = WriteOutcome.done)
    (hRemove : flt.remove (pendingFilePath root task) = false)
    (hne : taskFilePath root task ≠ pendingFilePath root task) :
    (SaveProgress marshal flt root fs task).1 = none ∧
    FS.read (SaveProgress marshal flt root fs task).2 (taskFilePath root task)
      = some serialized ∧
    (task.status ≠ TaskStatus.TASK_DONE →
      FS.read (SaveProgress marshal flt root fs task).2 (pendingFilePath root task)
        = some marker) ∧
    (task.status = TaskStatus.TASK_DONE →
      FS.read (SaveProgress marshal flt root fs task).2 (pendingFilePath root task)
        = none) :=
  SaveProgress_success marshal flt root fs task old marker serialized hTask hPending hMarshal
    hWrite hRemove hne

/-- Witness of claim C6, amended: the task `t` of `exampleStore`, saved in
progress and saved done. -/
theorem SaveProgress_writes_task_and_clears_done_marker_witness :
    ((SaveProgress exampleMarshal noFaults "/s" exampleStore
        (exampleTask TaskStatus.TASK_IN_PROGRESS)).1 = none ∧
      FS.read (SaveProgress exampleMarshal noFaults "/s" exampleStore
          (exampleTask TaskStatus.TASK_IN_PROGRESS)).2
        (taskFilePath "/s" (exampleTask TaskStatus.TASK_IN_PROGRESS)) = some "t:open" ∧
      ((exampleTask TaskStatus.TASK_IN_PROGRESS).status ≠ TaskStatus.TASK_DONE →
        FS.read (SaveProgress exampleMarshal noFaults "/s" exampleStore
            (exampleTask TaskStatus.TASK_IN_PROGRESS)).2
          (pendingFilePath "/s" (exampleTask TaskStatus.TASK_IN_PROGRESS)) = some "") ∧
      ((exampleTask TaskStatus.TASK_IN_PROGRESS).status = TaskStatus.TASK_DONE →
        FS.read (SaveProgress exampleMarshal noFaults "/s" exampleStore
            (exampleTask TaskStatus.TASK_IN_PROGRESS)).2
          (pendingFilePath "/s" (exampleTask TaskStatus.TASK_IN_PROGRESS)) = none)) ∧
    FS.read (SaveProgress exampleMarshal noFaults "/s" exampleStore
        (exampleTask TaskStatus.TASK_DONE)).2
      (pendingFilePath "/s" (exampleTask TaskStatus.TASK_DONE)) = none :=
  ⟨SaveProgress_writes_task_and_clears_done_marker exampleMarshal noFaults "/s" exampleStore
      (exampleTask TaskStatus.TASK_IN_PROGRESS) "" "" "t:open" (by decide) (by decide) rfl rfl
      rfl (by decide),
    (SaveProgress_writes_task_and_clears_done_marker exampleMarshal noFaults "/s" exampleStore
      (exampleTask TaskStatus.TASK_DONE) "" "" "t:done" (by decide) (by decide) rfl rfl
      rfl (by decide)).2.2.2 rfl⟩

/-- Claim C8 as stated fails.  For the reduce task with id
`../pending_reduce_tasks/x` the cleaned task-file path is the path of the
pending marker.  The marker is present before `SaveProgress` of the task with
status done and absent after it, and nothing failed; yet the task file does
not hold the serialization of the task: it is the file that was removed. -/
theorem SaveProgress_marker_gone_without_task_file :
    taskFilePath "/s" (steeredTask TaskKind.REDUCE)
      = pendingFilePath "/s" (steeredTask TaskKind.REDUCE) ∧
    FS.read steeredStore (pendingFilePath "/s" (steeredTask TaskKind.REDUCE)) = some "" ∧
    (SaveProgress exampleMarshal noFaults "/s" steeredStore
        (steeredTask TaskKind.REDUCE)).1 = none ∧
    FS.read (SaveProgress exampleMarshal noFaults "/s" steeredStore
        (steeredTask TaskKind.REDUCE)).2 (pendingFilePath "/s" (steeredTask TaskKind.REDUCE))
      = none ∧
    exampleMarshal (steeredTask TaskKind.REDUCE) = Except.ok "../pending_reduce_tasks/x:done" ∧
    FS.read (SaveProgress exampleMarshal noFaults "/s" steeredStore
        (steeredTask TaskKind.REDUCE)).2 (taskFilePath "/s" (steeredTask TaskKind.REDUCE))
      ≠ some "../pending_reduce_tasks/x:done" := by
  refine ⟨by decide, by decide, by decide, by decide, rfl, by decide⟩

/-- Claim C8, amended.  With the pending marker present before the call and
the marker a file other than the task file: if the marker is absent after
`SaveProgress(task)`, then the task has status done and the task file holds
its serialization.  Whether or not the two are different files: if
serializing the task fails or the write of the task file fails,
`SaveProgress` returns an error and the marker is still present, with its
content unchanged when it is a file other than the task file. -/
theorem SaveProgress_removes_marker_only_after_write
    (marshal : Task → Except GoError String) (flt : Faults) (root : String) (fs : FS)
    (task : Task) (marker : String)
    (hPending : FS.read fs (pendingFilePath root task) = some marker) :
    (taskFilePath root task ≠ pendingFilePath root task →
      FS.read (SaveProgress marshal flt root fs task).2 (pendingFilePath root task) = none →
      task.status = TaskStatus.TASK_DONE ∧
      ∃ serialized, marshal task = Except.ok serialized ∧
        FS.read (SaveProgress marshal flt root fs task).2 (taskFilePath root task)
          = some serialized) ∧
    (((∃ e, marshal task = Except.error e) ∨
        flt.writeFile (taskFilePath root task) ≠ WriteOutcome.done) →
      (SaveProgress marshal flt root fs task).1 ≠ none ∧
      (FS.read (SaveProgress marshal flt root fs task).2
        (pendingFilePath root task)).isSome = true ∧
      (taskFilePath root task ≠ pendingFilePath root task →
        FS.read (SaveProgress marshal flt root fs task).2 (pendingFilePath root task)
          = some marker)) := by
  have hsome : (FS.read fs (pendingFilePath root task)).isSome = true := by
    rw [hPending]
    rfl
  have hkeep : ∀ c, taskFilePath root task ≠ pendingFilePath root task →
      FS.read (FS.write fs (taskFilePath root task) c) (pendingFilePath root task)
        = some marker := by
    intro c hne
    rw [FS.read_write_other fs _ _ _ (Ne.symm hne), hPending]
  have hthere : ∀ c, (FS.read (FS.write fs (taskFilePath root task) c)
      (pendingFilePath root task)).isSome = true :=
    fun c => FS.read_write_present fs _ c _ hsome
  cases hT : FS.read fs (taskFilePath root task) with
  | none =>
    have h := SaveProgress_missing marshal flt root fs task (Or.inl hT)
    rw [h.2, hPending]
    exact ⟨fun _ e => by simp at e, fun _ => ⟨h.1, rfl, fun _ => rfl⟩⟩
  | some old =>
    have hTne : taskFilePath root task ≠ "" :=
      FS.read_isSome_ne_empty fs _ (by simp [hT])
    rcases SaveProgress_cases marshal flt root fs task old marker hT hPending with
      ⟨_, hne1, hfs⟩ | ⟨s, hs, h⟩
    · rw [hfs, hPending]
      exact ⟨fun _ e => by simp at e, fun _ => ⟨hne1, rfl, fun _ => rfl⟩⟩
    · rcases h with ⟨_, hne1, hfs⟩ | ⟨kept, _, hne1, hfs⟩ | ⟨hw, _, _, hfs⟩ |
        ⟨hw, _, _, _, hfs⟩ | ⟨hw, hd, _, _, hfs⟩
      · rw [hfs, hPending]
        exact ⟨fun _ e => by simp at e, fun _ => ⟨hne1, rfl, fun _ => rfl⟩⟩
      · rw [hfs]
        refine ⟨fun hne e => ?_, fun _ => ⟨hne1, hthere _, fun hne => hkeep _ hne⟩⟩
        rw [hkeep _ hne] at e
        cases e
      · rw [hfs]
        refine ⟨fun hne e => ?_, fun h2 => ?_⟩
        · rw [hkeep _ hne] at e
          cases e
        · rcases h2 with ⟨e, he⟩ | h2
          · rw [hs] at he
            cases he
          · exact absurd hw h2
      · rw [hfs]
        refine ⟨fun hne e => ?_, fun h2 => ?_⟩
        · rw [hkeep _ hne] at e
          cases e
        · rcases h2 with ⟨e, he⟩ | h2
          · rw [hs] at he
            cases he
          · exact absurd hw h2
      · rw [hfs]
        refine ⟨fun hne _ => ⟨hd, s, hs, ?_⟩, fun h2 => ?_⟩
        · rw [FS.read_remove_other _ _ _ hne]
          exact FS.read_write_same fs _ _ hTne
        · rcases h2 with ⟨e, he⟩ | h2
          · rw [hs] at he
            cases he
          · exact absurd hw h2

/-- Witness of claim C8, amended: the done task `t` of `exampleStore` saved
without a fault, and saved while the write of its task file is refused. -/
theorem SaveProgress_removes_marker_only_after_write_witness :
    ((exampleTask TaskStatus.TASK_DONE).status = TaskStatus.TASK_DONE ∧
      ∃ serialized, exampleMarshal (exampleTask TaskStatus.TASK_DONE) = Except.ok serialized ∧
        FS.read (SaveProgress exampleMarshal noFaults "/s" exampleStore
            (exampleTask TaskStatus.TASK_DONE)).2
          (taskFilePath "/s" (exampleTask TaskStatus.TASK_DONE)) = some serialized) ∧
    ((SaveProgress exampleMarshal
          ⟨fun _ => false, fun _ => WriteOutcome.refused, fun _ => false⟩ "/s" exampleStore
          (exampleTask TaskStatus.TASK_DONE)).1 ≠ none ∧
      (FS.read (SaveProgress exampleMarshal
          ⟨fun _ => false, fun _ => WriteOutcome.refused, fun _ => false⟩ "/s" exampleStore
          (exampleTask TaskStatus.TASK_DONE)).2
        (pendingFilePath "/s" (exampleTask TaskStatus.TASK_DONE))).isSome = true ∧
      (taskFilePath "/s" (exampleTask TaskStatus.TASK_DONE)
          ≠ pendingFilePath "/s" (exampleTask TaskStatus.TASK_DONE) →
        FS.read (SaveProgress exampleMarshal
            ⟨fun _ => false, fun _ => WriteOutcome.refused, fun _ => false⟩ "/s" exampleStore
            (exampleTask TaskStatus.TASK_DONE)).2
          (pendingFilePath "/s" (exampleTask TaskStatus.TASK_DONE)) = some "")) :=
  ⟨(SaveProgress_removes_marker_only_after_write exampleMarshal noFaults "/s" exampleStore
      (exampleTask TaskStatus.TASK_DONE) "" (by decide)).1 (by decide) (by decide),
    (SaveProgress_removes_marker_only_after_write exampleMarshal
      ⟨fun _ => false, fun _ => WriteOutcome.refused, fun _ => false⟩ "/s" exampleStore
      (exampleTask TaskStatus.TASK_DONE) "" (by decide)).2 (Or.inr (by decide))⟩

/-- Claim C9 as stated fails in two ways.  First, for payload output with the
partition names `0` and `00` (both decimal integers within range of the two
output files) `saveMapResults` returns nil but writes both partitions to
`/i/0`, so that file cannot hold the pairs of each.  Second, for the output
of the routing scenario, when the write of `/i/1` is refused,
`saveMapResults` does not return nil. -/
theorem saveMapResults_claim_fails :
    ((∀ k ∈ mapKeys aliasedOutput.partitions, (partitionFile ["/i/0", "/i/1"] k).isSome) ∧
      ¬ ((saveMapResults (fun _ => Except.ok (some aliasedOutput))
            (fun d => Except.ok (examplePairs d)) (fun keys => keys) noFaults [] "out"
            ["/i/0", "/i/1"]).1 = Res.ok () ∧
          ∀ k ∈ mapKeys aliasedOutput.partitions,
            (partitionFile ["/i/0", "/i/1"] k).bind
                (FS.read (saveMapResults (fun _ => Except.ok (some aliasedOutput))
                  (fun d => Except.ok (examplePairs d)) (fun keys => keys) noFaults [] "out"
                  ["/i/0", "/i/1"]).2)
              = some (examplePairs (mapGetSlice aliasedOutput.partitions k)))) ∧
    ((∀ k ∈ mapKeys routedOutput.partitions, (partitionFile ["/i/0", "/i/1"] k).isSome) ∧
      (saveMapResults (fun _ => Except.ok (some routedOutput))
          (fun d => Except.ok (examplePairs d)) (fun keys => keys) refusingFaults [] "out"
          ["/i/0", "/i/1"]).1 ≠ Res.ok ()) := by
  decide

/-- Claim C9, amended.  For payload output that parses to partitions whose
names all convert to an index within the output files, where different names
select different files, every selected file has a non-empty path and its
write meets no fault, `saveMapResults` returns nil and, for every partition
name present, the file `output[atoi(name)]` holds exactly the
re-serialization of the pairs of that partition. -/
theorem saveMapResults_routes_partitions {V : Type}
    (unmarshal : String → Except GoError (Option (MapOutputFormat V)))
    (enc : List (KV V) → String) (order : List String → List String) (flt : Faults)
    (fs : FS) (inp : String) (output : List String) (data : MapOutputFormat V)
    (hParse : unmarshal inp = Except.ok (some data))
    (hOrder : ∀ keys, (order keys).Perm keys)
    (hRange : ∀ k ∈ mapKeys data.partitions, (partitionFile output k).isSome)
    (hDistinct : ∀ k1 ∈ mapKeys data.partitions, ∀ k2 ∈ mapKeys data.partitions,
      partitionFile output k1 = partitionFile output k2 → k1 = k2)
    (hWrite : ∀ k ∈ mapKeys data.partitions, ∀ f, partitionFile output k = some f →
      f ≠ "" ∧ flt.writeFile f = WriteOutcome.done) :
    (saveMapResults unmarshal (fun d => Except.ok (enc d)) order flt fs inp output).1
      = Res.ok () ∧
    ∀ k ∈ mapKeys data.partitions, ∀ f, partitionFile output k = some f →
      FS.read (saveMapResults unmarshal (fun d => Except.ok (enc d)) order flt fs inp output).2 f
        = some (enc (mapGetSlice data.partitions k)) := by
  have hmem : ∀ e ∈ partitionsInOrder order data,
      e.1 ∈ mapKeys data.partitions ∧ e.2 = mapGetSlice data.partitions e.1 := by
    intro e he
    simp only [partitionsInOrder, List.mem_map] at he
    obtain ⟨k, hk, rfl⟩ := he
    exact ⟨(hOrder _).mem_iff.mp hk, rfl⟩
  have hall : ∀ e ∈ partitionsInOrder order data, ∃ f, partitionFile output e.1 = some f ∧
      f ≠ "" ∧ flt.writeFile f = WriteOutcome.done := by
    intro e he
    obtain ⟨hk, _⟩ := hmem e he
    obtain ⟨f, hf⟩ := Option.isSome_iff_exists.mp (hRange e.1 hk)
    exact ⟨f, hf, hWrite e.1 hk f hf⟩
  have hsame : ∀ e1 ∈ partitionsInOrder order data, ∀ e2 ∈ partitionsInOrder order data,
      partitionFile output e1.1 = partitionFile output e2.1 → e1.2 = e2.2 := by
    intro e1 h1 e2 h2 hp
    obtain ⟨hk1, hv1⟩ := hmem e1 h1
    obtain ⟨hk2, hv2⟩ := hmem e2 h2
    rw [hv1, hv2, hDistinct e1.1 hk1 e2.1 hk2 hp]
  have hrun : saveMapResults unmarshal (fun d => Except.ok (enc d)) order flt fs inp output =
      saveMapLoop (fun d => Except.ok (enc d)) flt output (partitionsInOrder order data) fs := by
    simp [saveMapResults, hParse, partitionsInOrder]
  rw [hrun]
  refine ⟨saveMapLoop_ok enc flt output _ fs hall, ?_⟩
  intro k hk f hf
  have hin : (k, mapGetSlice data.partitions k) ∈ partitionsInOrder order data := by
    simp only [partitionsInOrder, List.mem_map]
    exact ⟨k, (hOrder _).mem_iff.mpr hk, rfl⟩
  exact saveMapLoop_read enc flt output _ fs hall hsame _ hin f hf

/-- Witness of claim C9, amended: the routing scenario leaves `[k=1]` in
`/i/0` and `[k=2]` in `/i/1`. -/
theorem saveMapResults_routes_partitions_witness :
    ((saveMapResults (fun _ => Except.ok (some routedOutput))
        (fun d => Except.ok (examplePairs d)) (fun keys => keys) noFaults [] "out"
        ["/i/0", "/i/1"]).1 = Res.ok () ∧
      ∀ k ∈ mapKeys routedOutput.partitions, ∀ f, partitionFile ["/i/0", "/i/1"] k = some f →
        FS.read (saveMapResults (fun _ => Except.ok (some routedOutput))
            (fun d => Except.ok (examplePairs d)) (fun keys => keys) noFaults [] "out"
            ["/i/0", "/i/1"]).2 f
          = some (examplePairs (mapGetSlice routedOutput.partitions k))) ∧
    examplePairs (mapGetSlice routedOutput.partitions "0") = "[k=1]" ∧
    examplePairs (mapGetSlice routedOutput.partitions "1") = "[k=2]" ∧
    partitionFile ["/i/0", "/i/1"] "0" = some "/i/0" ∧
    partitionFile ["/i/0", "/i/1"] "1" = some "/i/1" :=
  ⟨saveMapResults_routes_partitions (fun _ => Except.ok (some routedOutput)) examplePairs
      (fun keys => keys) noFaults [] "out" ["/i/0", "/i/1"] routedOutput rfl
      (fun _ => List.Perm.refl _) (by decide) (by decide)
      (by
        intro k hk f hf
        refine ⟨?_, rfl⟩
        simp only [routedOutput, mapKeys, List.map_cons, List.map_nil, List.mem_cons,
          List.mem_singleton, List.not_mem_nil, or_false] at hk
        rcases hk with rfl | rfl
        · have h0 : partitionFile ["/i/0", "/i/1"] "0" = some "/i/0" := by decide
          rw [h0] at hf
          cases hf
          decide
        · have h1 : partitionFile ["/i/0", "/i/1"] "1" = some "/i/1" := by decide
          rw [h1] at hf
          cases hf
          decide),
    by decide, by decide, by decide, by decide⟩

/-- What `reduceReader` builds from the decoded pairs, whatever the order in
which `range` visits the keys of `tmp`. -/
theorem reduceData_spec {V : Type} (order : List String → List String) (kvs : List (KV V))
    (hOrder : ∀ keys, (order keys).Perm keys) :
    ((reduceData order kvs).map (fun e => e.key)).Nodup ∧
    (∀ k, k ∈ (reduceData order kvs).map (fun e => e.key) ↔ k ∈ kvs.map (fun kv => kv.key)) ∧
    (∀ e ∈ reduceData order kvs,
      e.values = (kvs.filter (fun kv => decide (kv.key = e.key))).map (fun kv => kv.value)) ∧
    ((reduceData order kvs).map (fun e => e.values.length)).sum = kvs.length := by
  have hkeys : (reduceData order kvs).map (fun e => e.key)
      = order (mapKeys (reduceGroup kvs [])) := by
    simp [reduceData, List.map_map, Function.comp_def]
  have hperm := hOrder (mapKeys (reduceGroup kvs []))
  have hnodup : (mapKeys (reduceGroup kvs ([] : GoMap String (List V)))).Nodup :=
    reduceGroup_keys_nodup kvs [] (by simp [mapKeys])
  refine ⟨?_, ?_, ?_, ?_⟩
  · rw [hkeys]
    exact hperm.nodup_iff.mpr hnodup
  · intro k
    rw [hkeys, hperm.mem_iff, reduceGroup_mem_keys]
    simp [mapKeys]
  · intro e he
    simp only [reduceData, List.mem_map] at he
    obtain ⟨k, _, rfl⟩ := he
    have := reduceGroup_get kvs ([] : GoMap String (List V)) k
    simpa [mapGetSlice, mapGet] using this
  · have h1 : (reduceData order kvs).map (fun e => e.values.length)
        = (order (mapKeys (reduceGroup kvs []))).map
            (fun k => (mapGetSlice (reduceGroup kvs []) k).length) := by
      simp [reduceData, List.map_map, Function.comp_def]
    rw [h1, (hperm.map _).sum_eq, map_get_of_nodup _ hnodup]
    have := reduceGroup_valueCount kvs ([] : GoMap String (List V))
    simpa [valueCount] using this

/-- Claim C10.  For a reduce input chunk naming a single file that exists, is
read without a fault and decodes to the pairs `kvs`, `reduceReader` returns
the encoding of a list `data` with exactly one entry per distinct key of
`kvs` (no key twice, every key of `kvs` and no other), the values of an entry
being the values of its key in their order of appearance, and the lengths of
all value lists adding up to the length of `kvs`. -/
theorem reduceReader_groups_single_file {V : Type}
    (unmarshal : String → Except GoError (List (KV V)))
    (enc : List (ReducerKVs V) → String) (order : List String → List String)
    (flt : Faults) (fs : FS) (chunk : InputChunk) (buf : String) (kvs : List (KV V))
    (hOrder : ∀ keys, (order keys).Perm keys)
    (hFile : FS.read fs chunk.path = some buf)
    (hRead : flt.readAll chunk.path = false)
    (hParse : unmarshal buf = Except.ok kvs) :
    ∃ data : List (ReducerKVs V),
      reduceReader unmarshal (fun d => Except.ok (enc d)) order flt fs (some chunk)
        = Except.ok (enc data) ∧
      (data.map (fun e => e.key)).Nodup ∧
      (∀ k, k ∈ data.map (fun e => e.key) ↔ k ∈ kvs.map (fun kv => kv.key)) ∧
      (∀ e ∈ data,
        e.values = (kvs.filter (fun kv => decide (kv.key = e.key))).map (fun kv => kv.value)) ∧
      (data.map (fun e => e.values.length)).sum = kvs.length := by
  refine ⟨reduceData order kvs, ?_, reduceData_spec order kvs hOrder⟩
  simp [reduceReader, InputChunk.getPath, hFile, hRead, hParse]

/-- Witness of claim C10: the file holding the pairs of `wood` with 20 and of
`wood` with 22 gives the single entry of `wood` with the values 20, 22. -/
theorem reduceReader_groups_single_file_witness :
    reduceData (fun keys => keys) [(⟨"wood", 20⟩ : KV Nat), ⟨"wood", 22⟩]
      = [⟨"wood", [20, 22]⟩] ∧
    ∃ data : List (ReducerKVs Nat),
      reduceReader exampleUnmarshal (fun d => Except.ok (exampleEncode d)) (fun keys => keys)
          noFaults [("/i/0", "[wood=20,wood=22]")] (some ⟨"/i/0", 0, 0⟩)
        = Except.ok (exampleEncode data) ∧
      (data.map (fun e => e.key)).Nodup ∧
      (∀ k, k ∈ data.map (fun e => e.key) ↔
        k ∈ [(⟨"wood", 20⟩ : KV Nat), ⟨"wood", 22⟩].map (fun kv => kv.key)) ∧
      (∀ e ∈ data,
        e.values = ([(⟨"wood", 20⟩ : KV Nat), ⟨"wood", 22⟩].filter
          (fun kv => decide (kv.key = e.key))).map (fun kv => kv.value)) ∧
      (data.map (fun e => e.values.length)).sum
        = [(⟨"wood", 20⟩ : KV Nat), ⟨"wood", 22⟩].length :=
  ⟨by decide,
    reduceReader_groups_single_file exampleUnmarshal exampleEncode (fun keys => keys) noFaults
      [("/i/0", "[wood=20,wood=22]")] ⟨"/i/0", 0, 0⟩ "[wood=20,wood=22]"
      [⟨"wood", 20⟩, ⟨"wood", 22⟩] (fun _ => List.Perm.refl _) (by decide) (by decide)
      rfl⟩

/-! ## Runner lemmas -/

theorem append_two_last {α : Type} (a : List α) (x y : α) :
    a ++ [x, y] = (a ++ [x]) ++ [y] := by
  simp

theorem doneCalls_append (a b : List RunnerEvent) :
    doneCalls (a ++ b) = doneCalls a + doneCalls b := by
  induction a with
  | nil => simp [doneCalls]
  | cons e rest ih =>
    cases e <;> simp [doneCalls, ih]
    omega

theorem failedCalls_append (a b : List RunnerEvent) :
    failedCalls (a ++ b) = failedCalls a + failedCalls b := by
  induction a with
  | nil => simp [failedCalls]
  | cons e rest ih =>
    cases e <;> simp [failedCalls, ih]
    omega

/-- `handleTask` calls neither `Broker.Done` nor `Broker.Failed`, and leaves
the identity of the task alone. -/
theorem handleTask_facts {V : Type} (env : RunnerEnv V) (fs : FS) (task : Task) :
    doneCalls (handleTask env fs task).trace = 0 ∧
    failedCalls (handleTask env fs task).trace = 0 ∧
    (handleTask env fs task).task =
      { task with timeStarted := toUint64 (env.now 0), status := TaskStatus.TASK_IN_PROGRESS } := by
  unfold handleTask
  simp only
  split
  · simp [doneCalls, failedCalls]
  · split
    · simp [doneCalls, failedCalls]
    · simp [doneCalls, failedCalls]
    · split <;> simp [doneCalls, failedCalls]

theorem runTask_of_err {V : Type} (env : RunnerEnv V) (fs : FS) (task : Task) (e : GoError)
    (h : (handleTask env fs task).result = Res.err e) :
    runTask env fs task = failTask env (handleTask env fs task) := by
  simp [runTask, h]

theorem runTask_of_panic {V : Type} (env : RunnerEnv V) (fs : FS) (task : Task) (m : String)
    (h : (handleTask env fs task).result = Res.panic m) :
    (runTask env fs task).result = Res.panic m ∧
    (runTask env fs task).trace = (handleTask env fs task).trace := by
  simp [runTask, h]

theorem runTask_of_save_error {V : Type} (env : RunnerEnv V) (fs : FS) (task : Task)
    (e : GoError) (fs1 : FS)
    (h : (handleTask env fs task).result = Res.ok ())
    (hs : env.saveProgress (handleTask env fs task).fs
      (markedDone env (handleTask env fs task).task) = (some e, fs1)) :
    runTask env fs task = failTask env
      ⟨Res.err e, markedDone env (handleTask env fs task).task, fs1,
        (handleTask env fs task).trace ++
          [RunnerEvent.saveProgress (markedDone env (handleTask env fs task).task) (some e)]⟩ := by
  simp only [markedDone] at hs
  simp [runTask, h, succeedTask, hs, markedDone]

theorem runTask_of_done_ok {V : Type} (env : RunnerEnv V) (fs : FS) (task : Task) (fs1 : FS)
    (h : (handleTask env fs task).result = Res.ok ())
    (hs : env.saveProgress (handleTask env fs task).fs
      (markedDone env (handleTask env fs task).task) = (none, fs1))
    (hd : env.done (markedDone env (handleTask env fs task).task) = none) :
    runTask env fs task =
      ⟨Res.ok (), markedDone env (handleTask env fs task).task, fs1,
        (handleTask env fs task).trace ++
          [RunnerEvent.saveProgress (markedDone env (handleTask env fs task).task) none,
           RunnerEvent.brDone (markedDone env (handleTask env fs task).task) none]⟩ := by
  simp only [markedDone] at hs hd
  simp [runTask, h, succeedTask, hs, hd, markedDone, errorsWrap, Res.ofError]

theorem runTask_of_done_error {V : Type} (env : RunnerEnv V) (fs : FS) (task : Task) (fs1 : FS)
    (d : GoError)
    (h : (handleTask env fs task).result = Res.ok ())
    (hs : env.saveProgress (handleTask env fs task).fs
      (markedDone env (handleTask env fs task).task) = (none, fs1))
    (hd : env.done (markedDone env (handleTask env fs task).task) = some d) :
    runTask env fs task = failTask env
      ⟨Res.err (wrapError d "can\x27t mark task as done"),
        markedDone env (handleTask env fs task).task, fs1,
        (handleTask env fs task).trace ++
          [RunnerEvent.saveProgress (markedDone env (handleTask env fs task).task) none,
           RunnerEvent.brDone (markedDone env (handleTask env fs task).task) (some d)]⟩ := by
  simp only [markedDone] at hs hd
  simp [runTask, h, succeedTask, hs, hd, markedDone, errorsWrap, Res.ofError]

theorem failTask_trace {V : Type} (env : RunnerEnv V) (run : TaskRun) :
    (failTask env run).trace = run.trace ++
      [RunnerEvent.saveProgress (markedFailed env run.task)
          (env.saveProgress run.fs (markedFailed env run.task)).1,
       RunnerEvent.brFailed (markedFailed env run.task) (env.failed (markedFailed env run.task))] ∧
    (failTask env run).task = markedFailed env run.task ∧
    (failTask env run).fs = (env.saveProgress run.fs (markedFailed env run.task)).2 ∧
    (failTask env run).result = Res.ok () := by
  simp [failTask, markedFailed]

theorem doneErrors_append (a b : List RunnerEvent) :
    doneErrors (a ++ b) = doneErrors a + doneErrors b := by
  induction a with
  | nil => simp [doneErrors]
  | cons e rest ih =>
    cases e with
    | brDone t r =>
      cases r with
      | none => simp [doneErrors, ih]
      | some x => simp [doneErrors, ih]; omega
    | saveProgress t r => simp [doneErrors, ih]
    | command p a => simp [doneErrors, ih]
    | brFailed t r => simp [doneErrors, ih]

theorem handleTask_doneErrors {V : Type} (env : RunnerEnv V) (fs : FS) (task : Task) :
    doneErrors (handleTask env fs task).trace = 0 := by
  unfold handleTask
  simp only
  split
  · simp [doneErrors]
  · split
    · simp [doneErrors]
    · simp [doneErrors]
    · split <;> simp [doneErrors]

theorem ioutilWriteFile_present (flt : Faults) (fs : FS) (p data q : String)
    (h : (FS.read fs q).isSome) : (FS.read (ioutilWriteFile flt fs p data).2 q).isSome := by
  unfold ioutilWriteFile
  split
  · exact h
  · split
    · exact FS.read_write_present fs p _ q h
    · exact h
    · exact FS.read_write_present fs p _ q h

theorem SaveProgress_present (marshal : Task → Except GoError String) (flt : Faults)
    (root : String) (fs : FS) (task : Task) (q : String)
    (hs : task.status ≠ TaskStatus.TASK_DONE) (h : (FS.read fs q).isSome) :
    (FS.read (SaveProgress marshal flt root fs task).2 q).isSome := by
  cases hT : FS.read fs (taskFilePath root task) with
  | none =>
    rw [(SaveProgress_missing marshal flt root fs task (Or.inl hT)).2]
    exact h
  | some old =>
    cases hP : FS.read fs (pendingFilePath root task) with
    | none =>
      rw [(SaveProgress_missing marshal flt root fs task (Or.inr hP)).2]
      exact h
    | some marker =>
      rcases SaveProgress_cases marshal flt root fs task old marker hT hP with
        ⟨_, _, hfs⟩ | ⟨s, _, hc⟩
      · rw [hfs]
        exact h
      · rcases hc with ⟨_, _, hfs⟩ | ⟨kept, _, _, hfs⟩ | ⟨_, _, _, hfs⟩ | ⟨_, hd, _⟩ |
          ⟨_, hd, _⟩
        · rw [hfs]
          exact h
        · rw [hfs]
          exact FS.read_write_present fs _ _ q h
        · rw [hfs]
          exact FS.read_write_present fs _ _ q h
        · exact absurd hd hs
        · exact absurd hd hs

theorem ioutilWriteFile_present_of_eq (flt : Faults) (fs : FS) (p data q : String)
    (r : Option GoError) (fs1 : FS) (heq : ioutilWriteFile flt fs p data = (r, fs1))
    (h : (FS.read fs q).isSome) : (FS.read fs1 q).isSome := by
  have h2 := ioutilWriteFile_present flt fs p data q h
  rw [heq] at h2
  exact h2

theorem saveMapLoop_present {V : Type} (marshal : List (KV V) → Except GoError String)
    (flt : Faults) (output : List String) (l : List (String × List (KV V))) (fs : FS)
    (q : String) (h : (FS.read fs q).isSome) :
    (FS.read (saveMapLoop marshal flt output l fs).2 q).isSome := by
  induction l generalizing fs with
  | nil => exact h
  | cons e rest ih =>
    obtain ⟨k, pairs⟩ := e
    unfold saveMapLoop
    split
    · exact h
    · split
      · exact h
      · split
        · exact h
        · split
          · exact h
          · split
            · rename_i e1 fs1 heq
              exact ioutilWriteFile_present_of_eq flt fs _ _ q _ fs1 heq h
            · rename_i fs1 heq
              exact ih fs1 (ioutilWriteFile_present_of_eq flt fs _ _ q _ fs1 heq h)

theorem saveResults_present {V : Type} (env : RunnerEnv V) (fs : FS) (inp : String)
    (task : Task) (q : String) (h : (FS.read fs q).isSome) :
    (FS.read (saveResults env fs inp task).2 q).isSome := by
  unfold saveResults
  split
  · unfold saveMapResults
    split
    · exact h
    · exact h
    · exact saveMapLoop_present _ _ _ _ _ q h
  · unfold saveReduceResults
    split
    · exact h
    · split
      · rename_i e1 fs1 heq
        exact ioutilWriteFile_present_of_eq env.flt fs _ _ q _ fs1 heq h
      · rename_i fs1 heq
        exact ioutilWriteFile_present_of_eq env.flt fs _ _ q _ fs1 heq h
  · exact h

/-- With a state store that keeps present files present when saving the
started task, `handleTask` keeps them present. -/
theorem handleTask_present {V : Type} (env : RunnerEnv V) (fs : FS) (task : Task) (q : String)
    (hst : ∀ fs0 : FS, (FS.read fs0 q).isSome →
      (FS.read (env.saveProgress fs0
        { task with timeStarted := toUint64 (env.now 0),
                    status := TaskStatus.TASK_IN_PROGRESS }).2 q).isSome)
    (h : (FS.read fs q).isSome) :
    (FS.read (handleTask env fs task).fs q).isSome := by
  have h1 := hst fs h
  unfold handleTask
  simp only
  split
  · rename_i e fs1 heq
    rw [heq] at h1
    exact h1
  · rename_i fs1 heq
    rw [heq] at h1
    split
    · exact h1
    · exact h1
    · split
      · exact h1
      · exact saveResults_present env fs1 _ _ q h1

/-! ## Manager state store lemmas -/

theorem FS.read_write_empty (fs : FS) (p q : String) (h : FS.read fs q = some "") :
    FS.read (FS.write fs p "") q = some "" := by
  by_cases hq : q = p
  · subst hq
    exact FS.read_write_same fs q "" (FS.read_isSome_ne_empty fs q (by simp [h]))
  · rw [FS.read_write_other fs p q "" hq]
    exact h

theorem osCreate_cases (flt : Faults) (fs : FS) (p : String) :
    ((osCreate flt fs p).1 = none ∧ p ≠ "" ∧ (osCreate flt fs p).2 = FS.write fs p "") ∨
    ((osCreate flt fs p).1 ≠ none ∧ (osCreate flt fs p).2 = fs) := by
  unfold osCreate
  by_cases hp : p = ""
  · simp [hp]
  · cases hw : flt.writeFile p <;> simp [hp, hw]

theorem osCreate_keeps_empty (flt : Faults) (fs : FS) (p q : String)
    (h : FS.read fs q = some "") : FS.read (osCreate flt fs p).2 q = some "" := by
  rcases osCreate_cases flt fs p with ⟨_, _, hfs⟩ | ⟨_, hfs⟩
  · rw [hfs]
    exact FS.read_write_empty fs p q h
  · rw [hfs]
    exact h

theorem createTask_cases (flt : Faults) (root : String) (fs : FS) (task : Task) :
    ((createTask flt root fs task).1 = none ∧
      (createTask flt root fs task).2 =
        (osCreate flt (osCreate flt fs (taskFilePath root task)).2
          (pendingFilePath root task)).2 ∧
      (osCreate flt fs (taskFilePath root task)).1 = none ∧
      (osCreate flt (osCreate flt fs (taskFilePath root task)).2
          (pendingFilePath root task)).1 = none) ∨
    ((createTask flt root fs task).1 ≠ none ∧
      ((createTask flt root fs task).2 = (osCreate flt fs (taskFilePath root task)).2 ∨
       (createTask flt root fs task).2 =
        (osCreate flt (osCreate flt fs (taskFilePath root task)).2
          (pendingFilePath root task)).2)) := by
  unfold createTask
  cases h1 : osCreate flt fs (taskFilePath root task) with
  | mk r1 fs1 =>
    cases r1 with
    | some e => simp
    | none =>
      cases h2 : osCreate flt fs1 (pendingFilePath root task) with
      | mk r2 fs2 =>
        cases r2 with
        | some e => simp [h2]
        | none => simp [h2]

theorem createTask_keeps_empty (flt : Faults) (root : String) (fs : FS) (task : Task)
    (q : String) (h : FS.read fs q = some "") :
    FS.read (createTask flt root fs task).2 q = some "" := by
  rcases createTask_cases flt root fs task with ⟨_, hfs, _, _⟩ | ⟨_, hfs | hfs⟩
  · rw [hfs]
    exact osCreate_keeps_empty _ _ _ _ (osCreate_keeps_empty _ _ _ _ h)
  · rw [hfs]
    exact osCreate_keeps_empty _ _ _ _ h
  · rw [hfs]
    exact osCreate_keeps_empty _ _ _ _ (osCreate_keeps_empty _ _ _ _ h)

theorem createTask_creates (flt : Faults) (root : String) (fs : FS) (task : Task)
    (h : (createTask flt root fs task).1 = none) :
    FS.read (createTask flt root fs task).2 (taskFilePath root task) = some "" ∧
    FS.read (createTask flt root fs task).2 (pendingFilePath root task) = some "" := by
  rcases createTask_cases flt root fs task with ⟨_, hfs, h1, h2⟩ | ⟨hne, _⟩
  · rw [hfs]
    rcases osCreate_cases flt fs (taskFilePath root task) with ⟨_, hp1, hfs1⟩ | ⟨hne1, _⟩
    · rcases osCreate_cases flt (osCreate flt fs (taskFilePath root task)).2
        (pendingFilePath root task) with ⟨_, hp2, hfs2⟩ | ⟨hne2, _⟩
      · have ht : FS.read (osCreate flt fs (taskFilePath root task)).2
            (taskFilePath root task) = some "" := by
          rw [hfs1]
          exact FS.read_write_same fs _ _ hp1
        refine ⟨osCreate_keeps_empty _ _ _ _ ht, ?_⟩
        rw [hfs2]
        exact FS.read_write_same _ _ _ hp2
      · exact absurd h2 hne2
    · exact absurd h1 hne1
  · exact absurd h hne

theorem CreateTasks_keeps_empty (flt : Faults) (root : String) (fs : FS) (tasks : List Task)
    (q : String) (h : FS.read fs q = some "") :
    FS.read (CreateTasks flt root fs tasks).2 q = some "" := by
  induction tasks generalizing fs with
  | nil => exact h
  | cons t rest ih =>
    unfold CreateTasks
    have hk := createTask_keeps_empty flt root fs t q h
    split
    · rename_i e fs1 heq
      rw [heq] at hk
      exact hk
    · rename_i fs1 heq
      rw [heq] at hk
      exact ih fs1 hk

theorem CreateTasks_creates (flt : Faults) (root : String) (fs : FS) (tasks : List Task)
    (h : (CreateTasks flt root fs tasks).1 = none) :
    ∀ t ∈ tasks,
      FS.read (CreateTasks flt root fs tasks).2 (taskFilePath root t) = some "" ∧
      FS.read (CreateTasks flt root fs tasks).2 (pendingFilePath root t) = some "" := by
  induction tasks generalizing fs with
  | nil => intro t ht; simp at ht
  | cons t0 rest ih =>
    intro t ht
    unfold CreateTasks at h ⊢
    cases hc : createTask flt root fs t0 with
    | mk r fs1 =>
      cases r with
      | some e => simp [hc] at h
      | none =>
        simp only [hc] at h ⊢
        rcases List.mem_cons.mp ht with rfl | hr
        · have h0 := createTask_creates flt root fs t (by rw [hc])
          rw [hc] at h0
          exact ⟨CreateTasks_keeps_empty flt root fs1 rest _ h0.1,
            CreateTasks_keeps_empty flt root fs1 rest _ h0.2⟩
        · exact ih fs1 h t hr

theorem CreateTasks_first_error (flt : Faults) (root : String) (fs : FS) (tasks : List Task)
    (e : GoError) (h : (CreateTasks flt root fs tasks).1 = some e) :
    ∃ pre t post fs1, tasks = pre ++ t :: post ∧
      CreateTasks flt root fs pre = (none, fs1) ∧
      createTask flt root fs1 t = (some e, (CreateTasks flt root fs tasks).2) := by
  induction tasks generalizing fs with
  | nil => simp [CreateTasks] at h
  | cons t0 rest ih =>
    unfold CreateTasks at h ⊢
    cases hc : createTask flt root fs t0 with
    | mk r fs1 =>
      cases r with
      | some e0 =>
        simp only [hc] at h ⊢
        cases h
        exact ⟨[], t0, rest, fs, rfl, rfl, hc⟩
      | none =>
        simp only [hc] at h ⊢
        obtain ⟨pre, t, post, fs2, hsplit, hpre, hfail⟩ := ih fs1 h
        refine ⟨t0 :: pre, t, post, fs2, by rw [hsplit]; rfl, ?_, hfail⟩
        simp [CreateTasks, hc, hpre]

/-- Once the timer has delivered its value, the passing of time alone never
closes `done`. -/
theorem waitLoop_spent_timer (env : WaitEnv) (dir : String) (k n : Nat) :
    waitLoop env dir (List.replicate k Stimulus.twoSeconds) n false = false := by
  induction k generalizing n with
  | zero => rfl
  | succ k ih =>
    simp only [List.replicate_succ, waitLoop]
    exact ih (n + 1)

/-! ## Claims on the runner and the broker -/

/-- Claim C12 as stated fails in two ways.  When `Broker.Done` returns an
error, the handler of `exampleMapTask` calls both `Broker.Done` and
`Broker.Failed`.  When the payload names the partition 5 for a task with two
output files, the handler panics on the index and calls neither. -/
theorem runTask_can_notify_twice_or_never :
    (doneCalls (runTask (exampleRunnerEnv routedOutput (some ErrAckFailure)) exampleWorld
        exampleMapTask).trace = 1 ∧
      failedCalls (runTask (exampleRunnerEnv routedOutput (some ErrAckFailure)) exampleWorld
        exampleMapTask).trace = 1) ∧
    ((runTask (exampleRunnerEnv strayOutput none) exampleWorld exampleMapTask).result
        = Res.panic "index out of range" ∧
      doneCalls (runTask (exampleRunnerEnv strayOutput none) exampleWorld
        exampleMapTask).trace = 0 ∧
      failedCalls (runTask (exampleRunnerEnv strayOutput none) exampleWorld
        exampleMapTask).trace = 0) := by
  decide

/-- Claim C12, amended.  In every run of the handler of a task that does not
panic, `Broker.Done` is called at most once, and `Broker.Failed` is called
once, as the last call of the handler, exactly when `Broker.Done` was not
called or returned an error; so exactly one of the two is called, once,
unless `Broker.Done` returns an error, and then both are called once. -/
theorem runTask_notifies_broker {V : Type} (env : RunnerEnv V) (fs : FS) (task : Task)
    (hNoPanic : ∀ m, (runTask env fs task).result ≠ Res.panic m) :
    doneCalls (runTask env fs task).trace ≤ 1 ∧
    doneErrors (runTask env fs task).trace ≤ doneCalls (runTask env fs task).trace ∧
    failedCalls (runTask env fs task).trace =
      1 - doneCalls (runTask env fs task).trace + doneErrors (runTask env fs task).trace ∧
    (failedCalls (runTask env fs task).trace = 1 →
      ∃ pre t r, (runTask env fs task).trace = pre ++ [RunnerEvent.brFailed t r]) := by
  obtain ⟨hd0, hf0, _⟩ := handleTask_facts env fs task
  have he0 := handleTask_doneErrors env fs task
  cases hr : (handleTask env fs task).result with
  | panic m => exact absurd (runTask_of_panic env fs task m hr).1 (hNoPanic m)
  | err e =>
    rw [runTask_of_err env fs task e hr, (failTask_trace env _).1]
    refine ⟨?_, ?_, ?_, fun _ => ⟨_, _, _, append_two_last _ _ _⟩⟩
    · simp [doneCalls_append, hd0, doneCalls]
    · simp [doneCalls_append, doneErrors_append, hd0, he0, doneCalls, doneErrors]
    · simp [doneCalls_append, failedCalls_append, doneErrors_append, hd0, hf0, he0,
        doneCalls, failedCalls, doneErrors]
  | ok u =>
    cases u
    cases hs : env.saveProgress (handleTask env fs task).fs
        (markedDone env (handleTask env fs task).task) with
    | mk r fs1 =>
      cases r with
      | some e =>
        rw [runTask_of_save_error env fs task e fs1 hr hs, (failTask_trace env _).1]
        refine ⟨?_, ?_, ?_, fun _ => ⟨_, _, _, append_two_last _ _ _⟩⟩
        · simp [doneCalls_append, hd0, doneCalls]
        · simp [doneCalls_append, doneErrors_append, hd0, he0, doneCalls, doneErrors]
        · simp [doneCalls_append, failedCalls_append, doneErrors_append, hd0, hf0, he0,
            doneCalls, failedCalls, doneErrors]
      | none =>
        cases hd : env.done (markedDone env (handleTask env fs task).task) with
        | none =>
          rw [runTask_of_done_ok env fs task fs1 hr hs hd]
          refine ⟨?_, ?_, ?_, fun h => ?_⟩
          · simp [doneCalls_append, hd0, doneCalls]
          · simp [doneCalls_append, doneErrors_append, hd0, he0, doneCalls, doneErrors]
          · simp [doneCalls_append, failedCalls_append, doneErrors_append, hd0, hf0, he0,
              doneCalls, failedCalls, doneErrors]
          · simp [failedCalls_append, hf0, failedCalls] at h
        | some d =>
          rw [runTask_of_done_error env fs task fs1 d hr hs hd, (failTask_trace env _).1]
          refine ⟨?_, ?_, ?_, fun _ => ⟨_, _, _, append_two_last _ _ _⟩⟩
          · simp [doneCalls_append, hd0, doneCalls]
          · simp [doneCalls_append, doneErrors_append, hd0, he0, doneCalls, doneErrors]
          · simp [doneCalls_append, failedCalls_append, doneErrors_append, hd0, hf0, he0,
              doneCalls, failedCalls, doneErrors]

/-- Witness of claim C12, amended: the run of `exampleMapTask` in which the
broker acknowledges notifies the broker once, by `Done`. -/
theorem runTask_notifies_broker_witness :
    doneCalls (runTask (exampleRunnerEnv routedOutput none) exampleWorld
      exampleMapTask).trace ≤ 1 ∧
    doneErrors (runTask (exampleRunnerEnv routedOutput none) exampleWorld
        exampleMapTask).trace ≤
      doneCalls (runTask (exampleRunnerEnv routedOutput none) exampleWorld
        exampleMapTask).trace ∧
    failedCalls (runTask (exampleRunnerEnv routedOutput none) exampleWorld
        exampleMapTask).trace =
      1 - doneCalls (runTask (exampleRunnerEnv routedOutput none) exampleWorld
          exampleMapTask).trace +
        doneErrors (runTask (exampleRunnerEnv routedOutput none) exampleWorld
          exampleMapTask).trace ∧
    (failedCalls (runTask (exampleRunnerEnv routedOutput none) exampleWorld
        exampleMapTask).trace = 1 →
      ∃ pre t r, (runTask (exampleRunnerEnv routedOutput none) exampleWorld
        exampleMapTask).trace = pre ++ [RunnerEvent.brFailed t r]) :=
  runTask_notifies_broker (exampleRunnerEnv routedOutput none) exampleWorld exampleMapTask
    (fun m h => by
      have hr : (runTask (exampleRunnerEnv routedOutput none) exampleWorld
          exampleMapTask).result = Res.ok () := by decide
      rw [hr] at h
      cases h)

/-- Claim C13.  Whenever `handleTask` returns an error, the worker marks the
task failed and sets its time done, calls `SaveProgress` with that task and
then `Broker.Failed` with it, exactly once, never calls `Broker.Done`, and on
the file store a pending marker present before is still present
afterwards. -/
theorem runTask_fails_task_on_handle_error {V : Type} (env : RunnerEnv V) (fs : FS)
    (task : Task) (e : GoError)
    (hErr : (handleTask env fs task).result = Res.err e) :
    (runTask env fs task).task = markedFailed env (handleTask env fs task).task ∧
    (runTask env fs task).task.status = TaskStatus.TASK_FAILED ∧
    (runTask env fs task).task.timeDone = toUint64 (env.now 2) ∧
    (runTask env fs task).trace =
      (handleTask env fs task).trace ++
        [RunnerEvent.saveProgress (markedFailed env (handleTask env fs task).task)
            (env.saveProgress (handleTask env fs task).fs
              (markedFailed env (handleTask env fs task).task)).1,
         RunnerEvent.brFailed (markedFailed env (handleTask env fs task).task)
            (env.failed (markedFailed env (handleTask env fs task).task))] ∧
    failedCalls (runTask env fs task).trace = 1 ∧
    doneCalls (runTask env fs task).trace = 0 ∧
    (∀ (marshal : Task → Except GoError String) (root : String),
      env.saveProgress = SaveProgress marshal env.flt root →
      (FS.read fs (pendingFilePath root task)).isSome →
      (FS.read (runTask env fs task).fs (pendingFilePath root task)).isSome) := by
  obtain ⟨hd0, hf0, ht⟩ := handleTask_facts env fs task
  rw [runTask_of_err env fs task e hErr]
  obtain ⟨htr, htask, hfs, _⟩ := failTask_trace env (handleTask env fs task)
  rw [htr, htask, hfs]
  refine ⟨rfl, rfl, rfl, rfl, ?_, ?_, ?_⟩
  · simp [failedCalls_append, hf0, failedCalls]
  · simp [doneCalls_append, hd0, doneCalls]
  · intro marshal root hStore hPresent
    rw [hStore]
    apply SaveProgress_present
    · simp [markedFailed]
    · apply handleTask_present
      · intro fs0 h0
        rw [hStore]
        exact SaveProgress_present marshal env.flt root fs0 _ _ (by simp) h0
      · exact hPresent

/-- Witness of claim C13: the run of `exampleMapTask` with a payload that
exits with a non-zero status on `sanity-check`. -/
theorem runTask_fails_task_on_handle_error_witness :
    ((runTask rejectingRunnerEnv exampleWorld exampleMapTask).trace.map RunnerEvent.shape =
      [("SaveProgress", some TaskStatus.TASK_IN_PROGRESS, true), ("Command", none, true),
       ("SaveProgress", some TaskStatus.TASK_FAILED, true),
       ("Failed", some TaskStatus.TASK_FAILED, true)]) ∧
    (runTask rejectingRunnerEnv exampleWorld exampleMapTask).task.status
      = TaskStatus.TASK_FAILED ∧
    failedCalls (runTask rejectingRunnerEnv exampleWorld exampleMapTask).trace = 1 ∧
    doneCalls (runTask rejectingRunnerEnv exampleWorld exampleMapTask).trace = 0 ∧
    (FS.read (runTask rejectingRunnerEnv exampleWorld exampleMapTask).fs
      (pendingFilePath "/s" exampleMapTask)).isSome :=
  ⟨by decide,
    (runTask_fails_task_on_handle_error rejectingRunnerEnv exampleWorld exampleMapTask
      (wrapError (wrapError ⟨"exit status 2", false⟩ "sanity check failed")
        "payload is not a valid libheracles binary") (by decide)).2.1,
    (runTask_fails_task_on_handle_error rejectingRunnerEnv exampleWorld exampleMapTask
      (wrapError (wrapError ⟨"exit status 2", false⟩ "sanity check failed")
        "payload is not a valid libheracles binary") (by decide)).2.2.2.2.1,
    (runTask_fails_task_on_handle_error rejectingRunnerEnv exampleWorld exampleMapTask
      (wrapError (wrapError ⟨"exit status 2", false⟩ "sanity check failed")
        "payload is not a valid libheracles binary") (by decide)).2.2.2.2.2.1,
    (runTask_fails_task_on_handle_error rejectingRunnerEnv exampleWorld exampleMapTask
      (wrapError (wrapError ⟨"exit status 2", false⟩ "sanity check failed")
        "payload is not a valid libheracles binary") (by decide)).2.2.2.2.2.2
      exampleMarshal "/s" rfl (by decide)⟩

/-- Claim C14 as stated fails.  When `exampleMapTask` is delivered again after
its pending marker was removed, the first `SaveProgress` reports the missing
marker and the runner calls `Broker.Failed`, the negative acknowledgement
with requeue. -/
theorem runTask_requeues_redelivered_task :
    FS.read exampleWorldDone (pendingFilePath "/s" exampleMapTask) = none ∧
    (runTask (exampleRunnerEnv routedOutput none) exampleWorldDone exampleMapTask).trace.map
        RunnerEvent.shape =
      [("SaveProgress", some TaskStatus.TASK_IN_PROGRESS, false),
       ("SaveProgress", some TaskStatus.TASK_FAILED, false),
       ("Failed", some TaskStatus.TASK_FAILED, true)] ∧
    failedCalls (runTask (exampleRunnerEnv routedOutput none) exampleWorldDone
      exampleMapTask).trace = 1 := by
  decide

/-- Claim C14, amended.  On the file store, when a task is delivered while its
pending marker is missing, the runner treats it like any other failure: the
first `SaveProgress` returns an error, no command is run, `SaveProgress` of the
task marked failed returns an error as well, `Broker.Failed` is called once
and `Broker.Done` never, and the files are left as they were. -/
theorem runTask_treats_redelivery_as_failure {V : Type} (env : RunnerEnv V) (fs : FS)
    (task : Task) (marshal : Task → Except GoError String) (root : String)
    (hStore : env.saveProgress = SaveProgress marshal env.flt root)
    (hGone : FS.read fs (pendingFilePath root task) = none) :
    (∃ e1 e2, (runTask env fs task).trace =
      [RunnerEvent.saveProgress (handleTask env fs task).task (some e1),
       RunnerEvent.saveProgress (markedFailed env (handleTask env fs task).task) (some e2),
       RunnerEvent.brFailed (markedFailed env (handleTask env fs task).task)
         (env.failed (markedFailed env (handleTask env fs task).task))]) ∧
    failedCalls (runTask env fs task).trace = 1 ∧
    doneCalls (runTask env fs task).trace = 0 ∧
    commandCalls (runTask env fs task).trace = 0 ∧
    (runTask env fs task).fs = fs := by
  have hmiss1 := SaveProgress_missing marshal env.flt root fs
    { task with timeStarted := toUint64 (env.now 0), status := TaskStatus.TASK_IN_PROGRESS }
    (Or.inr hGone)
  obtain ⟨e1, he1⟩ := Option.ne_none_iff_exists'.mp hmiss1.1
  have hsp : env.saveProgress fs
      { task with timeStarted := toUint64 (env.now 0), status := TaskStatus.TASK_IN_PROGRESS }
      = (some e1, fs) := by
    rw [hStore]
    exact Prod.ext he1 hmiss1.2
  have hh : handleTask env fs task =
      ⟨Res.err e1,
        { task with timeStarted := toUint64 (env.now 0),
                    status := TaskStatus.TASK_IN_PROGRESS }, fs,
        [RunnerEvent.saveProgress
          { task with timeStarted := toUint64 (env.now 0),
                      status := TaskStatus.TASK_IN_PROGRESS } (some e1)]⟩ := by
    simp [handleTask, hsp]
  have hmiss2 := SaveProgress_missing marshal env.flt root fs
    (markedFailed env
      { task with timeStarted := toUint64 (env.now 0), status := TaskStatus.TASK_IN_PROGRESS })
    (Or.inr hGone)
  obtain ⟨e2, he2⟩ := Option.ne_none_iff_exists'.mp hmiss2.1
  rw [runTask_of_err env fs task e1 (by rw [hh])]
  obtain ⟨htr, _, hfs, _⟩ := failTask_trace env (handleTask env fs task)
  rw [htr, hfs, hh]
  simp only [hStore, he2, hmiss2.2]
  refine ⟨⟨e1, e2, rfl⟩, ?_, ?_, ?_, trivial⟩ <;> simp [failedCalls, doneCalls, commandCalls]

/-- Witness of claim C14, amended: `exampleMapTask` delivered again in
`exampleWorldDone`. -/
theorem runTask_treats_redelivery_as_failure_witness :
    failedCalls (runTask (exampleRunnerEnv routedOutput none) exampleWorldDone
      exampleMapTask).trace = 1 ∧
    doneCalls (runTask (exampleRunnerEnv routedOutput none) exampleWorldDone
      exampleMapTask).trace = 0 ∧
    commandCalls (runTask (exampleRunnerEnv routedOutput none) exampleWorldDone
      exampleMapTask).trace = 0 ∧
    (runTask (exampleRunnerEnv routedOutput none) exampleWorldDone exampleMapTask).fs
      = exampleWorldDone :=
  (runTask_treats_redelivery_as_failure (exampleRunnerEnv routedOutput none) exampleWorldDone
    exampleMapTask exampleMarshal "/s" rfl (by decide)).2

/-! ### The delivery handles of `Listen` -/

/-- Claim C16, the code at failing inputs.  When `Map` fails (a job whose
input kind is undefined) and when `CreateTasks` fails, `processJob` returns
the error, sets the failure details to its text and sends no task, but
leaves the status of the job as it was (pending): the job is not marked
failed. -/
theorem processJob_leaves_status_on_split_failure :
    ((processJob failingWaitEnv undefinedKindJob).result
        = Res.err ⟨"type cannot be undefined", false⟩ ∧
      (processJob failingWaitEnv undefinedKindJob).job.failureDetails
        = "type cannot be undefined" ∧
      (processJob failingWaitEnv undefinedKindJob).job.status = JobStatus.JOB_PENDING ∧
      (processJob failingWaitEnv undefinedKindJob).trace = []) ∧
    ((processJob failingCreateEnv exampleJob).result
        = Res.err ⟨"no space left on device", false⟩ ∧
      (processJob failingCreateEnv exampleJob).job.failureDetails
        = "no space left on device" ∧
      (processJob failingCreateEnv exampleJob).job.status = JobStatus.JOB_PENDING ∧
      (processJob failingCreateEnv exampleJob).trace.map Event.shape
        = [("CreateTasks", none, false)]) := by
  decide

/-- Claim C17, the code at a failing input.  When `Broker.Send` fails for
every task of `exampleJob`, the goroutines record the send error and mark the
job failed, but `processJob` then sets the status to done before it returns:
the job ends with status done and the failure details of the send error. -/
theorem processJob_marks_done_after_failed_send :
    (processJob failingSendEnv exampleJob).trace.map Event.shape =
      [("CreateTasks", none, true),
       ("Send", some TaskKind.MAP, false), ("Send", some TaskKind.MAP, false),
       ("WaitUntilTasksComplete", some TaskKind.MAP, true),
       ("Send", some TaskKind.REDUCE, false), ("Send", some TaskKind.REDUCE, false),
       ("WaitUntilTasksComplete", some TaskKind.REDUCE, true),
       ("SaveJob", none, true)] ∧
    (processJob failingSendEnv exampleJob).result = Res.ok () ∧
    (processJob failingSendEnv exampleJob).job.status = JobStatus.JOB_DONE ∧
    (processJob failingSendEnv exampleJob).job.failureDetails
      = "can\x27t send task to broker: connection closed" := by
  decide

/-- Claim C18, the code at a failing input.  When the listing of the pending
directory fails, `WaitUntilTasksComplete` returns nil at the first file system
event, and likewise at the timer: the error of the listing is only logged and
the nil list of files counts as an empty directory. -/
theorem WaitUntilTasksComplete_completes_on_failed_listing :
    unreadableDirEnv.readDir 0 (pendingDirPath "/s" "j" TaskKind.MAP)
      = Except.error ⟨"no such file or directory", true⟩ ∧
    WaitUntilTasksComplete unreadableDirEnv "/s" "j" TaskKind.MAP [Stimulus.fsEvent]
      = some none ∧
    WaitUntilTasksComplete unreadableDirEnv "/s" "j" TaskKind.MAP [Stimulus.twoSeconds]
      = some none :=
  ⟨rfl, by decide, by decide⟩

/-- Claim C19, the code at a failing input.  For a pending directory that
holds a marker at the first listing and is empty afterwards, with no file
system event, `WaitUntilTasksComplete` is still blocked after any number of
two-second periods: the timer is created once and delivers one value, so the
first period triggers a listing and no later one does.  A file system event
after the first period does end the wait. -/
theorem WaitUntilTasksComplete_timer_fires_once (k : Nat) :
    WaitUntilTasksComplete drainingDirEnv "/s" "j" TaskKind.MAP
        (List.replicate (k + 1) Stimulus.twoSeconds) = none ∧
    WaitUntilTasksComplete drainingDirEnv "/s" "j" TaskKind.MAP
        [Stimulus.twoSeconds, Stimulus.fsEvent] = some none := by
  refine ⟨?_, by decide⟩
  have h := waitLoop_spent_timer drainingDirEnv (pendingDirPath "/s" "j" TaskKind.MAP) k 1
  simp only [WaitUntilTasksComplete, drainingDirEnv, List.replicate_succ, waitLoop, listedCount]
  simp only [drainingDirEnv] at h
  simp [h]

/-- Claim C20.  When `CreateTasks(tasks)` returns nil, then for every task of
the list the task file exists and is empty and the pending marker of its kind
(map or reduce) exists; and when it returns an error, that is the error of
the first task whose creation fails, and the files are as that creation left
them: no later task is processed. -/
theorem CreateTasks_creates_files_until_first_error (flt : Faults) (root : String) (fs : FS)
    (tasks : List Task) :
    ((CreateTasks flt root fs tasks).1 = none →
      ∀ t ∈ tasks,
        FS.read (CreateTasks flt root fs tasks).2 (taskFilePath root t) = some "" ∧
        (t.kind = TaskKind.MAP →
          FS.read (CreateTasks flt root fs tasks).2
            (pathJoinClean [pathJoinClean [root, jobsDir, t.jobId], pendingMapDir, t.id])
              = some "") ∧
        (t.kind = TaskKind.REDUCE →
          FS.read (CreateTasks flt root fs tasks).2
            (pathJoinClean [pathJoinClean [root, jobsDir, t.jobId], pendingReduceDir, t.id])
              = some "") ∧
        (t.kind = TaskKind.MAP ∨ t.kind = TaskKind.REDUCE)) ∧
    (∀ e, (CreateTasks flt root fs tasks).1 = some e →
      ∃ pre t post fs1, tasks = pre ++ t :: post ∧
        CreateTasks flt root fs pre = (none, fs1) ∧
        createTask flt root fs1 t = (some e, (CreateTasks flt root fs tasks).2)) := by
  refine ⟨fun h t ht => ?_, fun e h => CreateTasks_first_error flt root fs tasks e h⟩
  obtain ⟨h1, h2⟩ := CreateTasks_creates flt root fs tasks h t ht
  refine ⟨h1, fun hk => ?_, fun hk => ?_, ?_⟩
  · simpa [pendingFilePath, jobDirPath, hk] using h2
  · simpa [pendingFilePath, jobDirPath, hk] using h2
  · cases hk : t.kind with
    | MAP => exact Or.inl rfl
    | REDUCE => exact Or.inr rfl
    | OTHER =>
      have hne := FS.read_isSome_ne_empty _ _ (by rw [h2]; rfl)
      simp [pendingFilePath, hk] at hne

/-- Witness of claim C20: a map task and a reduce task created in an empty
store, and a list whose second task cannot be created. -/
theorem CreateTasks_creates_files_until_first_error_witness :
    (∀ t ∈ [exampleMapTask, { exampleMapTask with id := "r", kind := TaskKind.REDUCE }],
      FS.read (CreateTasks noFaults "/s" []
          [exampleMapTask, { exampleMapTask with id := "r", kind := TaskKind.REDUCE }]).2
        (taskFilePath "/s" t) = some "" ∧
      (t.kind = TaskKind.MAP →
        FS.read (CreateTasks noFaults "/s" []
            [exampleMapTask, { exampleMapTask with id := "r", kind := TaskKind.REDUCE }]).2
          (pathJoinClean [pathJoinClean ["/s", jobsDir, t.jobId], pendingMapDir, t.id])
            = some "") ∧
      (t.kind = TaskKind.REDUCE →
        FS.read (CreateTasks noFaults "/s" []
            [exampleMapTask, { exampleMapTask with id := "r", kind := TaskKind.REDUCE }]).2
          (pathJoinClean [pathJoinClean ["/s", jobsDir, t.jobId], pendingReduceDir, t.id])
            = some "") ∧
      (t.kind = TaskKind.MAP ∨ t.kind = TaskKind.REDUCE)) ∧
    (∃ pre t post fs1,
      [exampleMapTask, { exampleMapTask with kind := TaskKind.OTHER }, exampleMapTask]
        = pre ++ t :: post ∧
      CreateTasks noFaults "/s" [] pre = (none, fs1) ∧
      createTask noFaults "/s" fs1 t =
        (some ⟨"open : no such file or directory", true⟩,
          (CreateTasks noFaults "/s" []
            [exampleMapTask, { exampleMapTask with kind := TaskKind.OTHER },
              exampleMapTask]).2)) :=
  ⟨(CreateTasks_creates_files_until_first_error noFaults "/s" []
      [exampleMapTask, { exampleMapTask with id := "r", kind := TaskKind.REDUCE }]).1
      (by decide),
    (CreateTasks_creates_files_until_first_error noFaults "/s" []
      [exampleMapTask, { exampleMapTask with kind := TaskKind.OTHER }, exampleMapTask]).2
      ⟨"open : no such file or directory", true⟩ (by decide)⟩

/-! ## Manager job store lemmas -/

theorem FS.read_none_of_filter (fs : FS) (f : String × String → Bool) (q : String)
    (h : ∀ e ∈ fs, e.1 = q → f e = false) : FS.read (fs.filter f) q = none := by
  induction fs with
  | nil => rfl
  | cons e rest ih =>
    obtain ⟨r, c⟩ := e
    have hrest : ∀ e ∈ rest, e.1 = q → f e = false :=
      fun e he => h e (List.mem_cons_of_mem _ he)
    by_cases hf : f (r, c) = true
    · have hrq : ¬ r = q := by
        intro e
        have := h (r, c) (List.mem_cons_self _ _) e
        rw [hf] at this
        cases this
      simp only [List.filter_cons, hf, if_true, FS.read, hrq, false_and, if_false]
      exact ih hrest
    · simp only [List.filter_cons, hf, Bool.false_eq_true, if_false]
      exact ih hrest

theorem osRemoveAll_clears (dflt : DirFaults) (d : Disk) (p q : String)
    (hOk : dflt.removeAll p = false) (hq : isUnder p q = true) :
    FS.read (osRemoveAll dflt d p).2.files q = none ∧ q ∉ (osRemoveAll dflt d p).2.dirs := by
  simp only [osRemoveAll, hOk, Bool.false_eq_true, if_false]
  constructor
  · apply FS.read_none_of_filter
    intro e _ he
    rw [he, hq]
    rfl
  · intro hm
    have := (List.mem_filter.mp hm).2
    rw [hq] at this
    cases this

theorem osMkdirAll_ok (dflt : DirFaults) (d : Disk) (p : String)
    (h : (osMkdirAll dflt d p).1 = none) :
    (osMkdirAll dflt d p).2.files = d.files ∧ p ∈ (osMkdirAll dflt d p).2.dirs ∧
    ∀ x ∈ d.dirs, x ∈ (osMkdirAll dflt d p).2.dirs := by
  unfold osMkdirAll at h ⊢
  cases hm : dflt.mkdirAll p with
  | some e => simp [hm] at h
  | none =>
    simp only [hm] at h ⊢
    by_cases hf : (FS.read d.files p).isSome = true
    · simp [hf] at h
    · by_cases hd : p ∈ d.dirs
      · simp [hf, hd]
      · simp only [hf, hd, Bool.false_eq_true, if_false]
        exact ⟨by trivial, List.mem_cons_self _ _, fun x hx => List.mem_cons_of_mem _ hx⟩

theorem prepareJobDirectory_ok (dflt : DirFaults) (d : Disk) (loc : String)
    (h : (prepareJobDirectory dflt d loc).1 = none) :
    (prepareJobDirectory dflt d loc).2.files = d.files ∧
    pathJoinClean [loc, Manager.tasksDir] ∈ (prepareJobDirectory dflt d loc).2.dirs ∧
    pathJoinClean [loc, Manager.pendingMapDir] ∈ (prepareJobDirectory dflt d loc).2.dirs ∧
    pathJoinClean [loc, Manager.pendingReduceDir] ∈ (prepareJobDirectory dflt d loc).2.dirs ∧
    ∀ x ∈ d.dirs, x ∈ (prepareJobDirectory dflt d loc).2.dirs := by
  unfold prepareJobDirectory at h ⊢
  cases h1 : osMkdirAll dflt d (pathJoinClean [loc, Manager.tasksDir]) with
  | mk r1 d1 =>
    cases r1 with
    | some e => simp [h1] at h
    | none =>
      have k1 := osMkdirAll_ok dflt d (pathJoinClean [loc, Manager.tasksDir]) (by rw [h1])
      rw [h1] at k1
      simp only [h1] at h ⊢
      cases h2 : osMkdirAll dflt d1 (pathJoinClean [loc, Manager.pendingMapDir]) with
      | mk r2 d2 =>
        cases r2 with
        | some e => simp [h2] at h
        | none =>
          have k2 := osMkdirAll_ok dflt d1 (pathJoinClean [loc, Manager.pendingMapDir])
            (by rw [h2])
          rw [h2] at k2
          simp only [h2] at h ⊢
          cases h3 : osMkdirAll dflt d2 (pathJoinClean [loc, Manager.pendingReduceDir]) with
          | mk r3 d3 =>
            cases r3 with
            | some e => simp [h3] at h
            | none =>
              have k3 := osMkdirAll_ok dflt d2 (pathJoinClean [loc, Manager.pendingReduceDir])
                (by rw [h3])
              rw [h3] at k3
              simp only at k1 k2 k3 ⊢
              refine ⟨by rw [k3.1, k2.1, k1.1], k3.2.2 _ (k2.2.2 _ k1.2.1), k3.2.2 _ k2.2.1,
                k3.2.1, fun x hx => k3.2.2 _ (k2.2.2 _ (k1.2.2 _ hx))⟩

/-- Every failing `SaveJob` ends with `removeJob` on some disk. -/
theorem SaveJob_error_removes (marshal : Job → Except GoError String) (flt : Faults)
    (dflt : DirFaults) (location : String) (d : Disk) (job : Job)
    (h : (SaveJob marshal flt dflt location d job).1 ≠ none) :
    ∃ d1, (SaveJob marshal flt dflt location d job).2 = removeJob dflt location d1 job.id := by
  unfold SaveJob at h ⊢
  cases h1 : prepareJobDirectory dflt d (pathJoinClean [location, Manager.jobsDir, job.id]) with
  | mk r1 d1 =>
    cases r1 with
    | some e => exact ⟨d1, rfl⟩
    | none =>
      simp only [h1] at h ⊢
      cases hm : marshal job with
      | error e => exact ⟨d1, rfl⟩
      | ok s =>
        simp only [hm] at h ⊢
        cases hw : ioutilWriteFile flt d1.files
            (pathJoinClean [pathJoinClean [location, Manager.jobsDir, job.id],
                Manager.jobSaveFile]) s with
        | mk r2 files1 =>
          cases r2 with
          | some e => exact ⟨_, rfl⟩
          | none => simp [hw] at h

/-! ## Intermediate file plan lemmas -/

theorem digitChar_ne_slash : ∀ m, m < 10 → Nat.digitChar m ≠ '/' := by
  decide

theorem toDigitsCore_no_slash (fuel n : Nat) (ds : List Char) (h : '/' ∉ ds) :
    '/' ∉ Nat.toDigitsCore 10 fuel n ds := by
  induction fuel generalizing n ds with
  | zero => simpa [Nat.toDigitsCore] using h
  | succ f ih =>
    have hc : '/' ∉ Nat.digitChar (n % 10) :: ds := by
      simp only [List.mem_cons, not_or]
      exact ⟨fun e => digitChar_ne_slash _ (Nat.mod_lt n (by decide)) e.symm, h⟩
    simp only [Nat.toDigitsCore]
    split
    · exact hc
    · exact ih _ _ hc

theorem toString_no_slash (n : Nat) : '/' ∉ (toString n).data := by
  show '/' ∉ (Nat.repr n).data
  simp only [Nat.repr, Nat.toDigits, List.asString]
  exact toDigitsCore_no_slash _ _ _ (by simp)

theorem append_cons_cancel {α : Type} (x : α) (a a2 b b2 : List α) (h1 : x ∉ a) (h2 : x ∉ a2)
    (h : a ++ x :: b = a2 ++ x :: b2) : a = a2 ∧ b = b2 := by
  induction a generalizing a2 with
  | nil =>
    cases a2 with
    | nil => simpa using h
    | cons y ys =>
      simp only [List.nil_append, List.cons_append, List.cons.injEq] at h
      exact absurd (h.1 ▸ List.mem_cons_self _ _) h2
  | cons y ys ih =>
    cases a2 with
    | nil =>
      simp only [List.nil_append, List.cons_append, List.cons.injEq] at h
      exact absurd (h.1 ▸ List.mem_cons_self _ _) h1
    | cons z zs =>
      simp only [List.cons_append, List.cons.injEq] at h
      have := ih zs (fun hm => h1 (List.mem_cons_of_mem _ hm))
        (fun hm => h2 (List.mem_cons_of_mem _ hm)) h.2
      exact ⟨by rw [h.1, this.1], this.2⟩

theorem index_unique (F p j p2 j2 : Nat) (hj : j < F) (hj2 : j2 < F)
    (h : p * F + j = p2 * F + j2) : p = p2 ∧ j = j2 := by
  have h1 : (p * F + j) / F = p := by
    rw [Nat.add_comm, Nat.add_mul_div_right _ _ (by omega), Nat.div_eq_of_lt hj, Nat.zero_add]
  have h2 : (p2 * F + j2) / F = p2 := by
    rw [Nat.add_comm, Nat.add_mul_div_right _ _ (by omega), Nat.div_eq_of_lt hj2, Nat.zero_add]
  have hp : p = p2 := by rw [← h1, ← h2, h]
  subst hp
  exact ⟨rfl, by omega⟩



theorem intermediateInner_get (uuid : Nat → String) (jobDir : String) (i nFiles : Nat)
    (js : List Nat) (ret : GoMap Int (List String)) (k : Int) :
    mapGetSlice (intermediateInner uuid jobDir i nFiles js ret) k =
      if (i : Int) = k then
        mapGetSlice ret k ++ js.map (fun j => pathJoin [jobDir, toString i, uuid (i * nFiles + j)])
      else mapGetSlice ret k := by
  induction js generalizing ret with
  | nil => by_cases h : (i : Int) = k <;> simp [intermediateInner, h]
  | cons j rest ih =>
    simp only [intermediateInner]
    rw [ih, mapGetSlice_mapSet]
    by_cases h : (i : Int) = k
    · subst h
      simp
    · simp [h]

theorem intermediateInner_keys (uuid : Nat → String) (jobDir : String) (i nFiles : Nat)
    (js : List Nat) (ret : GoMap Int (List String)) (k : Int)
    (h : k ∈ mapKeys (intermediateInner uuid jobDir i nFiles js ret)) :
    k ∈ mapKeys ret ∨ k = (i : Int) := by
  induction js generalizing ret with
  | nil => exact Or.inl h
  | cons j rest ih =>
    simp only [intermediateInner] at h
    rcases ih _ h with h1 | h1
    · by_cases hm : (i : Int) ∈ mapKeys ret
      · rw [mapKeys_mapSet_of_mem _ _ _ hm] at h1
        exact Or.inl h1
      · rw [mapKeys_mapSet_of_not_mem _ _ _ hm] at h1
        rcases List.mem_append.mp h1 with h2 | h2
        · exact Or.inl h2
        · exact Or.inr (by simpa using h2)
    · exact Or.inr h1

theorem intermediateOuter_ok (env : SplitEnv) (uuid : Nat → String) (jobDir : String)
    (nFiles : Nat) (is : List Nat) (ret : GoMap Int (List String)) (hNodup : is.Nodup)
    (hFresh : ∀ i ∈ is, mapGetSlice ret (i : Int) = [])
    (hDirs : ∀ i ∈ is, env.mkdirAll (pathJoin [jobDir, toString i]) = none) :
    ∃ r, intermediateOuter env uuid jobDir nFiles is ret = some r ∧
      (∀ i ∈ is, mapGetSlice r (i : Int) =
        (List.range nFiles).map
          (fun j => pathJoin [jobDir, toString i, uuid (i * nFiles + j)])) ∧
      (∀ k : Int, (∀ i ∈ is, (i : Int) ≠ k) → mapGetSlice r k = mapGetSlice ret k) ∧
      (∀ k ∈ mapKeys r, k ∈ mapKeys ret ∨ ∃ i ∈ is, k = (i : Int)) := by
  induction is generalizing ret with
  | nil => exact ⟨ret, rfl, by simp, fun _ _ => rfl, fun k hk => Or.inl hk⟩
  | cons i rest ih =>
    have hi : i ∉ rest := (List.nodup_cons.mp hNodup).1
    have hne : ∀ x ∈ rest, ¬ (i : Int) = (x : Int) := by
      intro x hx e
      exact hi (by rw [Int.ofNat_inj.mp e]; exact hx)
    have hFresh2 : ∀ x ∈ rest,
        mapGetSlice (intermediateInner uuid jobDir i nFiles (List.range nFiles) ret) (x : Int)
          = [] := by
      intro x hx
      rw [intermediateInner_get, if_neg (hne x hx)]
      exact hFresh x (List.mem_cons_of_mem _ hx)
    obtain ⟨r, hr, hrows, hother, hkeys⟩ :=
      ih (intermediateInner uuid jobDir i nFiles (List.range nFiles) ret)
        (List.nodup_cons.mp hNodup).2 hFresh2
        (fun x hx => hDirs x (List.mem_cons_of_mem _ hx))
    refine ⟨r, ?_, ?_, ?_, ?_⟩
    · simp only [intermediateOuter, hDirs i (List.mem_cons_self _ _)]
      exact hr
    · intro x hx
      rcases List.mem_cons.mp hx with hx | hx
      · subst hx
        rw [hother _ (fun y hy e => hne y hy e.symm), intermediateInner_get, if_pos rfl,
          hFresh _ (List.mem_cons_self _ _), List.nil_append]
      · exact hrows x hx
    · intro k hk
      rw [hother k (fun y hy => hk y (List.mem_cons_of_mem _ hy)), intermediateInner_get,
        if_neg (hk i (List.mem_cons_self _ _))]
    · intro k hk
      rcases hkeys k hk with h1 | ⟨x, hx, h1⟩
      · rcases intermediateInner_keys _ _ _ _ _ _ _ h1 with h2 | h2
        · exact Or.inl h2
        · exact Or.inr ⟨i, List.mem_cons_self _ _, h2⟩
      · exact Or.inr ⟨x, List.mem_cons_of_mem _ hx, h1⟩

theorem intermediateOuter_fail (env : SplitEnv) (uuid : Nat → String) (jobDir : String)
    (nFiles : Nat) (is : List Nat) (ret : GoMap Int (List String))
    (h : ∃ i ∈ is, env.mkdirAll (pathJoin [jobDir, toString i]) ≠ none) :
    intermediateOuter env uuid jobDir nFiles is ret = none := by
  induction is generalizing ret with
  | nil =>
    obtain ⟨i, hi, _⟩ := h
    cases hi
  | cons i rest ih =>
    simp only [intermediateOuter]
    cases hm : env.mkdirAll (pathJoin [jobDir, toString i]) with
    | some e => rfl
    | none =>
      simp only
      apply ih
      obtain ⟨x, hx, hxe⟩ := h
      rcases List.mem_cons.mp hx with hx | hx
      · subst hx
        exact absurd hm hxe
      · exact ⟨x, hx, hxe⟩

/-- The plan of `IntermediateFiles` when every directory can be made and the
listing succeeds. -/
theorem IntermediateFiles_ok (env : SplitEnv) (uuid : Nat → String) (job : Job)
    (entries : List String)
    (hJobDir : env.mkdirAll (pathJoin [env.intermediateDataLocation, job.id]) = none)
    (hList : env.readDir job.inputDirectory = Except.ok entries)
    (hDirs : ∀ p, p < job.outputFiles.length →
      env.mkdirAll (pathJoin [pathJoin [env.intermediateDataLocation, job.id], toString p])
        = none) :
    (∀ p, p < job.outputFiles.length →
      mapGetSlice (IntermediateFiles env uuid job) (p : Int)
        = plannedRow env uuid job entries.length p) ∧
    (∀ k ∈ mapKeys (IntermediateFiles env uuid job),
      ∃ p, p < job.outputFiles.length ∧ k = (p : Int)) := by
  obtain ⟨r, hr, hrows, _, hkeys⟩ :=
    intermediateOuter_ok env uuid (pathJoin [env.intermediateDataLocation, job.id])
      entries.length (List.range job.outputFiles.length) [] (List.nodup_range _)
      (fun _ _ => rfl) (fun i hi => hDirs i (List.mem_range.mp hi))
  have hplan : IntermediateFiles env uuid job = r := by
    simp only [IntermediateFiles, hJobDir, hList, hr, Option.getD_some]
  rw [hplan]
  constructor
  · intro p hp
    rw [hrows p (List.mem_range.mpr hp)]
    rfl
  · intro k hk
    rcases hkeys k hk with h1 | ⟨i, hi, h1⟩
    · cases h1
    · exact ⟨i, List.mem_range.mp hi, h1⟩

/-- No plan when the job directory, the listing or a partition directory
fails. -/
theorem IntermediateFiles_fail (env : SplitEnv) (uuid : Nat → String) (job : Job)
    (h : env.mkdirAll (pathJoin [env.intermediateDataLocation, job.id]) ≠ none ∨
      (∃ e, env.readDir job.inputDirectory = Except.error e) ∨
      ∃ p, p < job.outputFiles.length ∧
        env.mkdirAll (pathJoin [pathJoin [env.intermediateDataLocation, job.id], toString p])
          ≠ none) :
    IntermediateFiles env uuid job = [] := by
  unfold IntermediateFiles
  cases hm : env.mkdirAll (pathJoin [env.intermediateDataLocation, job.id]) with
  | some e => simp only [hm]
  | none =>
    cases hl : env.readDir job.inputDirectory with
    | error e => simp only [hm, hl]
    | ok inFiles =>
      rcases h with h | ⟨e, h⟩ | ⟨p, hp, h⟩
      · exact absurd hm h
      · rw [hl] at h
        cases h
      · simp only [hm, hl]
        rw [intermediateOuter_fail env uuid _ _ _ _ ⟨p, List.mem_range.mpr hp, h⟩]
        rfl

theorem plannedRow_length (env : SplitEnv) (uuid : Nat → String) (job : Job) (nFiles p : Nat) :
    (plannedRow env uuid job nFiles p).length = nFiles := by
  simp [plannedRow]

theorem plannedRow_getElem (env : SplitEnv) (uuid : Nat → String) (job : Job)
    (nFiles p j : Nat) (hj : j < nFiles) :
    (plannedRow env uuid job nFiles p)[j]? = some (plannedPath env uuid job nFiles p j) := by
  simp [plannedRow, List.getElem?_map, List.getElem?_range hj]

theorem plannedPath_injective (env : SplitEnv) (uuid : Nat → String) (job : Job)
    (nFiles p j p2 j2 : Nat) (hj : j < nFiles) (hj2 : j2 < nFiles)
    (hUuid : uuid (p * nFiles + j) = uuid (p2 * nFiles + j2) →
      p * nFiles + j = p2 * nFiles + j2)
    (h : plannedPath env uuid job nFiles p j = plannedPath env uuid job nFiles p2 j2) :
    p = p2 ∧ j = j2 := by
  unfold plannedPath at h
  simp only [pathJoin] at h
  have h1 := congrArg String.data h
  simp only [String.data_append, List.append_assoc, List.append_cancel_left_eq] at h1
  simp only [List.singleton_append] at h1
  have h2 := append_cons_cancel '/' _ _ _ _ (toString_no_slash p) (toString_no_slash p2) h1
  exact index_unique nFiles p j p2 j2 hj hj2 (hUuid (String.ext h2.2))

/-! ## Reduce and map task lemmas -/

theorem String.ne_empty_of_data {s : String} (h : s.data ≠ []) : s ≠ "" := by
  intro e
  rw [e] at h
  exact h rfl

theorem stringsJoin_ne_empty (a : String) (rest : List String) (sep : String) (h : a ≠ "") :
    stringsJoin (a :: rest) sep ≠ "" := by
  cases rest with
  | nil => exact h
  | cons b more =>
    apply String.ne_empty_of_data
    simp only [stringsJoin, String.data_append]
    intro e
    have h1 := (List.append_eq_nil.mp (List.append_eq_nil.mp e).1).1
    exact h (String.ext h1)

theorem plannedPath_ne_empty (env : SplitEnv) (uuid : Nat → String) (job : Job)
    (nFiles p j : Nat) : plannedPath env uuid job nFiles p j ≠ "" := by
  apply String.ne_empty_of_data
  simp only [plannedPath, pathJoin, String.data_append]
  intro e
  have h1 := (List.append_eq_nil.mp (List.append_eq_nil.mp e).1).2
  cases h1

theorem plannedRow_join_ne_empty (env : SplitEnv) (uuid : Nat → String) (job : Job)
    (nFiles p : Nat) (h : 0 < nFiles) :
    stringsJoin (plannedRow env uuid job nFiles p) "," ≠ "" := by
  cases nFiles with
  | zero => omega
  | succ n =>
    unfold plannedRow
    rw [List.range_succ_eq_map, List.map_cons]
    exact stringsJoin_ne_empty _ _ _ (plannedPath_ne_empty _ _ _ _ _ _)

/-- The reduce task at index `p`: one output file, and the joined row `p` of
the plan as its input path. -/
theorem Reduce_getElem (uuid : Nat → String) (now : Nat → Int) (job : Job)
    (interm : GoMap Int (List String)) (p : Nat) (t : Task)
    (h : (Reduce uuid now job interm)[p]? = some t) :
    p < job.outputFiles.length ∧ t.outputFiles.length = 1 ∧
    t.inputChunk = some ⟨stringsJoin (mapGetSlice interm (p : Int)) ",", 0, 0⟩ := by
  unfold Reduce at h
  rw [reduceTasks_getElem_opt] at h
  cases ho : job.outputFiles[p]? with
  | none => simp [ho] at h
  | some o =>
    simp only [ho, Option.map_some', Option.some.injEq, Nat.zero_add] at h
    have hp : p < job.outputFiles.length := by
      by_contra hge
      rw [List.getElem?_eq_none (by omega)] at ho
      cases ho
    subst h
    exact ⟨hp, rfl, rfl⟩

theorem plannedPath_form (env : SplitEnv) (uuid : Nat → String) (job : Job)
    (nFiles p j : Nat) :
    plannedPath env uuid job nFiles p j =
      pathJoin [env.intermediateDataLocation, job.id, toString p, uuid (p * nFiles + j)] := by
  simp only [plannedPath, pathJoin, String.append_assoc]

theorem splitTextFile_length (env : SplitEnv) (f : String) (cs : List InputChunk)
    (h : splitTextFile env f = Res.ok cs) : cs.length ≤ 1 := by
  unfold splitTextFile at h
  cases hs : env.statSize f with
  | none => simp [hs] at h
  | some size =>
    simp only [hs] at h
    by_cases hlt : size < env.inputChunkSize
    · simp only [hlt, if_true, Res.ok.injEq] at h
      rw [← h]
      simp
    · simp only [hlt, if_false, Res.ok.injEq] at h
      rw [← h]
      simp

theorem textMapChunks_length (env : SplitEnv) (dir : String) (entries : List String)
    (chunks : List InputChunk) (h : textMapChunks env dir entries = Res.ok chunks) :
    chunks.length ≤ entries.length := by
  induction entries generalizing chunks with
  | nil =>
    simp only [textMapChunks, Res.ok.injEq] at h
    rw [← h]
    simp
  | cons name rest ih =>
    simp only [textMapChunks] at h
    cases h1 : splitTextFile env (pathJoinClean [dir, name]) with
    | ok cs =>
      simp only [h1] at h
      cases h2 : textMapChunks env dir rest with
      | ok more =>
        simp only [h2, Res.ok.injEq] at h
        rw [← h]
        have a := splitTextFile_length env _ cs h1
        have b := ih more h2
        simp only [List.length_append, List.length_cons]
        omega
      | err e => simp [h2] at h
      | panic m => simp [h2] at h
    | err e => simp [h1] at h
    | panic m => simp [h1] at h

theorem textMapOutputFiles_ok (interm : GoMap Int (List String)) (i : Nat) (ps : List Int)
    (h : ∀ p ∈ ps, ((mapGetSlice interm p)[i]?).isSome = true) :
    ∃ files, textMapOutputFiles interm i ps = Res.ok files := by
  induction ps with
  | nil => exact ⟨[], rfl⟩
  | cons p rest ih =>
    obtain ⟨files, hf⟩ := ih (fun q hq => h q (List.mem_cons_of_mem _ hq))
    have hp := h p (List.mem_cons_self _ _)
    cases hg : (mapGetSlice interm p)[i]? with
    | none => simp [hg] at hp
    | some file =>
      refine ⟨file :: files, ?_⟩
      simp only [textMapOutputFiles, hg, hf]

theorem textMapTasks_ok (uuid : Nat → String) (now : Nat → Int)
    (order : Nat → List Int → List Int) (job : Job) (interm : GoMap Int (List String))
    (chunks : List InputChunk) (start : Nat)
    (h : ∀ i, start ≤ i → i < start + chunks.length →
      ∀ p ∈ order i (mapKeys interm), ((mapGetSlice interm p)[i]?).isSome = true) :
    ∃ tasks, textMapTasks uuid now order job interm chunks start = Res.ok tasks ∧
      tasks.length = chunks.length := by
  induction chunks generalizing start with
  | nil => exact ⟨[], rfl, rfl⟩
  | cons c rest ih =>
    obtain ⟨tasks, ht, hl⟩ := ih (start + 1) (fun i h1 h2 => h i (by omega)
      (by simp only [List.length_cons]; omega))
    obtain ⟨files, hf⟩ := textMapOutputFiles_ok interm start (order start (mapKeys interm))
      (h start (Nat.le_refl _) (by simp only [List.length_cons]; omega))
    simp only [textMapTasks, hf, ht]
    exact ⟨_, rfl, by simp [hl]⟩

/-- Every row of the plan of `IntermediateFiles` that has a key is as long as
the listing of the input directory. -/
theorem IntermediateFiles_row_length (env : SplitEnv) (uuid : Nat → String) (job : Job)
    (entries : List String) (hList : env.readDir job.inputDirectory = Except.ok entries)
    (k : Int) (hk : k ∈ mapKeys (IntermediateFiles env uuid job)) :
    (mapGetSlice (IntermediateFiles env uuid job) k).length = entries.length := by
  by_cases hJobDir : env.mkdirAll (pathJoin [env.intermediateDataLocation, job.id]) = none
  · by_cases hDirs : ∀ p, p < job.outputFiles.length →
        env.mkdirAll (pathJoin [pathJoin [env.intermediateDataLocation, job.id], toString p])
          = none
    · obtain ⟨hrows, hkeys⟩ := IntermediateFiles_ok env uuid job entries hJobDir hList hDirs
      obtain ⟨p, hp, hkp⟩ := hkeys k hk
      rw [hkp, hrows p hp, plannedRow_length]
    · have hfail : IntermediateFiles env uuid job = [] := by
        apply IntermediateFiles_fail
        refine Or.inr (Or.inr ?_)
        by_contra hno
        apply hDirs
        intro p hp
        by_contra hne
        exact hno ⟨p, hp, hne⟩
      rw [hfail] at hk
      cases hk
  · rw [IntermediateFiles_fail env uuid job (Or.inl hJobDir)] at hk
    cases hk

/-! ## Map result lemmas -/

theorem ioutilWriteFile_read_other (flt : Faults) (fs : FS) (p data q : String) (h : q ≠ p) :
    FS.read (ioutilWriteFile flt fs p data).2 q = FS.read fs q := by
  unfold ioutilWriteFile
  split
  · rfl
  · split
    · exact FS.read_write_other fs p q _ h
    · rfl
    · exact FS.read_write_other fs p q _ h

/-- The loop of `saveMapResults` with an encoder that cannot fail, over
partition names that all select an output file: it ends with nil or with the
error of a write, and leaves every file that no name selects as it was. -/
theorem saveMapLoop_in_range {V : Type} (enc : List (KV V) → String) (flt : Faults)
    (output : List String) (l : List (String × List (KV V))) (fs : FS)
    (h : ∀ e ∈ l, (partitionFile output e.1).isSome = true) :
    ((saveMapLoop (fun d => Except.ok (enc d)) flt output l fs).1 = Res.ok () ∨
      ∃ e, (saveMapLoop (fun d => Except.ok (enc d)) flt output l fs).1
        = Res.err (wrapError e "unable to write the file")) ∧
    ∀ q, (∀ e ∈ l, partitionFile output e.1 ≠ some q) →
      FS.read (saveMapLoop (fun d => Except.ok (enc d)) flt output l fs).2 q = FS.read fs q := by
  induction l generalizing fs with
  | nil => exact ⟨Or.inl rfl, fun _ _ => rfl⟩
  | cons e rest ih =>
    obtain ⟨k, pairs⟩ := e
    have hk := h (k, pairs) (List.mem_cons_self _ _)
    have hrest : ∀ e ∈ rest, (partitionFile output e.1).isSome = true :=
      fun e he => h e (List.mem_cons_of_mem _ he)
    obtain ⟨f, hf⟩ := Option.isSome_iff_exists.mp hk
    have hf2 := hf
    unfold partitionFile at hf
    cases ha : atoi k with
    | none => simp [ha] at hf
    | some partition =>
      simp only [ha] at hf
      by_cases hneg : partition < 0
      · simp [hneg] at hf
      · simp only [hneg, if_false] at hf
        cases hw : ioutilWriteFile flt fs f (enc pairs) with
        | mk r fs1 =>
          have hread : ∀ q, q ≠ f → FS.read fs1 q = FS.read fs q := by
            intro q hq
            have := ioutilWriteFile_read_other flt fs f (enc pairs) q hq
            rw [hw] at this
            exact this
          have hq1 : ∀ q, (∀ e ∈ (k, pairs) :: rest, partitionFile output e.1 ≠ some q) →
              q ≠ f := by
            intro q hq e
            exact hq (k, pairs) (List.mem_cons_self _ _) (by rw [e]; exact hf2)
          cases r with
          | some e =>
            have hrun : saveMapLoop (fun d => Except.ok (enc d)) flt output
                ((k, pairs) :: rest) fs
                = (Res.err (wrapError e "unable to write the file"), fs1) := by
              simp only [saveMapLoop, ha, hneg, if_false, hf, hw]
            rw [hrun]
            exact ⟨Or.inr ⟨e, rfl⟩, fun q hq => hread q (hq1 q hq)⟩
          | none =>
            have hrun : saveMapLoop (fun d => Except.ok (enc d)) flt output
                ((k, pairs) :: rest) fs
                = saveMapLoop (fun d => Except.ok (enc d)) flt output rest fs1 := by
              simp only [saveMapLoop, ha, hneg, if_false, hf, hw]
            rw [hrun]
            obtain ⟨h1, h2⟩ := ih fs1 hrest
            refine ⟨h1, fun q hq => ?_⟩
            rw [h2 q (fun e he => hq e (List.mem_cons_of_mem _ he)), hread q (hq1 q hq)]

theorem managerPendingFilePath_eq (root : String) (task : Task) :
    Manager.pendingFilePath root task = pendingFilePath root task := by
  unfold Manager.pendingFilePath pendingFilePath
  cases task.kind <;> rfl

/-! ## Claims C21 to C30 -/

/-- Claim C21 as stated fails.  `removeJob` drops the error of
`os.RemoveAll`: on a store where nothing can be written and directories
cannot be removed, `SaveJob` returns the error of writing the request file
while the three subdirectories it made are still below `jobs/j`. -/
theorem SaveJob_error_leaves_job_directory :
    (SaveJob exampleMarshalJob readOnlyFaults stuckDirFaults "/s" ⟨[], []⟩ exampleJob).1
      = some ⟨"open /s/jobs/j/request: permission denied", false⟩ ∧
    (SaveJob exampleMarshalJob readOnlyFaults stuckDirFaults "/s" ⟨[], []⟩ exampleJob).2.dirs
      = ["/s/jobs/j/pending_reduce_tasks", "/s/jobs/j/pending_map_tasks", "/s/jobs/j/tasks"] ∧
    isUnder (pathJoinClean ["/s", Manager.jobsDir, exampleJob.id]) "/s/jobs/j/tasks" = true := by
  decide

/-- Claim C21, amended.  When manager `SaveJob(job)` returns an error and
`os.RemoveAll` of the job directory succeeds, nothing is left at or below
`jobs/<job.id>`: no file and no directory.  When it returns nil, the file
`jobs/<job.id>/request` holds the serialization of the job, the directories
`tasks`, `pending_map_tasks` and `pending_reduce_tasks` exist, every
directory that was there is still there, and every file other than the
request file reads as before. -/
theorem SaveJob_removes_or_saves (marshal : Job → Except GoError String) (flt : Faults)
    (dflt : DirFaults) (location : String) (d : Disk) (job : Job) :
    ((SaveJob marshal flt dflt location d job).1 ≠ none →
      dflt.removeAll (pathJoinClean [location, Manager.jobsDir, job.id]) = false →
      ∀ q, isUnder (pathJoinClean [location, Manager.jobsDir, job.id]) q = true →
        FS.read (SaveJob marshal flt dflt location d job).2.files q = none ∧
        q ∉ (SaveJob marshal flt dflt location d job).2.dirs) ∧
    ((SaveJob marshal flt dflt location d job).1 = none →
      (∃ serialized, marshal job = Except.ok serialized ∧
        FS.read (SaveJob marshal flt dflt location d job).2.files
          (pathJoinClean [pathJoinClean [location, Manager.jobsDir, job.id], Manager.jobSaveFile])
          = some serialized) ∧
      pathJoinClean [pathJoinClean [location, Manager.jobsDir, job.id], Manager.tasksDir]
        ∈ (SaveJob marshal flt dflt location d job).2.dirs ∧
      pathJoinClean [pathJoinClean [location, Manager.jobsDir, job.id], Manager.pendingMapDir]
        ∈ (SaveJob marshal flt dflt location d job).2.dirs ∧
      pathJoinClean [pathJoinClean [location, Manager.jobsDir, job.id], Manager.pendingReduceDir]
        ∈ (SaveJob marshal flt dflt location d job).2.dirs ∧
      (∀ x ∈ d.dirs, x ∈ (SaveJob marshal flt dflt location d job).2.dirs) ∧
      (∀ q, q ≠ pathJoinClean [pathJoinClean [location, Manager.jobsDir, job.id],
          Manager.jobSaveFile] →
        FS.read (SaveJob marshal flt dflt location d job).2.files q = FS.read d.files q)) := by
  constructor
  · intro h hOk q hq
    obtain ⟨d1, hd1⟩ := SaveJob_error_removes marshal flt dflt location d job h
    rw [hd1]
    exact osRemoveAll_clears dflt d1 _ q hOk hq
  · intro h
    unfold SaveJob at h ⊢
    cases h1 : prepareJobDirectory dflt d (pathJoinClean [location, Manager.jobsDir, job.id]) with
    | mk r1 d1 =>
      cases r1 with
      | some e => simp [h1] at h
      | none =>
        have k := prepareJobDirectory_ok dflt d (pathJoinClean [location, Manager.jobsDir, job.id])
          (by rw [h1])
        rw [h1] at k
        simp only at k
        simp only [h1] at h ⊢
        cases hm : marshal job with
        | error e => simp [hm] at h
        | ok s =>
          simp only [hm] at h ⊢
          have hwrite : ∀ r files1, ioutilWriteFile flt d1.files
              (pathJoinClean [pathJoinClean [location, Manager.jobsDir, job.id],
                  Manager.jobSaveFile]) s
              = (r, files1) → r = none →
              files1 = FS.write d1.files
                (pathJoinClean [pathJoinClean [location, Manager.jobsDir, job.id],
                    Manager.jobSaveFile]) s ∧
              pathJoinClean [pathJoinClean [location, Manager.jobsDir, job.id], Manager.jobSaveFile]
                ≠ "" := by
            intro r files1 heq hr
            unfold ioutilWriteFile at heq
            by_cases hp : pathJoinClean [pathJoinClean [location, Manager.jobsDir, job.id],
                Manager.jobSaveFile] = ""
            · simp [hp] at heq
              rw [← heq.1] at hr
              cases hr
            · simp only [hp, if_false] at heq
              cases hwf : flt.writeFile
                  (pathJoinClean [pathJoinClean [location, Manager.jobsDir, job.id],
                  Manager.jobSaveFile]) with
              | done =>
                simp only [hwf] at heq
                exact ⟨(Prod.mk.inj heq).2.symm, hp⟩
              | refused =>
                simp only [hwf] at heq
                rw [← (Prod.mk.inj heq).1] at hr
                cases hr
              | torn kept =>
                simp only [hwf] at heq
                rw [← (Prod.mk.inj heq).1] at hr
                cases hr
          cases hw : ioutilWriteFile flt d1.files
              (pathJoinClean [pathJoinClean [location, Manager.jobsDir, job.id],
                  Manager.jobSaveFile]) s with
          | mk r2 files1 =>
            cases r2 with
            | some e => simp [hw] at h
            | none =>
              obtain ⟨hf, hne⟩ := hwrite none files1 hw rfl
              simp only
              refine ⟨⟨s, rfl, ?_⟩, k.2.1, k.2.2.1, k.2.2.2.1, k.2.2.2.2, ?_⟩
              · rw [hf]
                exact FS.read_write_same _ _ _ hne
              · intro q hq
                rw [hf, FS.read_write_other _ _ _ _ hq, k.1]

/-- Witness of claim C21, amended.  On a store that refuses every write but
removes directories, `SaveJob` of the example job fails and nothing is left
below `/s/jobs/j`, the task file that was there included; on a store without
faults it returns nil and that task file reads as before. -/
theorem SaveJob_removes_or_saves_witness :
    ((SaveJob exampleMarshalJob readOnlyFaults noDirFaults "/s"
        ⟨[("/s/jobs/j/tasks/t", "x")], ["/s/jobs/j/tasks"]⟩ exampleJob).1 ≠ none ∧
      noDirFaults.removeAll (pathJoinClean ["/s", Manager.jobsDir, exampleJob.id]) = false ∧
      ∀ q, isUnder (pathJoinClean ["/s", Manager.jobsDir, exampleJob.id]) q = true →
        FS.read (SaveJob exampleMarshalJob readOnlyFaults noDirFaults "/s"
          ⟨[("/s/jobs/j/tasks/t", "x")], ["/s/jobs/j/tasks"]⟩ exampleJob).2.files q = none ∧
        q ∉ (SaveJob exampleMarshalJob readOnlyFaults noDirFaults "/s"
          ⟨[("/s/jobs/j/tasks/t", "x")], ["/s/jobs/j/tasks"]⟩ exampleJob).2.dirs) ∧
    ((SaveJob exampleMarshalJob noFaults noDirFaults "/s"
        ⟨[("/s/jobs/j/tasks/t", "x")], ["/s/jobs/j/tasks"]⟩ exampleJob).1 = none ∧
      FS.read (SaveJob exampleMarshalJob noFaults noDirFaults "/s"
        ⟨[("/s/jobs/j/tasks/t", "x")], ["/s/jobs/j/tasks"]⟩ exampleJob).2.files
          "/s/jobs/j/tasks/t"
        = FS.read (Disk.mk [("/s/jobs/j/tasks/t", "x")] ["/s/jobs/j/tasks"]).files
          "/s/jobs/j/tasks/t") :=
  ⟨⟨by decide, by decide,
      (SaveJob_removes_or_saves exampleMarshalJob readOnlyFaults noDirFaults "/s"
        ⟨[("/s/jobs/j/tasks/t", "x")], ["/s/jobs/j/tasks"]⟩ exampleJob).1
        (by decide) (by decide)⟩,
    ⟨by decide,
      ((SaveJob_removes_or_saves exampleMarshalJob noFaults noDirFaults "/s"
        ⟨[("/s/jobs/j/tasks/t", "x")], ["/s/jobs/j/tasks"]⟩ exampleJob).2
        (by decide)).2.2.2.2.2 "/s/jobs/j/tasks/t" (by decide)⟩⟩

/-- Claim C22 as stated fails.  `loadJob` never looks at `output_files`: a
descriptor that names no output file, with the other three fields in order,
is accepted. -/
theorem loadJob_accepts_job_without_output_files :
    noOutputJob.outputFiles = [] ∧
    loadJob (fun _ => Except.ok "text") (fun p => p) (fun _ => Except.ok noOutputJob) "job.pb"
      = Except.ok noOutputJob := by
  exact ⟨rfl, rfl⟩

/-- Claim C22, amended.  For a descriptor file that is read and parsed,
`loadJob` accepts the job exactly when `input_directory` is non-empty,
`payload_path` is non-empty and `input_kind` is not undefined; a descriptor
violating one of these three requirements is rejected with the error of the
first requirement it violates, each with its own message.  The number of
output files plays no part. -/
theorem loadJob_accepts_iff (readFile : String → Except GoError String)
    (clean : String → String) (unmarshalText : String → Except GoError Job)
    (jobPath data : String) (job : Job)
    (hPath : jobPath ≠ "")
    (hRead : readFile (clean jobPath) = Except.ok data)
    (hParse : unmarshalText data = Except.ok job) :
    (loadJob readFile clean unmarshalText jobPath = Except.ok job ↔
      job.inputDirectory ≠ "" ∧ job.payloadPath ≠ "" ∧
        job.inputKind ≠ InputDataKind.UNDEFINED) ∧
    (job.inputDirectory = "" →
      loadJob readFile clean unmarshalText jobPath = Except.error ⟨errEmptyInputDir, false⟩) ∧
    (job.inputDirectory ≠ "" → job.payloadPath = "" →
      loadJob readFile clean unmarshalText jobPath = Except.error ⟨errEmptyPayload, false⟩) ∧
    (job.inputDirectory ≠ "" → job.payloadPath ≠ "" →
      job.inputKind = InputDataKind.UNDEFINED →
      loadJob readFile clean unmarshalText jobPath
        = Except.error ⟨errInvalidSepator, false⟩) := by
  by_cases h1 : job.inputDirectory = ""
  · simp [loadJob, hPath, hRead, hParse, h1]
  · by_cases h2 : job.payloadPath = ""
    · simp [loadJob, hPath, hRead, hParse, h1, h2]
    · by_cases h3 : job.inputKind = InputDataKind.UNDEFINED
      · simp [loadJob, hPath, hRead, hParse, h1, h2, h3]
      · simp [loadJob, hPath, hRead, hParse, h1, h2, h3]

/-- Witness of claim C22, amended: the example job is accepted, and the same
job with its input kind left undefined is rejected with the message of the
input kind. -/
theorem loadJob_accepts_iff_witness :
    ("job.pb" ≠ "") ∧
    loadJob (fun _ => Except.ok "text") (fun p => p) (fun _ => Except.ok exampleJob) "job.pb"
      = Except.ok exampleJob ∧
    loadJob (fun _ => Except.ok "text") (fun p => p) (fun _ => Except.ok undefinedKindJob)
        "job.pb"
      = Except.error ⟨errInvalidSepator, false⟩ :=
  ⟨by decide,
    (loadJob_accepts_iff (fun _ => Except.ok "text") (fun p => p)
      (fun _ => Except.ok exampleJob) "job.pb" "text" exampleJob (by decide) rfl rfl).1.mpr
      ⟨by decide, by decide, by decide⟩,
    (loadJob_accepts_iff (fun _ => Except.ok "text") (fun p => p)
      (fun _ => Except.ok undefinedKindJob) "job.pb" "text" undefinedKindJob
      (by decide) rfl rfl).2.2.2 (by decide) (by decide) rfl⟩

/-- Claim C23 as stated fails.  When the input directory has no entries, and
when no directory can be made so that no plan is built, `IntermediateFiles`
gives the empty map and both reduce tasks of the example job have the empty
string as `input_chunk.path`, with one output file each. -/
theorem Reduce_paths_empty_without_plan :
    (IntermediateFiles emptyDirEnv exampleUuid exampleJob = [] ∧
      (Reduce exampleUuid (fun _ => 7) exampleJob
        (IntermediateFiles emptyDirEnv exampleUuid exampleJob)).map
          (fun t => (t.inputChunk, t.outputFiles))
        = [(some ⟨"", 0, 0⟩, ["/out/p0"]), (some ⟨"", 0, 0⟩, ["/out/p1"])]) ∧
    (IntermediateFiles noMkdirEnv exampleUuid exampleJob = [] ∧
      (Reduce exampleUuid (fun _ => 7) exampleJob
        (IntermediateFiles noMkdirEnv exampleUuid exampleJob)).map
          (fun t => (t.inputChunk, t.outputFiles))
        = [(some ⟨"", 0, 0⟩, ["/out/p0"]), (some ⟨"", 0, 0⟩, ["/out/p1"])]) := by
  decide

/-- Claim C23, amended.  For every job and the plan returned by
`IntermediateFiles` for it, `Reduce` emits one task per output file, and the
task at position `p` has exactly the one output file `output_files[p]`.  When
the directories can be made and the input directory is listed, the
`input_chunk.path` of the task at position `p` is the comma-separated list of
the planned paths of partition `p`, one per directory entry: it is non-empty
when the directory has an entry and empty when it has none.  When the job
directory, the listing or a partition directory fails, so that no plan is
built, the path of every reduce task is empty. -/
theorem Reduce_tasks_one_output_and_planned_paths (env : SplitEnv) (uuidPlan uuid : Nat → String)
    (now : Nat → Int) (job : Job) :
    (Reduce uuid now job (IntermediateFiles env uuidPlan job)).length
      = job.outputFiles.length ∧
    (∀ (p : Nat) (t : Task),
      (Reduce uuid now job (IntermediateFiles env uuidPlan job))[p]? = some t →
      ∃ output, job.outputFiles[p]? = some output ∧ t.outputFiles = [output]) ∧
    (∀ entries : List String,
      env.mkdirAll (pathJoin [env.intermediateDataLocation, job.id]) = none →
      env.readDir job.inputDirectory = Except.ok entries →
      (∀ p, p < job.outputFiles.length →
        env.mkdirAll (pathJoin [pathJoin [env.intermediateDataLocation, job.id], toString p])
          = none) →
      ∀ p, p < job.outputFiles.length →
        ∃ t, (Reduce uuid now job (IntermediateFiles env uuidPlan job))[p]? = some t ∧
          t.inputChunk =
            some ⟨stringsJoin (plannedRow env uuidPlan job entries.length p) ",", 0, 0⟩ ∧
          (plannedRow env uuidPlan job entries.length p).length = entries.length ∧
          (entries ≠ [] → stringsJoin (plannedRow env uuidPlan job entries.length p) "," ≠ "") ∧
          (entries = [] → stringsJoin (plannedRow env uuidPlan job entries.length p) "," = "")) ∧
    ((env.mkdirAll (pathJoin [env.intermediateDataLocation, job.id]) ≠ none ∨
      (∃ e, env.readDir job.inputDirectory = Except.error e) ∨
      ∃ p, p < job.outputFiles.length ∧
        env.mkdirAll (pathJoin [pathJoin [env.intermediateDataLocation, job.id], toString p])
          ≠ none) →
      ∀ t ∈ Reduce uuid now job (IntermediateFiles env uuidPlan job),
        t.inputChunk = some ⟨"", 0, 0⟩) := by
  have hget : ∀ p, p < job.outputFiles.length →
      ∃ t, (Reduce uuid now job (IntermediateFiles env uuidPlan job))[p]? = some t := by
    intro p hp
    have hl : p < (Reduce uuid now job (IntermediateFiles env uuidPlan job)).length := by
      unfold Reduce
      rw [reduceTasks_length]
      exact hp
    exact ⟨_, List.getElem?_eq_getElem hl⟩
  refine ⟨?_, ?_, ?_, ?_⟩
  · unfold Reduce
    exact reduceTasks_length _ _ _ _ _ _
  · intro p t hp
    unfold Reduce at hp
    rw [reduceTasks_getElem_opt] at hp
    cases ho : job.outputFiles[p]? with
    | none => simp [ho] at hp
    | some o =>
      simp only [ho, Option.map_some', Option.some.injEq] at hp
      subst hp
      exact ⟨o, rfl, rfl⟩
  · intro entries hJobDir hList hDirs p hlt
    obtain ⟨t, hp⟩ := hget p hlt
    obtain ⟨_, _, hchunk⟩ := Reduce_getElem _ _ _ _ _ _ hp
    rw [(IntermediateFiles_ok env uuidPlan job entries hJobDir hList hDirs).1 p hlt] at hchunk
    refine ⟨t, hp, hchunk, plannedRow_length _ _ _ _ _, ?_, ?_⟩
    · intro hne
      apply plannedRow_join_ne_empty
      cases entries with
      | nil => exact absurd rfl hne
      | cons a l => simp
    · intro he
      subst he
      rfl
  · intro hfail t ht
    rw [IntermediateFiles_fail env uuidPlan job hfail] at ht
    obtain ⟨p, hp⟩ := List.mem_iff_getElem?.mp ht
    exact (Reduce_getElem _ _ _ _ _ _ hp).2.2

/-- Witness of claim C23, amended: over the two-file input directory the
reduce task of each partition reads the joined row of that partition, and
where no directory can be made every reduce task has the empty path. -/
theorem Reduce_tasks_one_output_and_planned_paths_witness :
    (exampleSplitEnv.mkdirAll (pathJoin [exampleSplitEnv.intermediateDataLocation, exampleJob.id])
      = none ∧
     exampleSplitEnv.readDir exampleJob.inputDirectory = Except.ok ["a.txt", "b.txt"]) ∧
    (∀ p, p < exampleJob.outputFiles.length →
      ∃ t, (Reduce exampleUuid (fun _ => 7) exampleJob
          (IntermediateFiles exampleSplitEnv exampleUuid exampleJob))[p]? = some t ∧
        t.inputChunk =
          some ⟨stringsJoin (plannedRow exampleSplitEnv exampleUuid exampleJob
            ["a.txt", "b.txt"].length p) ",", 0, 0⟩ ∧
        (plannedRow exampleSplitEnv exampleUuid exampleJob ["a.txt", "b.txt"].length p).length
          = ["a.txt", "b.txt"].length ∧
        ((["a.txt", "b.txt"] : List String) ≠ [] →
          stringsJoin (plannedRow exampleSplitEnv exampleUuid exampleJob
            ["a.txt", "b.txt"].length p) "," ≠ "") ∧
        ((["a.txt", "b.txt"] : List String) = [] →
          stringsJoin (plannedRow exampleSplitEnv exampleUuid exampleJob
            ["a.txt", "b.txt"].length p) "," = "")) ∧
    ((Reduce exampleUuid (fun _ => 7) exampleJob
        (IntermediateFiles exampleSplitEnv exampleUuid exampleJob)).map
          (fun t => (t.inputChunk, t.outputFiles))
      = [(some ⟨"/i/j/0/id0,/i/j/0/id1", 0, 0⟩, ["/out/p0"]),
         (some ⟨"/i/j/1/id2,/i/j/1/id3", 0, 0⟩, ["/out/p1"])]) ∧
    (noMkdirEnv.mkdirAll (pathJoin [noMkdirEnv.intermediateDataLocation, exampleJob.id])
        ≠ none ∧
      ∀ t ∈ Reduce exampleUuid (fun _ => 7) exampleJob
          (IntermediateFiles noMkdirEnv exampleUuid exampleJob),
        t.inputChunk = some ⟨"", 0, 0⟩) :=
  ⟨⟨rfl, rfl⟩,
    (Reduce_tasks_one_output_and_planned_paths exampleSplitEnv exampleUuid exampleUuid
      (fun _ => 7) exampleJob).2.2.1 ["a.txt", "b.txt"] rfl rfl (fun _ _ => rfl),
    by decide,
    by decide,
    (Reduce_tasks_one_output_and_planned_paths noMkdirEnv exampleUuid exampleUuid
      (fun _ => 7) exampleJob).2.2.2 (Or.inl (by decide))⟩

/-- Claim C24, the code at a failing input.  For the 13-byte file
`how much wood` and the chunk from byte 4 to byte 20, `mapReader` returns a
value of 16 bytes: the nine bytes `much wood` of the file followed by seven
zero bytes that are not in the file.  The buffer has length
`end_byte - start_byte`, `ReadAt` fills only what the file holds and the
number of bytes read is thrown away. -/
theorem mapReader_pads_short_read :
    FS.read exampleWorld "/in/a.txt" = some "how much wood" ∧
    mapReader (fun key value => Except.ok (key ++ "=" ++ value)) noFaults exampleWorld
        (some ⟨"/in/a.txt", 4, 20⟩) =
      Res.ok ("/in/a.txt=much wood" ++ String.mk (List.replicate 7 (Char.ofNat 0))) := by
  decide

/-- Claim C25.  For a file `f` whose size `s` is reported by `os.Stat` and the
chunk-size threshold `T`, `splitTextFile(f)` returns exactly the one chunk
with path `f`, start byte 0 and end byte `s` when `s < T`, and the empty chunk
list when `s >= T`. -/
theorem splitTextFile_whole_file_or_nothing (env : SplitEnv) (f : String) (s : Nat)
    (hStat : env.statSize f = some (s : Int)) (hSize : s < 2 ^ 63) :
    ((s : Int) < env.inputChunkSize → splitTextFile env f = Res.ok [⟨f, 0, s⟩]) ∧
    (env.inputChunkSize ≤ (s : Int) → splitTextFile env f = Res.ok []) := by
  have hu : toUint64 (s : Int) = s := by
    unfold toUint64
    have : ((s : Int) % (2 ^ 64 : Int)) = (s : Int) := by
      apply Int.emod_eq_of_lt <;> omega
    rw [this]
    simp
  constructor
  · intro h
    simp [splitTextFile, hStat, h, hu]
  · intro h
    have h2 : ¬ (s : Int) < env.inputChunkSize := by omega
    simp [splitTextFile, hStat, h2]

/-- Witness of claim C25: the 40-byte file under the threshold of 1000 yields
the single chunk from 0 to 40, and under a threshold of 40 it yields no
chunk. -/
theorem splitTextFile_whole_file_or_nothing_witness :
    exampleSplitEnv.statSize "/in/a.txt" = some ((40 : Nat) : Int) ∧
    splitTextFile exampleSplitEnv "/in/a.txt" = Res.ok [⟨"/in/a.txt", 0, 40⟩] ∧
    splitTextFile { exampleSplitEnv with inputChunkSize := 40 } "/in/a.txt" = Res.ok [] :=
  ⟨rfl,
    (splitTextFile_whole_file_or_nothing exampleSplitEnv "/in/a.txt" 40 rfl (by norm_num)).1
      (by decide),
    (splitTextFile_whole_file_or_nothing { exampleSplitEnv with inputChunkSize := 40 }
      "/in/a.txt" 40 rfl (by norm_num)).2 (by decide)⟩

/-- Claim C26.  When the job directory and every partition directory can be
made and the input directory is listed, `IntermediateFiles(job)` returns a
plan in which, for every partition `p` below the number of output files, the
row of `p` has exactly one path per directory entry, the path for entry `j`
being `<intermediate_root>/<job_id>/<p>/<uuid>`; and when the UUIDs drawn are
pairwise distinct, two positions of the plan hold the same path only if they
are the same position.  When the job directory, the listing or a partition
directory fails, it returns the nil map and no partial plan. -/
theorem IntermediateFiles_full_plan_or_none (env : SplitEnv) (uuid : Nat → String) (job : Job) :
    (∀ entries : List String,
      env.mkdirAll (pathJoin [env.intermediateDataLocation, job.id]) = none →
      env.readDir job.inputDirectory = Except.ok entries →
      (∀ p, p < job.outputFiles.length →
        env.mkdirAll (pathJoin [pathJoin [env.intermediateDataLocation, job.id], toString p])
          = none) →
      (∀ p, p < job.outputFiles.length →
        (mapGetSlice (IntermediateFiles env uuid job) (p : Int)).length = entries.length ∧
        ∀ j, j < entries.length →
          (mapGetSlice (IntermediateFiles env uuid job) (p : Int))[j]? =
            some (pathJoin [env.intermediateDataLocation, job.id, toString p,
              uuid (p * entries.length + j)])) ∧
      ((∀ a, a < job.outputFiles.length * entries.length →
          ∀ b, b < job.outputFiles.length * entries.length → uuid a = uuid b → a = b) →
        ∀ p j p2 j2, p < job.outputFiles.length → j < entries.length →
          p2 < job.outputFiles.length → j2 < entries.length →
          (mapGetSlice (IntermediateFiles env uuid job) (p : Int))[j]? =
            (mapGetSlice (IntermediateFiles env uuid job) (p2 : Int))[j2]? →
          p = p2 ∧ j = j2)) ∧
    ((env.mkdirAll (pathJoin [env.intermediateDataLocation, job.id]) ≠ none ∨
      (∃ e, env.readDir job.inputDirectory = Except.error e) ∨
      ∃ p, p < job.outputFiles.length ∧
        env.mkdirAll (pathJoin [pathJoin [env.intermediateDataLocation, job.id], toString p])
          ≠ none) →
      IntermediateFiles env uuid job = []) := by
  refine ⟨?_, IntermediateFiles_fail env uuid job⟩
  intro entries hJobDir hList hDirs
  have hrows := (IntermediateFiles_ok env uuid job entries hJobDir hList hDirs).1
  constructor
  · intro p hp
    rw [hrows p hp]
    refine ⟨plannedRow_length _ _ _ _ _, fun j hj => ?_⟩
    rw [plannedRow_getElem _ _ _ _ _ _ hj, plannedPath_form]
  · intro hUuid p j p2 j2 hp hj hp2 hj2 h
    rw [hrows p hp, hrows p2 hp2, plannedRow_getElem _ _ _ _ _ _ hj,
      plannedRow_getElem _ _ _ _ _ _ hj2] at h
    have hb : ∀ q i, q < job.outputFiles.length → i < entries.length →
        q * entries.length + i < job.outputFiles.length * entries.length := by
      intro q i hq hi
      calc q * entries.length + i < q * entries.length + entries.length := by omega
        _ = (q + 1) * entries.length := by ring
        _ ≤ job.outputFiles.length * entries.length := Nat.mul_le_mul_right _ hq
    exact plannedPath_injective env uuid job entries.length p j p2 j2 hj hj2
      (hUuid _ (hb p j hp hj) _ (hb p2 j2 hp2 hj2)) (Option.some.inj h)

/-- Witness of claim C26: for the example job over the two-file directory the
plan has two rows of two paths, pairwise distinct, and where no directory can
be made the plan is the nil map. -/
theorem IntermediateFiles_full_plan_or_none_witness :
    ((∀ p, p < exampleJob.outputFiles.length →
        (mapGetSlice (IntermediateFiles exampleSplitEnv exampleUuid exampleJob) (p : Int)).length
          = ["a.txt", "b.txt"].length ∧
        ∀ j, j < ["a.txt", "b.txt"].length →
          (mapGetSlice (IntermediateFiles exampleSplitEnv exampleUuid exampleJob) (p : Int))[j]? =
            some (pathJoin [exampleSplitEnv.intermediateDataLocation, exampleJob.id, toString p,
              exampleUuid (p * ["a.txt", "b.txt"].length + j)])) ∧
      (∀ p j p2 j2, p < exampleJob.outputFiles.length → j < ["a.txt", "b.txt"].length →
          p2 < exampleJob.outputFiles.length → j2 < ["a.txt", "b.txt"].length →
          (mapGetSlice (IntermediateFiles exampleSplitEnv exampleUuid exampleJob) (p : Int))[j]? =
            (mapGetSlice (IntermediateFiles exampleSplitEnv exampleUuid exampleJob)
              (p2 : Int))[j2]? →
          p = p2 ∧ j = j2)) ∧
    IntermediateFiles exampleSplitEnv exampleUuid exampleJob =
      [(0, ["/i/j/0/id0", "/i/j/0/id1"]), (1, ["/i/j/1/id2", "/i/j/1/id3"])] ∧
    noMkdirEnv.mkdirAll (pathJoin [noMkdirEnv.intermediateDataLocation, exampleJob.id]) ≠ none ∧
    IntermediateFiles noMkdirEnv exampleUuid exampleJob = [] :=
  ⟨⟨((IntermediateFiles_full_plan_or_none exampleSplitEnv exampleUuid exampleJob).1
      ["a.txt", "b.txt"] rfl rfl (fun _ _ => rfl)).1,
    ((IntermediateFiles_full_plan_or_none exampleSplitEnv exampleUuid exampleJob).1
      ["a.txt", "b.txt"] rfl rfl (fun _ _ => rfl)).2 (by decide)⟩,
    by decide, by decide,
    (IntermediateFiles_full_plan_or_none noMkdirEnv exampleUuid exampleJob).2
      (Or.inl (by decide))⟩

/-- Claim C27.  Worker broker `Done(task)` and `Failed(task)` return
`ErrUnknownTag` if and only if no delivery handle is stored under `task.id`.
When a handle is stored, `Done` makes the one call `Ack(false)` on it and
`Failed` the one call `Nack(false, true)`, so with requeue set; each returns
`ErrAckFailure` when that call fails and nil otherwise.  Neither function
assigns to the connection: both return the error and the calls made, and the
stored handles are those of the connection they were given. -/
theorem Done_and_Failed_results (ack nack : Nat → Option GoError) (c : AMQPConnection)
    (task : Task) :
    ((Done ack c task).1 = some ErrUnknownTag ↔ mapGet c.tags task.id = none) ∧
    ((Failed nack c task).1 = some ErrUnknownTag ↔ mapGet c.tags task.id = none) ∧
    (∀ addr d, mapGet c.tags task.id = some addr → mapGet c.heap addr = some d →
      Done ack c task =
        (if (ack d.deliveryTag).isSome then some ErrAckFailure else none,
          [AckCall.ack d.deliveryTag false]) ∧
      Failed nack c task =
        (if (nack d.deliveryTag).isSome then some ErrAckFailure else none,
          [AckCall.nack d.deliveryTag false true])) := by
  have hne : ErrAckFailure ≠ ErrUnknownTag := by decide
  refine ⟨?_, ?_, ?_⟩
  · unfold Done
    cases h1 : mapGet c.tags task.id with
    | none => simp
    | some addr =>
      cases h2 : mapGet c.heap addr with
      | none => simp [h2, hne]
      | some d => cases h3 : ack d.deliveryTag <;> simp [h2, h3, hne]
  · unfold Failed
    cases h1 : mapGet c.tags task.id with
    | none => simp
    | some addr =>
      cases h2 : mapGet c.heap addr with
      | none => simp [h2, hne]
      | some d => cases h3 : nack d.deliveryTag <;> simp [h2, h3, hne]
  · intro addr d h1 h2
    constructor
    · unfold Done
      cases h3 : ack d.deliveryTag <;> simp [h1, h2, h3]
    · unfold Failed
      cases h3 : nack d.deliveryTag <;> simp [h1, h2, h3]

/-- Witness of claim C27: on the connection that has listened to two
deliveries, `Done` of task `t2` with a working transport acknowledges tag 2
and returns nil, and `Failed` with a broken transport sends the negative
acknowledgement with requeue and returns `ErrAckFailure`. -/
theorem Done_and_Failed_results_witness :
    mapGet listenedConnection.tags (deliveredTask "t2").id = some 0 ∧
    mapGet listenedConnection.heap 0 = some ⟨2, "t2"⟩ ∧
    (Done (fun _ => none) listenedConnection (deliveredTask "t2") =
        (if ((fun _ => none : Nat → Option GoError) (Delivery.mk 2 "t2").deliveryTag).isSome
          then some ErrAckFailure else none,
          [AckCall.ack (Delivery.mk 2 "t2").deliveryTag false]) ∧
      Failed (fun _ => some ⟨"channel closed", false⟩) listenedConnection (deliveredTask "t2") =
        (if ((fun _ => some ⟨"channel closed", false⟩ : Nat → Option GoError)
            (Delivery.mk 2 "t2").deliveryTag).isSome
          then some ErrAckFailure else none,
          [AckCall.nack (Delivery.mk 2 "t2").deliveryTag false true])) :=
  ⟨by decide, by decide,
    (Done_and_Failed_results (fun _ => none) (fun _ => some ⟨"channel closed", false⟩)
      listenedConnection (deliveredTask "t2")).2.2 0 ⟨2, "t2"⟩ (by decide) (by decide)⟩

/-- Claim C28.  In `textMap`, for the plan that `IntermediateFiles` produced
for the same job over the same listing of the input directory, and a `range`
that visits only keys of the plan: each directory entry yields at most one
chunk, so there are no more chunks than entries; every row of the plan under
a key is at least as long as the chunk list, so the lookup `plan[p][i]` is in
range for every chunk index `i` and every key `p`; `textMap` therefore returns
one task per chunk without an index panic; and with a nil or empty plan the
inner loop visits no key, so no lookup happens. -/
theorem textMap_plan_lookups_in_range (env : SplitEnv) (uuidPlan uuid : Nat → String)
    (now : Nat → Int) (order : Nat → List Int → List Int) (job : Job)
    (entries : List String) (chunks : List InputChunk)
    (hOrder : ∀ i keys, ∀ p ∈ order i keys, p ∈ keys)
    (hList : env.readDir job.inputDirectory = Except.ok entries)
    (hChunks : textMapChunks env job.inputDirectory entries = Res.ok chunks) :
    (∀ f cs, splitTextFile env f = Res.ok cs → cs.length ≤ 1) ∧
    chunks.length ≤ entries.length ∧
    (∀ p ∈ mapKeys (IntermediateFiles env uuidPlan job),
      chunks.length ≤ (mapGetSlice (IntermediateFiles env uuidPlan job) p).length ∧
      ∀ i, i < chunks.length →
        ((mapGetSlice (IntermediateFiles env uuidPlan job) p)[i]?).isSome = true) ∧
    (∃ tasks, textMap env uuid now order job (IntermediateFiles env uuidPlan job)
        = Res.ok tasks ∧ tasks.length = chunks.length) ∧
    (IntermediateFiles env uuidPlan job = [] →
      ∀ i, order i (mapKeys (IntermediateFiles env uuidPlan job)) = []) := by
  have hlen := textMapChunks_length env _ entries chunks hChunks
  have hrow : ∀ p ∈ mapKeys (IntermediateFiles env uuidPlan job),
      chunks.length ≤ (mapGetSlice (IntermediateFiles env uuidPlan job) p).length ∧
      ∀ i, i < chunks.length →
        ((mapGetSlice (IntermediateFiles env uuidPlan job) p)[i]?).isSome = true := by
    intro p hp
    have hl := IntermediateFiles_row_length env uuidPlan job entries hList p hp
    refine ⟨by omega, fun i hi => ?_⟩
    rw [List.getElem?_eq_getElem (by omega)]
    rfl
  refine ⟨splitTextFile_length env, hlen, hrow, ?_, ?_⟩
  · obtain ⟨tasks, ht, hl⟩ := textMapTasks_ok uuid now order job
      (IntermediateFiles env uuidPlan job) chunks 0
      (fun i _ hi p hp => (hrow p (hOrder _ _ p hp)).2 i (by omega))
    refine ⟨tasks, ?_, hl⟩
    simp only [textMap, hList, hChunks]
    exact ht
  · intro hplan i
    rw [hplan]
    cases ho : order i (mapKeys ([] : GoMap Int (List String))) with
    | nil => rfl
    | cons p ps =>
      have := hOrder i (mapKeys ([] : GoMap Int (List String))) p
        (by rw [ho]; exact List.mem_cons_self _ _)
      cases this

/-- Witness of claim C28: for the example job over the two 40-byte files there
are two chunks, and `textMap` on the plan of `IntermediateFiles` returns two
tasks. -/
theorem textMap_plan_lookups_in_range_witness :
    exampleSplitEnv.readDir exampleJob.inputDirectory = Except.ok ["a.txt", "b.txt"] ∧
    textMapChunks exampleSplitEnv exampleJob.inputDirectory ["a.txt", "b.txt"]
      = Res.ok [⟨"/in/a.txt", 0, 40⟩, ⟨"/in/b.txt", 0, 40⟩] ∧
    ∃ tasks, textMap exampleSplitEnv exampleUuid (fun _ => 7) (fun _ keys => keys) exampleJob
        (IntermediateFiles exampleSplitEnv exampleUuid exampleJob) = Res.ok tasks ∧
      tasks.length = [InputChunk.mk "/in/a.txt" 0 40, InputChunk.mk "/in/b.txt" 0 40].length :=
  ⟨rfl, by decide,
    (textMap_plan_lookups_in_range exampleSplitEnv exampleUuid exampleUuid (fun _ => 7)
      (fun _ keys => keys) exampleJob ["a.txt", "b.txt"]
      [⟨"/in/a.txt", 0, 40⟩, ⟨"/in/b.txt", 0, 40⟩] (fun _ _ _ h => h) rfl
      (by decide)).2.2.2.1⟩

/-- Claim C29 as stated fails in two ways.  First, for payload output that is
the JSON text `null` the decoder leaves the pointer nil: there is no partition
key at all, and `saveMapResults` ends in a nil-pointer panic, which is neither
a parse error nor a write error.  Second, when `output_files` names the same
path at index 0 and index 1 and the only partition key is `0`, index 1 does
not occur among the keys, yet the file `output_files[1]` is created. -/
theorem saveMapResults_null_and_shared_path :
    (saveMapResults nullOutput (fun d => Except.ok (examplePairs d)) (fun keys => keys)
        noFaults [] "null" ["/i/0"]
      = (Res.panic "invalid memory address or nil pointer dereference", [])) ∧
    ((∀ k ∈ mapKeys singleOutput.partitions, (partitionFile ["/i/0", "/i/0"] k).isSome) ∧
      (∀ k ∈ mapKeys singleOutput.partitions, atoi k ≠ some 1) ∧
      (["/i/0", "/i/0"] : List String)[1]? = some "/i/0" ∧
      FS.read [] "/i/0" = none ∧
      FS.read (saveMapResults (fun _ => Except.ok (some singleOutput))
          (fun d => Except.ok (examplePairs d)) (fun keys => keys) noFaults [] "out"
          ["/i/0", "/i/0"]).2 "/i/0" = some "[k=1]") := by
  decide

/-- Claim C29, amended.  When the decoder does not leave the pointer nil, the
`range` visits only keys of the partition map and every partition key
converts to an index within `output_files`, `saveMapResults` never indexes
out of range: it returns nil, or the wrapped parse error with the files
untouched, or the wrapped error of a file write.  Every path that no
partition key selects, the paths of `output_files` among them, reads after
the call as it did before: it is neither created nor modified. -/
theorem saveMapResults_in_range_failures {V : Type}
    (unmarshal : String → Except GoError (Option (MapOutputFormat V)))
    (enc : List (KV V) → String) (order : List String → List String) (flt : Faults)
    (fs : FS) (inp : String) (output : List String)
    (hNotNil : unmarshal inp ≠ Except.ok none)
    (hOrder : ∀ keys, ∀ k ∈ order keys, k ∈ keys)
    (hRange : ∀ data, unmarshal inp = Except.ok (some data) →
      ∀ k ∈ mapKeys data.partitions, (partitionFile output k).isSome = true) :
    ((saveMapResults unmarshal (fun d => Except.ok (enc d)) order flt fs inp output).1
        = Res.ok () ∨
      (∃ e, unmarshal inp = Except.error e ∧
        saveMapResults unmarshal (fun d => Except.ok (enc d)) order flt fs inp output
          = (Res.err (wrapError e "unable to parse JSON"), fs)) ∨
      ∃ e, (saveMapResults unmarshal (fun d => Except.ok (enc d)) order flt fs inp output).1
        = Res.err (wrapError e "unable to write the file")) ∧
    ∀ q, (∀ data, unmarshal inp = Except.ok (some data) →
        ∀ k ∈ mapKeys data.partitions, partitionFile output k ≠ some q) →
      FS.read (saveMapResults unmarshal (fun d => Except.ok (enc d)) order flt fs inp output).2 q
        = FS.read fs q := by
  cases hu : unmarshal inp with
  | error e =>
    have hrun : saveMapResults unmarshal (fun d => Except.ok (enc d)) order flt fs inp output
        = (Res.err (wrapError e "unable to parse JSON"), fs) := by
      simp only [saveMapResults, hu]
    rw [hrun]
    exact ⟨Or.inr (Or.inl ⟨e, rfl, rfl⟩), fun _ _ => rfl⟩
  | ok parsed =>
    cases parsed with
    | none => exact absurd hu hNotNil
    | some data =>
      have hrun : saveMapResults unmarshal (fun d => Except.ok (enc d)) order flt fs inp output
          = saveMapLoop (fun d => Except.ok (enc d)) flt output
              ((order (mapKeys data.partitions)).map
                (fun partitionName =>
                  (partitionName, mapGetSlice data.partitions partitionName))) fs := by
        simp only [saveMapResults, hu]
      rw [hrun]
      have hmem : ∀ e ∈ (order (mapKeys data.partitions)).map
          (fun partitionName => (partitionName, mapGetSlice data.partitions partitionName)),
          e.1 ∈ mapKeys data.partitions := by
        intro e he
        simp only [List.mem_map] at he
        obtain ⟨k, hk, rfl⟩ := he
        exact hOrder _ k hk
      obtain ⟨h1, h2⟩ := saveMapLoop_in_range enc flt output _ fs
        (fun e he => hRange data hu e.1 (hmem e he))
      refine ⟨?_, fun q hq => h2 q (fun e he => hq data rfl e.1 (hmem e he))⟩
      rcases h1 with h1 | h1
      · exact Or.inl h1
      · exact Or.inr (Or.inr h1)

/-- Witness of claim C29, amended: for the output of the routing scenario
over three output files, with the write of `/i/1` refused, the file `/i/2`
that no partition selects still reads `old` after `saveMapResults`. -/
theorem saveMapResults_in_range_failures_witness :
    ((fun _ => Except.ok (some routedOutput) :
        String → Except GoError (Option (MapOutputFormat Nat))) "out" ≠ Except.ok none) ∧
    (∀ k ∈ mapKeys routedOutput.partitions, (partitionFile ["/i/0", "/i/1", "/i/2"] k).isSome) ∧
    (∀ k ∈ mapKeys routedOutput.partitions, partitionFile ["/i/0", "/i/1", "/i/2"] k
      ≠ some "/i/2") ∧
    FS.read (saveMapResults (fun _ => Except.ok (some routedOutput))
        (fun d => Except.ok (examplePairs d)) (fun keys => keys) refusingFaults
        [("/i/2", "old")] "out" ["/i/0", "/i/1", "/i/2"]).2 "/i/2"
      = FS.read [("/i/2", "old")] "/i/2" :=
  ⟨by simp, by decide, by decide,
    (saveMapResults_in_range_failures (fun _ => Except.ok (some routedOutput)) examplePairs
      (fun keys => keys) refusingFaults [("/i/2", "old")] "out" ["/i/0", "/i/1", "/i/2"]
      (by simp) (fun _ _ h => h)
      (fun data hd => by
        have e : routedOutput = data := Option.some.inj (Except.ok.inj hd)
        subst e
        decide)).2 "/i/2"
      (fun data hd => by
        have e : routedOutput = data := Option.some.inj (Except.ok.inj hd)
        subst e
        decide)⟩

/-- Claim C30.  Manager-side `SaveTask` and worker-side `SaveProgress` agree
on the shared layout: for every store root, store state, fault pattern and
task they use the same task-file path and the same pending-marker path, one
returns an error exactly when the other does, and they leave the same
files. -/
theorem SaveTask_equivalent_to_SaveProgress (marshal : Task → Except GoError String)
    (flt : Faults) (root : String) (fs : FS) (task : Task) :
    Manager.taskFilePath root task = taskFilePath root task ∧
    Manager.pendingFilePath root task = pendingFilePath root task ∧
    ((SaveTask marshal flt root fs task).1 = none ↔
      (SaveProgress marshal flt root fs task).1 = none) ∧
    (SaveTask marshal flt root fs task).2 = (SaveProgress marshal flt root fs task).2 := by
  have hp := managerPendingFilePath_eq root task
  have ht : Manager.taskFilePath root task = taskFilePath root task := rfl
  refine ⟨ht, hp, ?_⟩
  unfold SaveTask SaveProgress
  rw [hp, ht]
  simp only [osIsNotExist_osStat]
  cases hT : FS.read fs (taskFilePath root task) with
  | none => simp [osStat, hT, errorsWrap]
  | some old =>
    cases hP : FS.read fs (pendingFilePath root task) with
    | none => simp [osStat, hP, errorsWrap]
    | some marker => simp

end Heracles
